import Mathlib

/-!
# DHCPv4 lease server

A shallow embedding of the DHCPv4 engine of the repository
(`dhcp/v4/net.go`, `dhcp/v4/pool.go`, `dhcp/v4/server.go`, `dhcp/frame/frame.go`)
together with theorems about its address pool, lease store, client state
machine and delivery router.

Conventions of the embedding:

* a Go `byte` is a `Fin 256`; `uint32`/`uint64` values are natural numbers,
  reduced modulo `2 ^ 32` where the source arithmetic can wrap;
* a Go byte slice is an `Option (List Byte)`, `none` being the nil slice;
* a Go map is an association list without repeated keys; the order of the
  list stands for the (unspecified) iteration order of the map;
* a run-time panic, a blocked mutex acquisition and an exhausted step budget
  are results of type `Fault`;
* `time.Time` and `time.Duration` are integers (nanoseconds).
-/

namespace DHCP

/-! ## Bytes, slices and the `net` addresses -/

/-- A Go `byte`. -/
abbrev Byte := Fin 256

/-- Go conversion `byte(n)`: the low eight bits of `n`. -/
def byte (n : Nat) : Byte := ⟨n % 256, Nat.mod_lt _ (by decide)⟩

/-- A Go byte slice; `none` is the nil slice, `some []` an empty non-nil slice. -/
abbrev Slice := Option (List Byte)

/-- The bytes of a slice (none for the nil slice). -/
def Slice.bytes (s : Slice) : List Byte := s.getD []

/-- Go `net.IP`. -/
abbrev IP := Slice

/-- Go `net.HardwareAddr`. -/
abbrev HardwareAddr := Slice

/-- Ways in which a call fails to return normally. -/
inductive Fault where
  /-- A run-time panic (index out of range). -/
  | panic
  /-- The call blocks forever on the mutex, which is already held. -/
  | deadlock
  /-- A loop did not finish within the step budget. -/
  | outOfFuel
  /-- The Go error `invalid IP range` of `newIPPool`. -/
  | invalidRange
  deriving DecidableEq, Repr

/-- Go `net.v4InV6Prefix`: the twelve bytes that precede an IPv4 address in its
16-byte form. -/
def v4InV6Prefix : List Byte := [0, 0, 0, 0, 0, 0, 0, 0, 0, 0, 0xff, 0xff]

/-- Go `net.IPv4(a, b, c, d)`: the 16-byte form of the address. -/
def IPv4 (a b c d : Byte) : IP := some (v4InV6Prefix ++ [a, b, c, d])

/-- Go `net.IPv4zero`. -/
def IPv4zero : IP := IPv4 0 0 0 0

/-- Go `net.IPv4bcast`. -/
def IPv4bcast : IP := IPv4 255 255 255 255

/-- Go `net.IPv6unspecified`. -/
def IPv6unspecified : IP := some (List.replicate 16 0)

/-- Go `net.IP.To4`: the 4-byte form of an IPv4 address, nil for anything else. -/
def IP.To4 (ip : IP) : IP :=
  if ip.bytes.length = 4 then ip
  else if ip.bytes.length = 16 ∧ ip.bytes.take 12 = v4InV6Prefix then some (ip.bytes.drop 12)
  else none

/-- Go `net.IP.Equal`: equality of addresses, an IPv4 address and its 16-byte
form being equal. -/
def IP.Equal (ip x : IP) : Bool :=
  if ip.bytes.length = x.bytes.length then ip.bytes == x.bytes
  else if ip.bytes.length = 4 ∧ x.bytes.length = 16 then
    x.bytes.take 12 == v4InV6Prefix && ip.bytes == x.bytes.drop 12
  else if ip.bytes.length = 16 ∧ x.bytes.length = 4 then
    ip.bytes.take 12 == v4InV6Prefix && ip.bytes.drop 12 == x.bytes
  else false

/-- Go `net.IP.IsUnspecified`. -/
def IP.IsUnspecified (ip : IP) : Bool :=
  ip.Equal IPv4zero || ip.Equal IPv6unspecified

/-! ## `net.go` -/

/-- `notEmpty` of `net.go`. -/
def notEmpty (ip : IP) : Bool :=
  if ip = none then false
  else if ip.IsUnspecified then false
  else true

/-- `ip4ToUint32` of `net.go`; indexing the nil result of `To4` panics. -/
def ip4ToUint32 (ip : IP) : Except Fault Nat :=
  match ip.To4 with
  | some (a :: b :: c :: d :: _) =>
    .ok (a.val <<< 24 ||| b.val <<< 16 ||| c.val <<< 8 ||| d.val)
  | _ => .error .panic

/-- `uint32ToIP4` of `net.go`. -/
def uint32ToIP4 (n : Nat) : IP :=
  IPv4 (byte (n >>> 24)) (byte (n >>> 16)) (byte (n >>> 8)) (byte n)

/-- `convertMACToUint64` of `net.go`; an address of fewer than six bytes panics. -/
def convertMACToUint64 (mac : HardwareAddr) : Except Fault Nat :=
  match mac.bytes with
  | a :: b :: c :: d :: e :: f :: _ =>
    .ok (a.val <<< 40 ||| b.val <<< 32 ||| c.val <<< 24 ||| d.val <<< 16 ||| e.val <<< 8 ||| f.val)
  | _ => .error .panic

/-- `convertIPToUint64` of `net.go`. `To4` yields nil or exactly four bytes, so
the last case is never taken. -/
def convertIPToUint64 (ip : IP) : Nat :=
  match ip.To4 with
  | none => 0
  | some (a :: b :: c :: d :: _) => a.val <<< 24 ||| b.val <<< 16 ||| c.val <<< 8 ||| d.val
  | some _ => 0

/-! ## `pool.go` -/

/-- `ipPool` of `pool.go`; the field `end` is called `end_`. -/
structure ipPool where
  start : Nat
  end_ : Nat
  available : List Nat
  deriving DecidableEq, Repr

/-- The loop `for ip := startInt; ip <= endInt; ip++ { append }` of `newIPPool`,
with a budget of `fuel` evaluations of the loop condition; the counter is a
`uint32`, so the increment wraps. -/
def newIPPool.fill : Nat → Nat → Nat → List Nat → Except Fault (List Nat)
  | 0, _, _, _ => .error .outOfFuel
  | fuel + 1, ip, endInt, available =>
    if ip ≤ endInt then fill fuel ((ip + 1) % 2 ^ 32) endInt (available ++ [ip])
    else .ok available

/-- `newIPPool` of `pool.go`. -/
def newIPPool (fuel : Nat) (start end_ : IP) : Except Fault ipPool := do
  let startInt ← ip4ToUint32 start
  let endInt ← ip4ToUint32 end_
  if startInt > endInt then
    throw .invalidRange
  let available ← newIPPool.fill fuel startInt endInt []
  pure { start := startInt, end_ := endInt, available := available }

/-- `ipPool.allocate` of `pool.go`: the returned address (nil when nothing is
free) and the pool afterwards. -/
def ipPool.allocate (p : ipPool) : IP × ipPool :=
  match p.available with
  | [] => (none, p)
  | ip :: rest => (uint32ToIP4 ip, { p with available := rest })

/-- `ipPool.release` of `pool.go`. -/
def ipPool.release (p : ipPool) (ip : IP) : Except Fault ipPool := do
  let ipInt ← ip4ToUint32 ip
  if ipInt ≥ p.start ∧ ipInt ≤ p.end_ then
    pure { p with available := p.available ++ [ipInt] }
  else
    pure p

/-- The addresses returned by `n` successive calls of `allocate`, and the pool
after them. -/
def allocateMany : Nat → ipPool → List IP × ipPool
  | 0, p => ([], p)
  | n + 1, p => ((p.allocate.1 :: (allocateMany n p.allocate.2).1), (allocateMany n p.allocate.2).2)

/-! ## `packet.go` and `options.go` -/

/-- Option codes of `options.go` used by the server. -/
def OptionSubnetMask : Byte := 1
def OptionRouter : Byte := 3
def OptionDomainNameServer : Byte := 6
def OptionDomainName : Byte := 15
def OptionRequestedIPAddress : Byte := 50
def OptionIPAddressLeaseTime : Byte := 51
def OptionDHCPMessageType : Byte := 53
def OptionServerIdentifier : Byte := 54
def OptionRenewalTime : Byte := 58
def OptionRebindingTime : Byte := 59

/-- Modelled from the spec: the message-type and op constants are declared in
`packet.go`, which is not among the sources; the values are those of the
DHCP wire protocol (RFC 2132, option 53). -/
def DHCPDISCOVER : Byte := 1
def DHCPOFFER : Byte := 2
def DHCPREQUEST : Byte := 3
def DHCPDECLINE : Byte := 4
def DHCPACK : Byte := 5
def DHCPNAK : Byte := 6
def DHCPRELEASE : Byte := 7
def DHCPINFORM : Byte := 8
def BOOTREQUEST : Byte := 1
def BOOTREPLY : Byte := 2

/-- `ReplyOptions` of `options.go`. -/
structure ReplyOptions where
  LeaseTime : Int
  RenewalTime : Int
  RebindingTime : Int
  SubnetMask : Slice
  Router : IP
  DNS : List IP
  ServerIP : IP
  DomainName : List Byte
  deriving DecidableEq, Repr

/-- Modelled from the spec: `Packet` is declared in `packet.go`, which is not
among the sources. The fields are those of the data model (section 3); the
options table is the ordered list of (code, data) entries, codes may repeat. -/
structure Packet where
  Op : Byte
  HType : Byte
  HLen : Byte
  Hops : Byte
  XId : Nat
  Secs : Nat
  Flags : Nat
  CIAddr : IP
  YIAddr : IP
  SIAddr : IP
  GIAddr : IP
  CHAddr : HardwareAddr
  SName : List Byte
  File : List Byte
  Options : List (Byte × List Byte)
  deriving DecidableEq, Repr

/-- The zero value `Packet{}` of Go. -/
def Packet.zero : Packet :=
  { Op := 0, HType := 0, HLen := 0, Hops := 0, XId := 0, Secs := 0, Flags := 0,
    CIAddr := none, YIAddr := none, SIAddr := none, GIAddr := none, CHAddr := none,
    SName := [], File := [], Options := [] }

/-- Modelled from the spec: `GetOption` of the absent `packet.go`. A linear scan
that returns the data of the first entry with the given code; not-found (nil)
when there is none, which differs from a present entry with empty data. -/
def Packet.GetOption (p : Packet) (code : Byte) : Slice :=
  (p.Options.find? (fun o => o.1 = code)).map (fun o => o.2)

/-- Modelled from the spec: `AddOption` of the absent `packet.go`. Appends a new
entry; an entry with the same code is neither merged nor replaced. -/
def Packet.AddOption (p : Packet) (code : Byte) (data : List Byte) : Packet :=
  { p with Options := p.Options ++ [(code, data)] }

/-- Modelled from the spec: `IsBroadcast` of the absent `packet.go`, the test
of bit `0x8000` of `Flags`. -/
def Packet.IsBroadcast (p : Packet) : Bool :=
  p.Flags &&& 0x8000 != 0

/-- Modelled from the spec: `SetBroadcast` of the absent `packet.go`, which
sets bit `0x8000` of `Flags` and no other. -/
def Packet.SetBroadcast (p : Packet) : Packet :=
  { p with Flags := p.Flags ||| 0x8000 }

/-- Modelled from the spec: `intToBytes` of the absent `packet.go`, the
big-endian four bytes of a 32-bit count. -/
def intToBytes (n : Nat) : List Byte :=
  [byte (n >>> 24), byte (n >>> 16), byte (n >>> 8), byte n]

/-- Modelled from the spec: `flattenIPs` of the absent `packet.go`, four bytes
per address in list order. -/
def flattenIPs (ips : List IP) : List Byte :=
  (ips.map (fun ip => ip.To4.bytes)).flatten

/-- The whole seconds of a duration as a `uint32`, Go
`uint32(d.Seconds())`. -/
def seconds (d : Int) : Nat := (d / 1000000000).toNat % 2 ^ 32

/-- Modelled from the spec: the options shared by `ToOffer` and `ToAck`, after
the message type: subnet mask, router, name servers, lease, renewal and
rebinding times, server identifier, domain name. -/
def Packet.addCommonOptions (p : Packet) (o : ReplyOptions) : Packet :=
  (((((((p.AddOption OptionSubnetMask o.SubnetMask.bytes).AddOption
    OptionRouter o.Router.To4.bytes).AddOption
    OptionDomainNameServer (flattenIPs o.DNS)).AddOption
    OptionIPAddressLeaseTime (intToBytes (seconds o.LeaseTime))).AddOption
    OptionRenewalTime (intToBytes (seconds o.RenewalTime))).AddOption
    OptionRebindingTime (intToBytes (seconds o.RebindingTime))).AddOption
    OptionServerIdentifier o.ServerIP.To4.bytes).AddOption
    OptionDomainName o.DomainName

/-- Modelled from the spec: the reply header shared by `ToOffer` and `ToAck` of
the absent `packet.go`: `Op` is reply, `YIAddr` the given address, `SIAddr`
the server address, and `XId`, `Flags`, `GIAddr`, `CHAddr` are those of the
request. -/
def Packet.reply (p : Packet) (ip : IP) (o : ReplyOptions) : Packet :=
  { Packet.zero with
    Op := BOOTREPLY, YIAddr := ip, SIAddr := o.ServerIP,
    XId := p.XId, Flags := p.Flags, GIAddr := p.GIAddr, CHAddr := p.CHAddr }

/-- Modelled from the spec: `ToOffer` of the absent `packet.go`. -/
def Packet.ToOffer (p : Packet) (ip : IP) (o : ReplyOptions) : Packet :=
  ((p.reply ip o).AddOption OptionDHCPMessageType [DHCPOFFER]).addCommonOptions o

/-- Modelled from the spec: `ToAck` of the absent `packet.go`. -/
def Packet.ToAck (p : Packet) (ip : IP) (o : ReplyOptions) : Packet :=
  ((p.reply ip o).AddOption OptionDHCPMessageType [DHCPACK]).addCommonOptions o

/-- Modelled from the spec: `ToNak` of the absent `packet.go`: `Op` is reply,
`YIAddr` is `0.0.0.0`, `SIAddr` the server address, `CHAddr`, `XId`, `GIAddr`
are those of the request, and the options are the message type and the server
identifier. -/
def Packet.ToNak (p : Packet) (o : ReplyOptions) : Packet :=
  (({ Packet.zero with
      Op := BOOTREPLY, YIAddr := IPv4zero, SIAddr := o.ServerIP,
      XId := p.XId, GIAddr := p.GIAddr, CHAddr := p.CHAddr } : Packet).AddOption
    OptionDHCPMessageType [DHCPNAK]).AddOption OptionServerIdentifier o.ServerIP.To4.bytes

/-! ## `frame.go` -/

/-- Go `copy(dst[lo:hi], src)`: the first `min (hi - lo) (len src)` bytes of
`src` overwrite `dst` from index `lo` on. -/
def copySlice (dst : List Byte) (lo hi : Nat) (src : List Byte) : List Byte :=
  dst.take lo ++ src.take (hi - lo) ++ dst.drop (lo + min (hi - lo) src.length)

/-- Go `binary.BigEndian.PutUint16(data[off:], v)`. -/
def putUint16 (data : List Byte) (off : Nat) (v : Nat) : List Byte :=
  (data.set off (byte (v >>> 8))).set (off + 1) (byte v)

/-- `udp` of `frame.go`. -/
structure udp where
  Source : Nat
  Destination : Nat
  Length : Nat
  Payload : List Byte

/-- `udp.Encode` of `frame.go`; the loop `data[i+8] = b` over the payload is a
copy into `data[8:]`. -/
def udp.Encode (u : udp) : List Byte :=
  let data := List.replicate (8 + u.Payload.length) (0 : Byte)
  let data := putUint16 data 0 u.Source
  let data := putUint16 data 2 u.Destination
  let data := putUint16 data 4 u.Length
  copySlice data 8 data.length u.Payload

/-- `ipHeader` of `frame.go`. -/
structure ipHeader where
  Version : Byte
  Length : Nat
  Protocol : Byte
  Source : IP
  Destination : IP

/-- `ipHeader.Encode` of `frame.go`. -/
def ipHeader.Encode (i : ipHeader) : List Byte :=
  let data := List.replicate 20 (0 : Byte)
  let data := data.set 0 i.Version
  let data := putUint16 data 2 i.Length
  let data := data.set 8 0xFF
  let data := data.set 9 i.Protocol
  let data := copySlice data 12 16 i.Source.To4.bytes
  copySlice data 16 20 i.Destination.To4.bytes

/-- `ethernet` of `frame.go`; the field `Type` is called `Type_`. -/
structure ethernet where
  Source : HardwareAddr
  Destination : HardwareAddr
  Length : Nat
  Type_ : Nat
  Payload : List Byte

/-- `ethernet.Encode` of `frame.go`. -/
def ethernet.Encode (e : ethernet) : List Byte :=
  let eth := List.replicate (14 + e.Payload.length) (0 : Byte)
  let eth := copySlice eth 0 6 e.Destination.bytes
  let eth := copySlice eth 6 12 e.Source.bytes
  let eth := eth.set 12 (byte (e.Type_ >>> 8))
  let eth := eth.set 13 (byte e.Type_)
  copySlice eth 14 eth.length e.Payload

/-- `Ethernet` of `frame.go`. -/
structure Ethernet where
  SourcePort : Nat
  DestinationPort : Nat
  SourceIP : IP
  DestinationIP : IP
  SourceMAC : HardwareAddr
  DestinationMAC : HardwareAddr
  Payload : List Byte

/-- `Ethernet.Encode` of `frame.go`; `uint16(...)` reduces modulo `2 ^ 16`. -/
def Ethernet.Encode (p : Ethernet) : List Byte :=
  let u : udp :=
    { Source := p.SourcePort, Destination := p.DestinationPort,
      Length := (8 + p.Payload.length) % 2 ^ 16, Payload := p.Payload }
  let UDP := u.Encode
  let h : ipHeader :=
    { Version := 0x45, Length := (20 + UDP.length) % 2 ^ 16, Protocol := 17,
      Source := p.SourceIP, Destination := p.DestinationIP }
  let header := h.Encode
  let payload := header ++ UDP
  let e : ethernet :=
    { Source := p.SourceMAC, Destination := p.DestinationMAC, Length := 0,
      Type_ := 0x0800, Payload := payload }
  e.Encode

/-- What `copy(buf[k:k+6], mac)` leaves in six zero bytes: the first six bytes
of `mac`, followed by zeros when `mac` is shorter. -/
def mac6 (mac : HardwareAddr) : List Byte :=
  mac.bytes.take 6 ++ List.replicate (6 - mac.bytes.length) 0

/-- What `copy(data[k:k+4], ip.To4())` leaves in four zero bytes: the four
bytes of an IPv4 address, zeros when `To4` is nil. -/
def addr4 (ip : IP) : List Byte :=
  ip.To4.bytes.take 4 ++ List.replicate (4 - ip.To4.bytes.length) 0

/-! ## The packet codec of `packet.go` -/

/-- `OptionEnd` of `options.go`. -/
def OptionEnd : Byte := 255

/-- Modelled from the spec: the 4-byte magic cookie that follows the 236-byte
fixed part on the wire (`packet.go` is not among the sources); the value is
that of the DHCP wire protocol (RFC 2131). -/
def magicCookie : List Byte := [99, 130, 83, 99]

/-- A field of exactly `n` bytes: the first `n` bytes of `l`, padded with zeros
when `l` is shorter. -/
def padTo (n : Nat) (l : List Byte) : List Byte :=
  l.take n ++ List.replicate (n - l.length) 0

/-- The number that a list of bytes spells, most significant byte first (Go
`binary.BigEndian`). -/
def bigEndian (l : List Byte) : Nat :=
  l.foldl (fun acc b => acc * 256 + b.val) 0

/-- Go `data[lo:hi]` on a buffer that is long enough. -/
def slice (data : List Byte) (lo hi : Nat) : List Byte :=
  (data.drop lo).take (hi - lo)

/-- Modelled from the spec: the bytes of the options table, each entry as its
code, its length in one byte, and its data, in order. -/
def Packet.optionBytes (p : Packet) : List Byte :=
  (p.Options.map (fun o => o.1 :: byte o.2.length :: o.2)).flatten

/-- Modelled from the spec: the 236-byte fixed part of a packet, the fields at
their canonical offsets: `Op` 0, `HType` 1, `HLen` 2, `Hops` 3, `XId` 4..7,
`Secs` 8..9, `Flags` 10..11, `CIAddr` 12..15, `YIAddr` 16..19, `SIAddr` 20..23,
`GIAddr` 24..27, `CHAddr` 28..43, `SName` 44..107 and `File` 108..235, the last
two padded or truncated to 64 and 128 bytes. -/
def Packet.fixedBytes (p : Packet) : List Byte :=
  [p.Op, p.HType, p.HLen, p.Hops] ++ (intToBytes p.XId ++ ([byte (p.Secs >>> 8), byte p.Secs] ++
    ([byte (p.Flags >>> 8), byte p.Flags] ++ (addr4 p.CIAddr ++ (addr4 p.YIAddr ++
    (addr4 p.SIAddr ++ (addr4 p.GIAddr ++ (padTo 16 p.CHAddr.bytes ++
    (padTo 64 p.SName ++ padTo 128 p.File)))))))))

/-- Modelled from the spec: `Encode` of the absent `packet.go`: the fixed part,
the magic cookie, the options table bytes verbatim, and an END marker. -/
def Packet.Encode (p : Packet) : List Byte :=
  p.fixedBytes ++ (magicCookie ++ (p.optionBytes ++ [OptionEnd]))

/-- Modelled from the spec: the scan of the options trailer as sequential
(code, length, data) triples until the END code or the end of the input, in at
most `fuel` steps. A triple cut short by the end of the input keeps the data
that is there; a code without a length byte is dropped. -/
def scanOptions : Nat → List Byte → List (Byte × List Byte)
  | 0, _ => []
  | _ + 1, [] => []
  | _ + 1, [_] => []
  | fuel + 1, code :: len :: data =>
    if code = OptionEnd then []
    else (code, data.take len.val) :: scanOptions fuel (data.drop len.val)

/-- The error of `Decode`, `packet too short`. -/
inductive DecodeError where
  | tooShort
  deriving DecidableEq, Repr

/-- Modelled from the spec: `Decode` of the absent `packet.go`. It fails when
the input has fewer than 240 bytes; otherwise the fixed fields are read at
their offsets, the four cookie bytes are skipped unchecked, and what follows
is scanned as the options table. The addresses are the 4-byte slices and
`CHAddr` is the 16-byte field. -/
def Decode (data : List Byte) : Except DecodeError Packet :=
  if data.length < 240 then .error .tooShort
  else .ok
    { Op := data.getD 0 0, HType := data.getD 1 0, HLen := data.getD 2 0,
      Hops := data.getD 3 0,
      XId := bigEndian (slice data 4 8), Secs := bigEndian (slice data 8 10),
      Flags := bigEndian (slice data 10 12),
      CIAddr := some (slice data 12 16), YIAddr := some (slice data 16 20),
      SIAddr := some (slice data 20 24), GIAddr := some (slice data 24 28),
      CHAddr := some (slice data 28 44), SName := slice data 44 108,
      File := slice data 108 236, Options := scanOptions data.length (data.drop 240) }

/-- Modelled from the spec: `DHCPMessageType` of the absent `packet.go`: the
single byte of the message-type option, and `0` when that option is absent,
empty or longer than one byte. -/
def Packet.DHCPMessageType (p : Packet) : Byte :=
  match p.GetOption OptionDHCPMessageType with
  | some [t] => t
  | _ => 0

/-! ## `config.go` and `server.go` -/

/-- `Config` of `config.go`; `Subnet` is the `net.IPNet` pair of address and
mask. -/
structure Config where
  Start : IP
  End : IP
  Subnet : IP × Slice
  Lease : Int
  RenewalTime : Int
  RebindingTime : Int
  DNS : List IP
  Router : IP
  ServerIP : IP
  DomainName : List Byte
  deriving DecidableEq, Repr

/-- The client states of `server.go` (`iota` constants) and the result `-1`
of `determineClientState` for every other request. -/
def selecting : Int := 0
def initReboot : Int := 1
def renewing : Int := 2
def rebinding : Int := 3
def invalidState : Int := -1

/-- `binding` of `server.go`. -/
structure binding where
  IP : IP
  MAC : HardwareAddr
  Expiration : Int
  deriving DecidableEq, Repr

/-- A Go map with `uint64` keys: an association list without repeated keys,
in iteration order. -/
abbrev GoMap (β : Type) := List (Nat × β)

/-- Map lookup `v, exists := m[k]`. -/
def GoMap.get {β : Type} (m : GoMap β) (k : Nat) : Option β :=
  (m.find? (fun e => e.1 = k)).map (fun e => e.2)

/-- Map assignment `m[k] = v`. -/
def GoMap.set {β : Type} (m : GoMap β) (k : Nat) (v : β) : GoMap β :=
  if (m.get k).isSome then m.map (fun e => if e.1 = k then (k, v) else e)
  else m ++ [(k, v)]

/-- Map deletion `delete(m, k)`. -/
def GoMap.delete {β : Type} (m : GoMap β) (k : Nat) : GoMap β :=
  m.filter (fun e => e.1 ≠ k)

/-- `DHCPv4` of `server.go`. `mu` is true while the mutex is held; the two
connections are represented by what is written to them (`Sent`). -/
structure DHCPv4 where
  mu : Bool
  ipPool : ipPool
  bindings : GoMap binding
  allocated : GoMap Bool
  config : Config
  clientPort : Nat
  serverPort : Nat
  deriving DecidableEq, Repr

/-- `s.mu.Lock()`: a `sync.Mutex` is not reentrant, so locking a held mutex
blocks forever. -/
def DHCPv4.Lock (s : DHCPv4) : Except Fault DHCPv4 :=
  if s.mu then .error .deadlock else .ok { s with mu := true }

/-- `s.mu.Unlock()`. -/
def DHCPv4.Unlock (s : DHCPv4) : DHCPv4 := { s with mu := false }

/-- `MakeDHCPv4` of `server.go`. -/
def MakeDHCPv4 (fuel : Nat) (c : Config) : Except Fault DHCPv4 := do
  let pool ← newIPPool fuel c.Start c.End
  pure { mu := false, ipPool := pool, bindings := [], allocated := [], config := c,
         clientPort := 68, serverPort := 67 }

/-- `DHCPv4.createReplyOptions` of `server.go`. -/
def DHCPv4.createReplyOptions (s : DHCPv4) : ReplyOptions :=
  { LeaseTime := s.config.Lease, RenewalTime := s.config.RenewalTime,
    RebindingTime := s.config.RebindingTime, SubnetMask := s.config.Subnet.2,
    Router := s.config.Router, DNS := s.config.DNS, ServerIP := s.config.ServerIP,
    DomainName := s.config.DomainName }

/-- `DHCPv4.createOffer` of `server.go` at time `now`: the offer (none when
the pool is exhausted) and the server afterwards. -/
def DHCPv4.createOffer (s : DHCPv4) (packet : Packet) (now : Int) :
    Except Fault (Option Packet × DHCPv4) := do
  let s ← s.Lock
  let ip := s.ipPool.allocate.1
  let s := { s with ipPool := s.ipPool.allocate.2 }
  if ip = none then
    return (none, s.Unlock)
  let offer := packet.ToOffer ip s.createReplyOptions
  let key ← convertMACToUint64 packet.CHAddr
  let b : binding := { IP := ip, MAC := packet.CHAddr, Expiration := now + s.config.Lease }
  let s := { s with bindings := s.bindings.set key b }
  let s := { s with allocated := s.allocated.set (convertIPToUint64 ip) true }
  return (some offer, s.Unlock)

/-- The loop of `releaseIP` over the bindings: the first binding in iteration
order whose address equals `ip` is deleted, and the loop breaks. -/
def DHCPv4.unbind (s : DHCPv4) (ip : IP) : DHCPv4 :=
  match s.bindings.find? (fun e => e.2.IP.Equal ip) with
  | some e => { s with bindings := s.bindings.delete e.1 }
  | none => s

/-- `DHCPv4.releaseIP` of `server.go`. -/
def DHCPv4.releaseIP (s : DHCPv4) (ip : IP) : Except Fault DHCPv4 := do
  let s ← s.Lock
  let ipUint := convertIPToUint64 ip
  let s ←
    if (s.allocated.get ipUint).isSome then do
      let pool ← s.ipPool.release ip
      pure { s with allocated := s.allocated.delete ipUint, ipPool := pool }
    else pure s
  return (s.unbind ip).Unlock

/-- The loop of `cleanupExpiredLeases` over the bindings `todo` still to be
visited; an entry deleted before it is reached is not visited. -/
def DHCPv4.sweepLoop : List (Nat × binding) → DHCPv4 → Int → Except Fault DHCPv4
  | [], s, _ => .ok s
  | (mac, _) :: todo, s, now =>
    match s.bindings.get mac with
    | none => sweepLoop todo s now
    | some b =>
      if b.Expiration < now then
        match s.releaseIP b.IP with
        | .error f => .error f
        | .ok s => sweepLoop todo { s with bindings := s.bindings.delete mac } now
      else sweepLoop todo s now

/-- The sweep of `cleanupExpiredLeases` of `server.go`, run at time `now` when
the ticker fires. -/
def DHCPv4.cleanupExpiredLeases (s : DHCPv4) (now : Int) : Except Fault DHCPv4 := do
  let s ← s.Lock
  let s ← DHCPv4.sweepLoop s.bindings s now
  return s.Unlock

/-- `DHCPv4.buildResponseToBinding` of `server.go` at time `now`: the response
and the server afterwards. -/
def DHCPv4.buildResponseToBinding (s : DHCPv4) (packet : Packet) (ip : IP) (now : Int) :
    Except Fault (Packet × DHCPv4) := do
  let s ← s.Lock
  let key ← convertMACToUint64 packet.CHAddr
  match s.bindings.get key with
  | none => return (packet.ToNak s.createReplyOptions, s.Unlock)
  | some b =>
    if !b.IP.Equal ip then
      return (packet.ToNak s.createReplyOptions, s.Unlock)
    else if b.Expiration < now then
      return (packet.ToNak s.createReplyOptions, s.Unlock)
    else
      let b : binding := { b with Expiration := now + s.config.Lease }
      let s := { s with bindings := s.bindings.set key b }
      return (packet.ToAck b.IP s.createReplyOptions, s.Unlock)

/-- The local `emptyServer` of `determineClientState`. -/
def emptyServer (packet : Packet) : Bool :=
  packet.SIAddr = none || packet.SIAddr.Equal IPv4zero

/-- The local `hasRequestedIP` of `determineClientState`. -/
def hasRequestedIP (packet : Packet) : Bool :=
  packet.GetOption OptionRequestedIPAddress != none &&
    !IPv4zero.Equal (packet.GetOption OptionServerIdentifier)

/-- The local `clientIPIsZero` of `determineClientState`. -/
def clientIPIsZero (packet : Packet) : Bool :=
  packet.CIAddr.Equal IPv4zero

/-- `DHCPv4.determineClientState` of `server.go`. -/
def DHCPv4.determineClientState (_s : DHCPv4) (packet : Packet) : Int :=
  if !emptyServer packet && hasRequestedIP packet && clientIPIsZero packet then
    selecting
  else if emptyServer packet && hasRequestedIP packet && clientIPIsZero packet then
    initReboot
  else if emptyServer packet && !clientIPIsZero packet then
    if packet.IsBroadcast then rebinding else renewing
  else -1

/-- Go `net.UDPAddr`. -/
structure UDPAddr where
  IP : IP
  Port : Nat
  deriving DecidableEq, Repr

/-- What `sendPacket` writes: bytes to a destination on the ordinary UDP
socket (`udpConn`), or a frame on the raw transport (`rawConn`). -/
inductive Sent where
  | udpConn (bytes : List Byte) (addr : UDPAddr)
  | rawConn (frame : List Byte)
  deriving DecidableEq, Repr

/-- `DHCPv4.sendPacket` of `server.go`: what is written, and the packet `p`
afterwards. `Encode` is `Packet.Encode` of `packet.go`, which is not among
the sources; indexing the data of an absent or empty message-type option
panics. -/
def DHCPv4.sendPacket (s : DHCPv4) (Encode : Packet → List Byte) (p : Packet)
    (sendAddr : UDPAddr) : Except Fault (Sent × Packet) :=
  match (p.GetOption OptionDHCPMessageType).bytes with
  | [] => .error .panic
  | t :: _ =>
    let isNak : Bool := t = DHCPNAK
    if notEmpty p.GIAddr then
      if isNak then
        .ok (.udpConn (Encode p.SetBroadcast) sendAddr, p.SetBroadcast)
      else
        .ok (.udpConn (Encode p) { IP := p.GIAddr, Port := s.serverPort }, p)
    else if isNak then
      .ok (.udpConn (Encode p) { IP := IPv4bcast, Port := s.clientPort }, p)
    else if notEmpty p.CIAddr then
      .ok (.udpConn (Encode p) { IP := p.CIAddr, Port := s.clientPort }, p)
    else if !p.IsBroadcast && p.CHAddr != none then
      let e : Ethernet :=
        { SourcePort := s.serverPort % 2 ^ 16, DestinationPort := s.clientPort % 2 ^ 16,
          SourceIP := s.config.ServerIP, DestinationIP := none,
          SourceMAC := none, DestinationMAC := p.CHAddr, Payload := Encode p }
      .ok (.rawConn e.Encode, p)
    else
      .ok (.udpConn (Encode p) { sendAddr with IP := IPv4bcast }, p)

/-- `createOffer` for each request (packet and time of arrival) in turn: the
offers made, in order, and the server afterwards. -/
def DHCPv4.createOffers : DHCPv4 → List (Packet × Int) →
    Except Fault (List (Option Packet) × DHCPv4)
  | s, [] => .ok ([], s)
  | s, r :: rest =>
    match s.createOffer r.1 r.2 with
    | .error f => .error f
    | .ok (offer, s') =>
      match createOffers s' rest with
      | .error f => .error f
      | .ok (offers, s'') => .ok (offer :: offers, s'')

/-- A deferred `s.mu.Unlock()` of a function that took the mutex itself:
unlocking a mutex that is not held is a fatal run-time error. -/
def DHCPv4.UnlockHeld (s : DHCPv4) : Except Fault DHCPv4 :=
  if s.mu then .ok s.Unlock else .error .panic

/-- The tail of `handleRequest` once a branch has called
`buildResponseToBinding` under the mutex: the response is handed to
`sendPacket`, and the deferred `Unlock` of the branch runs on return.
`buildResponseToBinding` never returns nil, so the `response == nil` exit is
not taken. -/
def DHCPv4.resolve (s : DHCPv4) (Encode : Packet → List Byte) (packet : Packet) (ip : IP)
    (addr : UDPAddr) (now : Int) : Except Fault (Option Sent × DHCPv4) := do
  let r ← s.buildResponseToBinding packet ip now
  let sent ← r.2.sendPacket Encode r.1 addr
  let s' ← r.2.UnlockHeld
  return (some sent.1, s')

/-- `DHCPv4.handleRequest` of `server.go` at time `now`: what is sent (nothing
when the request is dropped) and the server afterwards. -/
def DHCPv4.handleRequest (s : DHCPv4) (Encode : Packet → List Byte) (packet : Packet)
    (addr : UDPAddr) (now : Int) : Except Fault (Option Sent × DHCPv4) :=
  let state := s.determineClientState packet
  if state = selecting then do
    let s ← s.Lock
    let requestedIP := packet.GetOption OptionRequestedIPAddress
    let serverIdentifier := packet.GetOption OptionServerIdentifier
    if !IP.Equal serverIdentifier s.config.ServerIP then
      let s' ← s.UnlockHeld
      return (none, s')
    s.resolve Encode packet requestedIP addr now
  else if state = initReboot then do
    let s ← s.Lock
    let requestedIP := packet.GetOption OptionRequestedIPAddress
    s.resolve Encode packet requestedIP addr now
  else if state = renewing ∨ state = rebinding then do
    let s ← s.Lock
    s.resolve Encode packet packet.CIAddr addr now
  else
    .ok (none, s)

/-- `DHCPv4.cleanupExpiredLeases` of `server.go` as the goroutine that `Start`
launches, given the times at which its ticker fires. The `select` has a single
case and is not inside a loop: it waits for the first tick, runs the sweep
once, and the function returns (the deferred `ticker.Stop()` stops the
ticker), so later ticks are never received. With no tick yet the goroutine is
still waiting and the server is as it was. -/
def DHCPv4.cleanupExpiredLeasesTicks (s : DHCPv4) : List Int → Except Fault DHCPv4
  | [] => .ok s
  | now :: _ => s.cleanupExpiredLeases now

/-- `winConn.WriteTo` of `conn_windows.go`: what is written to the UDP
connection. `addr` is `none` when the destination is not a `*net.UDPAddr` (the
raw-frame call passes nil); then the first 42 bytes are cut off and the rest
goes to `255.255.255.255` port 68. Slicing `p[42:]` of a shorter buffer
panics. -/
def winConn.WriteTo (p : List Byte) (addr : Option UDPAddr) : Except Fault Sent :=
  match addr with
  | some v => .ok (.udpConn p v)
  | none =>
    if p.length < 42 then .error .panic
    else .ok (.udpConn (p.drop 42) { IP := IPv4bcast, Port := 68 })

/-! ## Reachable server states -/

/-- The states a server built by `MakeDHCPv4 c` can reach. The steps are the
operations of `server.go` that return: `createOffer`, `releaseIP`,
`buildResponseToBinding` and the expiry sweep `cleanupExpiredLeases`. Two
further steps cover what the source leaves open: `expire` is one iteration of
the sweep loop for an expired binding (`releaseIP(b.IP)`, then
`delete(bindings, mac)`) as it runs when the acquisition of the mutex inside
`releaseIP` does not block, and `reorder` is a change of the iteration order
of the bindings map. -/
inductive Reachable (c : Config) : DHCPv4 → Prop
  | init (fuel : Nat) (s : DHCPv4) : MakeDHCPv4 fuel c = .ok s → Reachable c s
  | createOffer (s : DHCPv4) (packet : Packet) (now : Int) (offer : Option Packet)
      (s' : DHCPv4) :
      Reachable c s → s.createOffer packet now = .ok (offer, s') → Reachable c s'
  | releaseIP (s : DHCPv4) (ip : IP) (s' : DHCPv4) :
      Reachable c s → s.releaseIP ip = .ok s' → Reachable c s'
  | buildResponseToBinding (s : DHCPv4) (packet : Packet) (ip : IP) (now : Int)
      (response : Packet) (s' : DHCPv4) :
      Reachable c s → s.buildResponseToBinding packet ip now = .ok (response, s') →
      Reachable c s'
  | cleanupExpiredLeases (s : DHCPv4) (now : Int) (s' : DHCPv4) :
      Reachable c s → s.cleanupExpiredLeases now = .ok s' → Reachable c s'
  | expire (s : DHCPv4) (mac : Nat) (b : binding) (now : Int) (s' : DHCPv4) :
      Reachable c s → s.bindings.get mac = some b → b.Expiration < now →
      s.releaseIP b.IP = .ok s' →
      Reachable c { s' with bindings := s'.bindings.delete mac }
  | reorder (s : DHCPv4) (bindings : GoMap binding) :
      Reachable c s → s.bindings.Perm bindings → Reachable c { s with bindings := bindings }

/-- The address of a binding as a number. -/
def binding.addr (b : binding) : Nat := convertIPToUint64 b.IP

/-- The invariant of the reachable states: the mutex is free between
operations; the pool bounds are those of the configuration; the free list is
inside the range, without repetition and disjoint from the allocated set;
allocated addresses are inside the range; the bindings have distinct keys and
distinct addresses, each one an allocated address in its 16-byte form. -/
structure Inv (c : Config) (s : DHCPv4) : Prop where
  mu : s.mu = false
  startEq : ip4ToUint32 c.Start = .ok s.ipPool.start
  endEq : ip4ToUint32 c.End = .ok s.ipPool.end_
  inRange : ∀ a ∈ s.ipPool.available, s.ipPool.start ≤ a ∧ a ≤ s.ipPool.end_
  nodup : s.ipPool.available.Nodup
  free : ∀ a ∈ s.ipPool.available, s.allocated.get a = none
  allocRange : ∀ e ∈ s.allocated, s.ipPool.start ≤ e.1 ∧ e.1 ≤ s.ipPool.end_
  keys : (s.bindings.map Prod.fst).Nodup
  addrs : (s.bindings.map (fun e => e.2.addr)).Nodup
  bound : ∀ e ∈ s.bindings, e.2.IP = uint32ToIP4 e.2.addr ∧ (s.allocated.get e.2.addr).isSome

/-! ## Example values -/

/-- A configuration over the pool `10.0.0.10 .. 10.0.0.12` with a lease of one
hour, served by `10.0.0.1`. -/
def exampleConfig : Config :=
  { Start := IPv4 10 0 0 10, End := IPv4 10 0 0 12,
    Subnet := (IPv4 10 0 0 0, some [255, 255, 255, 0]),
    Lease := 3600000000000, RenewalTime := 1800000000000, RebindingTime := 2700000000000,
    DNS := [IPv4 8 8 8 8], Router := IPv4 10 0 0 1, ServerIP := IPv4 10 0 0 1,
    DomainName := [] }

/-- The server that `MakeDHCPv4` builds from `exampleConfig`. -/
def exampleServer : DHCPv4 :=
  { mu := false, ipPool := ⟨167772170, 167772172, [167772170, 167772171, 167772172]⟩,
    bindings := [], allocated := [], config := exampleConfig,
    clientPort := 68, serverPort := 67 }

/-- A client packet from the hardware address `00:11:22:33:44:xx` with the
given options and no addresses filled in. -/
def examplePacket (x : Byte) (options : List (Byte × List Byte)) : Packet :=
  { Packet.zero with
    Op := BOOTREQUEST, HType := 1, HLen := 6, XId := 12345,
    CHAddr := some [0x00, 0x11, 0x22, 0x33, 0x44, x], Options := options }

/-- The example server after an offer of `10.0.0.10` to `00:11:22:33:44:55` made
at time `100`. -/
def exampleBoundServer : DHCPv4 :=
  { exampleServer with
    ipPool := ⟨167772170, 167772172, [167772171, 167772172]⟩,
    bindings := [(73588229205,
      { IP := IPv4 10 0 0 10, MAC := some [0x00, 0x11, 0x22, 0x33, 0x44, 0x55],
        Expiration := 3600000000100 })],
    allocated := [(167772170, true)] }

/-- Three DISCOVER packets from `00:11:22:33:44:55`, `:56` and `:57`, arriving
at times `100`, `200` and `300`. -/
def exampleDiscovers : List (Packet × Int) :=
  [(examplePacket 0x55 [(OptionDHCPMessageType, [DHCPDISCOVER])], 100),
   (examplePacket 0x56 [(OptionDHCPMessageType, [DHCPDISCOVER])], 200),
   (examplePacket 0x57 [(OptionDHCPMessageType, [DHCPDISCOVER])], 300)]

/-- The OFFER of `10.0.0.10` that the example server builds for a DISCOVER
from `00:11:22:33:44:55`: no relay, no client address, broadcast flag clear. -/
def exampleOffer : Packet :=
  (examplePacket 0x55 [(OptionDHCPMessageType, [DHCPDISCOVER])]).ToOffer (IPv4 10 0 0 10)
    exampleServer.createReplyOptions


/-- A REQUEST from `00:11:22:33:44:55` with the given server address, client
address, flags and options. -/
def exampleRequest (siaddr ciaddr : IP) (flags : Nat) (options : List (Byte × List Byte)) :
    Packet :=
  { examplePacket 0x55 ((OptionDHCPMessageType, [DHCPREQUEST]) :: options) with
    SIAddr := siaddr, CIAddr := ciaddr, Flags := flags }

/-- One minute, one hour, as durations in nanoseconds. -/
def minute : Int := 60000000000
def hour : Int := 3600000000000

/-- A REQUEST in the selecting state that names the server `10.0.0.1` and asks
for `10.0.0.10`. -/
def exampleSelecting : Packet :=
  exampleRequest (some [10, 0, 0, 1]) (some [0, 0, 0, 0]) 0
    [(OptionRequestedIPAddress, [10, 0, 0, 10]), (OptionServerIdentifier, [10, 0, 0, 1])]

/-- A REQUEST in the selecting state that names another server, `10.0.0.2`. -/
def exampleSelectingOther : Packet :=
  exampleRequest (some [10, 0, 0, 1]) (some [0, 0, 0, 0]) 0
    [(OptionRequestedIPAddress, [10, 0, 0, 10]), (OptionServerIdentifier, [10, 0, 0, 2])]

/-- A REQUEST in the init-reboot state for `10.0.0.10`. -/
def exampleInitReboot : Packet :=
  exampleRequest (some [0, 0, 0, 0]) (some [0, 0, 0, 0]) 0
    [(OptionRequestedIPAddress, [10, 0, 0, 10])]

/-- A REQUEST in the renewing state from the client address `10.0.0.10`. -/
def exampleRenewing : Packet :=
  exampleRequest (some [0, 0, 0, 0]) (some [10, 0, 0, 10]) 0 []

/-- A REQUEST in the rebinding state from the client address `10.0.0.10`. -/
def exampleRebinding : Packet :=
  exampleRequest (some [0, 0, 0, 0]) (some [10, 0, 0, 10]) 0x8000 []

/-- A REQUEST with a zero server address, no requested-address option and a
zero client address. -/
def exampleInvalid : Packet :=
  exampleRequest (some [0, 0, 0, 0]) (some [0, 0, 0, 0]) 0 []

/-- The packet of `TestPacketEncodeDecode` in `packet_test.go`. -/
def testPacket : Packet :=
  { Op := BOOTREQUEST, HType := 1, HLen := 6, Hops := 0, XId := 12345, Secs := 60,
    Flags := 0x8000, CIAddr := IPv4 192 168 1 100, YIAddr := IPv4 0 0 0 0,
    SIAddr := IPv4 192 168 1 1, GIAddr := IPv4 192 168 1 1,
    CHAddr := some [0x00, 0x11, 0x22, 0x33, 0x44, 0x55],
    SName := List.replicate 64 0, File := List.replicate 128 0,
    Options := [(OptionDHCPMessageType, [DHCPDISCOVER]), (55, [1, 3, 6, 15])] }

/-! ## Address conversions -/

theorem shift_or_eq_add (a b c d : Nat) (hb : b < 256) (hc : c < 256) (hd : d < 256) :
    a <<< 24 ||| b <<< 16 ||| c <<< 8 ||| d = a * 2 ^ 24 + b * 2 ^ 16 + c * 2 ^ 8 + d := by
  have e1 : c <<< 8 ||| d = 2 ^ 8 * c + d := by
    rw [Nat.shiftLeft_eq, Nat.mul_comm, ← Nat.mul_add_lt_is_or (by omega)]
  have e2 : b <<< 16 ||| (2 ^ 8 * c + d) = 2 ^ 16 * b + (2 ^ 8 * c + d) := by
    rw [Nat.shiftLeft_eq, Nat.mul_comm, ← Nat.mul_add_lt_is_or (by omega)]
  have e3 : a <<< 24 ||| (2 ^ 16 * b + (2 ^ 8 * c + d))
      = 2 ^ 24 * a + (2 ^ 16 * b + (2 ^ 8 * c + d)) := by
    rw [Nat.shiftLeft_eq, Nat.mul_comm, ← Nat.mul_add_lt_is_or (by omega)]
  rw [Nat.or_assoc, Nat.or_assoc, e1, e2, e3]
  omega

theorem To4_uint32ToIP4 (n : Nat) :
    (uint32ToIP4 n).To4 = some [byte (n >>> 24), byte (n >>> 16), byte (n >>> 8), byte n] := by
  simp [uint32ToIP4, IPv4, IP.To4, Slice.bytes, v4InV6Prefix]

theorem bytes_value (n : Nat) (h : n < 2 ^ 32) :
    (byte (n >>> 24)).val <<< 24 ||| (byte (n >>> 16)).val <<< 16 |||
      (byte (n >>> 8)).val <<< 8 ||| (byte n).val = n := by
  rw [shift_or_eq_add _ _ _ _ (byte _).isLt (byte _).isLt (byte _).isLt]
  simp only [byte, Nat.shiftRight_eq_div_pow]
  omega

theorem ip4ToUint32_uint32ToIP4 (n : Nat) (h : n < 2 ^ 32) :
    ip4ToUint32 (uint32ToIP4 n) = .ok n := by
  simp only [ip4ToUint32, To4_uint32ToIP4, bytes_value n h]

theorem convertIPToUint64_uint32ToIP4 (n : Nat) (h : n < 2 ^ 32) :
    convertIPToUint64 (uint32ToIP4 n) = n := by
  simp only [convertIPToUint64, To4_uint32ToIP4, bytes_value n h]

theorem uint32ToIP4_ne_none (n : Nat) : uint32ToIP4 n ≠ none := by
  simp [uint32ToIP4, IPv4]

theorem ip4ToUint32_lt (ip : IP) (n : Nat) (h : ip4ToUint32 ip = .ok n) : n < 2 ^ 32 := by
  unfold ip4ToUint32 at h
  split at h
  · rename_i a b c d _ _
    injection h with h
    rw [shift_or_eq_add _ _ _ _ b.isLt c.isLt d.isLt] at h
    have := a.isLt
    have := b.isLt
    have := c.isLt
    have := d.isLt
    omega
  · cases h


/-! ## The address pool -/

theorem fill_ok (fuel : Nat) : ∀ (ip e : Nat) (acc l : List Nat), ip ≤ e → e < 2 ^ 32 →
    newIPPool.fill fuel ip e acc = .ok l →
    e + 1 < 2 ^ 32 ∧ l = acc ++ List.range' ip (e + 1 - ip) := by
  induction fuel with
  | zero => intro ip e acc l _ _ h; simp [newIPPool.fill] at h
  | succ fuel ih =>
    intro ip e acc l hip he h
    rw [newIPPool.fill, if_pos hip] at h
    rcases Nat.lt_or_ge ip e with hlt | hge
    · have hmod : (ip + 1) % 2 ^ 32 = ip + 1 := Nat.mod_eq_of_lt (by omega)
      rw [hmod] at h
      obtain ⟨h1, h2⟩ := ih (ip + 1) e _ l (by omega) he h
      refine ⟨h1, ?_⟩
      have hk : e + 1 - ip = (e + 1 - (ip + 1)) + 1 := by omega
      rw [h2, hk, List.range'_succ, List.append_assoc]
      rfl
    · have hie : ip = e := by omega
      subst hie
      by_cases hmax : ip + 1 < 2 ^ 32
      · have hmod : (ip + 1) % 2 ^ 32 = ip + 1 := Nat.mod_eq_of_lt hmax
        rw [hmod] at h
        cases fuel with
        | zero => simp [newIPPool.fill] at h
        | succ fuel =>
          rw [newIPPool.fill, if_neg (by omega)] at h
          injection h with h
          refine ⟨hmax, ?_⟩
          have hk : ip + 1 - ip = 1 := by omega
          rw [← h, hk]
          rfl
      · have hmod : (ip + 1) % 2 ^ 32 = 0 := by
          have : ip + 1 = 2 ^ 32 := by omega
          rw [this, Nat.mod_self]
        rw [hmod] at h
        have := (ih 0 ip _ l (Nat.zero_le _) he h).1
        omega

theorem fill_complete (fuel : Nat) : ∀ (ip e : Nat) (acc : List Nat), e + 1 < 2 ^ 32 →
    ip ≤ e + 1 → e + 1 - ip < fuel →
    newIPPool.fill fuel ip e acc = .ok (acc ++ List.range' ip (e + 1 - ip)) := by
  induction fuel with
  | zero => intro ip e acc _ _ h; omega
  | succ fuel ih =>
    intro ip e acc he hip hf
    rw [newIPPool.fill]
    by_cases hle : ip ≤ e
    · rw [if_pos hle, Nat.mod_eq_of_lt (by omega), ih (ip + 1) e _ he (by omega) (by omega)]
      have hk : e + 1 - ip = (e + 1 - (ip + 1)) + 1 := by omega
      rw [hk, List.range'_succ, List.append_assoc]
      rfl
    · rw [if_neg hle]
      have hk : e + 1 - ip = 0 := by omega
      rw [hk]
      simp

theorem fill_diverges (fuel : Nat) : ∀ (ip : Nat) (acc : List Nat), ip < 2 ^ 32 →
    newIPPool.fill fuel ip (2 ^ 32 - 1) acc = .error .outOfFuel := by
  induction fuel with
  | zero => intro ip acc _; rfl
  | succ fuel ih =>
    intro ip acc hip
    rw [newIPPool.fill, if_pos (by omega)]
    exact ih _ _ (Nat.mod_lt _ (by decide))

theorem newIPPool_ok (fuel : Nat) (start end_ : IP) (p : ipPool)
    (h : newIPPool fuel start end_ = .ok p) :
    ip4ToUint32 start = .ok p.start ∧ ip4ToUint32 end_ = .ok p.end_ ∧ p.start ≤ p.end_ ∧
      p.end_ + 1 < 2 ^ 32 ∧ p.available = List.range' p.start (p.end_ + 1 - p.start) := by
  unfold newIPPool at h
  cases hs : ip4ToUint32 start with
  | error f => rw [hs] at h; cases h
  | ok s =>
    cases he : ip4ToUint32 end_ with
    | error f => rw [hs, he] at h; cases h
    | ok e =>
      rw [hs, he] at h
      by_cases hgt : s > e
      · simp [bind, Except.bind, hgt, throw, throwThe, MonadExceptOf.throw] at h
      · cases hf : newIPPool.fill fuel s e [] with
        | error f => simp [bind, Except.bind, hgt, hf, pure, Except.pure] at h
        | ok l =>
          simp [bind, Except.bind, hgt, hf, pure, Except.pure] at h
          obtain ⟨h1, h2⟩ := fill_ok fuel s e [] l (by omega) (ip4ToUint32_lt _ _ he) hf
          subst h
          exact ⟨rfl, rfl, by simpa using hgt, h1, by simpa using h2⟩

theorem newIPPool_complete (start end_ : IP) (s e fuel : Nat)
    (hs : ip4ToUint32 start = .ok s) (he : ip4ToUint32 end_ = .ok e) (hle : s ≤ e)
    (hmax : e + 1 < 2 ^ 32) (hf : e + 1 - s < fuel) :
    newIPPool fuel start end_
      = .ok { start := s, end_ := e, available := List.range' s (e + 1 - s) } := by
  unfold newIPPool
  rw [hs, he]
  have hgt : ¬ s > e := by omega
  simp [bind, Except.bind, hgt, pure, Except.pure,
    fill_complete fuel s e [] hmax (by omega) hf]

theorem allocateMany_eq (n : Nat) : ∀ (p : ipPool), n ≤ p.available.length →
    allocateMany n p
      = ((p.available.take n).map uint32ToIP4, { p with available := p.available.drop n }) := by
  induction n with
  | zero => intro p _; simp [allocateMany]
  | succ n ih =>
    intro p hn
    obtain ⟨st, en, av⟩ := p
    cases av with
    | nil => simp at hn
    | cons a rest =>
      simp only [List.length_cons, Nat.add_le_add_iff_right] at hn
      have h := ih { start := st, end_ := en, available := rest } hn
      simp [allocateMany, ipPool.allocate, h]


theorem newIPPool_invalidRange_iff (fuel : Nat) (start end_ : IP) :
    newIPPool fuel start end_ = .error .invalidRange ↔
      ∃ s e, ip4ToUint32 start = .ok s ∧ ip4ToUint32 end_ = .ok e ∧ s > e := by
  unfold newIPPool
  cases hs : ip4ToUint32 start with
  | error f =>
    have hf : f = .panic := by
      unfold ip4ToUint32 at hs; split at hs <;> simp_all
    subst hf
    simp [bind, Except.bind]
  | ok s =>
    cases he : ip4ToUint32 end_ with
    | error f =>
      have hf : f = .panic := by
        unfold ip4ToUint32 at he; split at he <;> simp_all
      subst hf
      simp [bind, Except.bind]
    | ok e =>
      by_cases hgt : s > e
      · simp [bind, Except.bind, hgt, throw, throwThe, MonadExceptOf.throw]
      · have hne : newIPPool.fill fuel s e [] ≠ .error .invalidRange := by
          have : ∀ (fuel ip : Nat) (acc : List Nat),
              newIPPool.fill fuel ip e acc ≠ .error .invalidRange := by
            intro fuel
            induction fuel with
            | zero => intro ip acc; simp [newIPPool.fill]
            | succ fuel ih =>
              intro ip acc
              rw [newIPPool.fill]
              split
              · exact ih _ _
              · simp
          exact this _ _ _
        cases hf : newIPPool.fill fuel s e [] with
        | error f =>
          rw [hf] at hne
          simp only [bind, Except.bind, hgt, hf, pure, Except.pure, if_false]
          constructor
          · intro h
            injection h with h
            exact absurd (by rw [h]) hne
          · rintro ⟨a, b, ha, hb, hab⟩
            injection ha with ha
            injection hb with hb
            omega
        | ok l => simp [bind, Except.bind, hgt, hf, pure, Except.pure]

/-- C1: for every IPv4 pair `start ≤ end` (as 32-bit numbers `s ≤ e`) with
`N = e - s + 1` addresses, `newIPPool` returns a pool whenever `end` is below
`255.255.255.255`, and on every pool that `newIPPool start end` returns the
first `N` calls of `allocate` return `s, s + 1, ..., e` in that order, which
are `N` distinct addresses inside `[start, end]`, and call `N + 1` returns nil. -/
theorem newIPPool_allocate_in_order (start end_ : IP) (s e : Nat)
    (hs : ip4ToUint32 start = .ok s) (he : ip4ToUint32 end_ = .ok e) (hle : s ≤ e) :
    (e + 1 < 2 ^ 32 → ∃ p, newIPPool (e - s + 2) start end_ = .ok p) ∧
    ∀ (fuel : Nat) (p : ipPool), newIPPool fuel start end_ = .ok p →
      (allocateMany (e - s + 1) p).1
          = (List.range (e - s + 1)).map (fun k => uint32ToIP4 (s + k)) ∧
        (allocateMany (e - s + 1) p).1.Nodup ∧
        (∀ ip ∈ (allocateMany (e - s + 1) p).1,
          ∃ n, ip4ToUint32 ip = .ok n ∧ s ≤ n ∧ n ≤ e) ∧
        (allocateMany (e - s + 1) p).2.allocate.1 = none := by
  refine ⟨fun hmax => ⟨_, newIPPool_complete start end_ s e _ hs he hle hmax (by omega)⟩, ?_⟩
  intro fuel p hp
  obtain ⟨h1, h2, _, hmax, hav⟩ := newIPPool_ok fuel start end_ p hp
  rw [hs] at h1
  rw [he] at h2
  injection h1 with h1
  injection h2 with h2
  subst h1 h2
  have hk : p.end_ + 1 - p.start = p.end_ - p.start + 1 := by omega
  rw [hk] at hav
  have hlen : p.available.length = p.end_ - p.start + 1 := by rw [hav]; simp
  have hall := allocateMany_eq (p.end_ - p.start + 1) p (by omega)
  have htake : List.take (p.end_ - p.start + 1) p.available = p.available :=
    List.take_of_length_le (by omega)
  have hdrop : List.drop (p.end_ - p.start + 1) p.available = [] :=
    List.drop_of_length_le (by omega)
  rw [htake, hdrop] at hall
  have hlist : (allocateMany (p.end_ - p.start + 1) p).1
      = (List.range (p.end_ - p.start + 1)).map (fun k => uint32ToIP4 (p.start + k)) := by
    rw [hall, hav, List.range'_eq_map_range, List.map_map]
    rfl
  refine ⟨hlist, ?_, ?_, ?_⟩
  · rw [hlist]
    refine List.Nodup.map_on ?_ (List.nodup_range _)
    intro a ha b hb hab
    have ha := List.mem_range.mp ha
    have hb := List.mem_range.mp hb
    have e1 := ip4ToUint32_uint32ToIP4 (p.start + a) (by omega)
    have e2 := ip4ToUint32_uint32ToIP4 (p.start + b) (by omega)
    rw [hab, e2] at e1
    injection e1 with e1
    omega
  · intro ip hip
    rw [hlist] at hip
    obtain ⟨k, hk, rfl⟩ := List.mem_map.mp hip
    have hk := List.mem_range.mp hk
    exact ⟨p.start + k, ip4ToUint32_uint32ToIP4 _ (by omega), by omega, by omega⟩
  · rw [hall]
    rfl

/-- The pool over `10.0.0.10 .. 10.0.0.12` hands out `.10`, `.11`, `.12` and then
nothing. -/
theorem newIPPool_allocate_in_order_witness :
    ip4ToUint32 (IPv4 10 0 0 10) = .ok 167772170 ∧
    ip4ToUint32 (IPv4 10 0 0 12) = .ok 167772172 ∧
    newIPPool 4 (IPv4 10 0 0 10) (IPv4 10 0 0 12)
      = .ok ⟨167772170, 167772172, [167772170, 167772171, 167772172]⟩ ∧
    (allocateMany 3 ⟨167772170, 167772172, [167772170, 167772171, 167772172]⟩).1
      = [IPv4 10 0 0 10, IPv4 10 0 0 11, IPv4 10 0 0 12] ∧
    (allocateMany 3 ⟨167772170, 167772172, [167772170, 167772171, 167772172]⟩).2.allocate.1
      = none :=
  have h := (newIPPool_allocate_in_order (IPv4 10 0 0 10) (IPv4 10 0 0 12) 167772170 167772172
    rfl rfl (by decide)).2 4 ⟨167772170, 167772172, [167772170, 167772171, 167772172]⟩ rfl
  ⟨rfl, rfl, rfl, h.1, h.2.2.2⟩

/-- C2: at `start = end = 255.255.255.255` the fill loop of `newIPPool` has not
finished after any number of steps: the 32-bit counter wraps to `0` and stays
below `end`, so neither a pool nor the invalid-range error is returned. -/
theorem newIPPool_broadcast_end_never_returns (fuel : Nat) :
    newIPPool fuel IPv4bcast IPv4bcast = .error .outOfFuel := by
  have h : ip4ToUint32 IPv4bcast = .ok (2 ^ 32 - 1) := rfl
  have hf := fill_diverges fuel (2 ^ 32 - 1) [] (by decide)
  unfold newIPPool
  rw [h]
  simp only [bind, Except.bind, pure, Except.pure, hf]
  simp


/-! ## The client state machine -/

/-- C3: `determineClientState` returns one of selecting, init-reboot, renewing,
rebinding, invalid (`-1`), and follows the table: selecting iff (not
`emptyServer`, `hasRequestedIP`, `clientIPIsZero`); init-reboot iff
(`emptyServer`, `hasRequestedIP`, `clientIPIsZero`); rebinding iff
(`emptyServer`, not `clientIPIsZero`, broadcast flag); renewing iff
(`emptyServer`, not `clientIPIsZero`, no broadcast flag); invalid in every
other case. -/
theorem determineClientState_table (s : DHCPv4) (p : Packet) :
    (s.determineClientState p = selecting ∨ s.determineClientState p = initReboot ∨
      s.determineClientState p = renewing ∨ s.determineClientState p = rebinding ∨
      s.determineClientState p = invalidState) ∧
    (s.determineClientState p = selecting ↔
      emptyServer p = false ∧ hasRequestedIP p = true ∧ clientIPIsZero p = true) ∧
    (s.determineClientState p = initReboot ↔
      emptyServer p = true ∧ hasRequestedIP p = true ∧ clientIPIsZero p = true) ∧
    (s.determineClientState p = rebinding ↔
      emptyServer p = true ∧ clientIPIsZero p = false ∧ p.IsBroadcast = true) ∧
    (s.determineClientState p = renewing ↔
      emptyServer p = true ∧ clientIPIsZero p = false ∧ p.IsBroadcast = false) ∧
    (s.determineClientState p = invalidState ↔
      ¬ (emptyServer p = false ∧ hasRequestedIP p = true ∧ clientIPIsZero p = true) ∧
      ¬ (emptyServer p = true ∧ hasRequestedIP p = true ∧ clientIPIsZero p = true) ∧
      ¬ (emptyServer p = true ∧ clientIPIsZero p = false)) := by
  unfold DHCPv4.determineClientState
  cases emptyServer p <;> cases hasRequestedIP p <;> cases clientIPIsZero p <;>
    cases p.IsBroadcast <;> decide

theorem IPv4zero_Equal_iff (x : IP) :
    IPv4zero.Equal x = true ↔
      x.bytes = [0, 0, 0, 0] ∨ x.bytes = v4InV6Prefix ++ [0, 0, 0, 0] := by
  have hz : IPv4zero.bytes = v4InV6Prefix ++ [0, 0, 0, 0] := rfl
  unfold IP.Equal
  rw [hz]
  by_cases h16 : x.bytes.length = 16
  · have hl : (v4InV6Prefix ++ [0, 0, 0, 0] : List Byte).length = x.bytes.length := by
      rw [h16]; rfl
    rw [if_pos hl]
    constructor
    · intro h
      right
      exact (beq_iff_eq.mp h).symm
    · rintro (h | h)
      · rw [h] at h16; simp at h16
      · rw [h]; simp
  · by_cases h4 : x.bytes.length = 4
    · have hl : ¬ (v4InV6Prefix ++ [0, 0, 0, 0] : List Byte).length = x.bytes.length := by
        rw [h4]; decide
      have hl2 : ¬ ((v4InV6Prefix ++ [0, 0, 0, 0] : List Byte).length = 4 ∧
          x.bytes.length = 16) := by
        rintro ⟨_, h⟩; exact h16 h
      have hl3 : (v4InV6Prefix ++ [0, 0, 0, 0] : List Byte).length = 16 ∧
          x.bytes.length = 4 := ⟨rfl, h4⟩
      rw [if_neg hl, if_neg hl2, if_pos hl3]
      constructor
      · intro h
        left
        simp only [Bool.and_eq_true, beq_iff_eq] at h
        exact h.2.symm
      · rintro (h | h)
        · rw [h]; decide
        · rw [h] at h4; simp [v4InV6Prefix] at h4
    · have hl : ¬ (v4InV6Prefix ++ [0, 0, 0, 0] : List Byte).length = x.bytes.length := by
        intro h; exact h16 h.symm
      have hl2 : ¬ ((v4InV6Prefix ++ [0, 0, 0, 0] : List Byte).length = 4 ∧
          x.bytes.length = 16) := by
        rintro ⟨_, h⟩; exact h16 h
      have hl3 : ¬ ((v4InV6Prefix ++ [0, 0, 0, 0] : List Byte).length = 16 ∧
          x.bytes.length = 4) := by
        rintro ⟨_, h⟩; exact h4 h
      rw [if_neg hl, if_neg hl2, if_neg hl3]
      constructor
      · intro h; cases h
      · rintro (h | h)
        · rw [h] at h4; simp at h4
        · rw [h] at h16; simp [v4InV6Prefix] at h16

/-- C4 as stated fails: a REQUEST with option 50, no option 54, zero `SIAddr` and
zero `CIAddr` has `hasRequestedIP` true and is classified init-reboot. -/
theorem hasRequestedIP_without_server_identifier :
    ({ examplePacket 0x55 [(OptionDHCPMessageType, [DHCPREQUEST]),
          (OptionRequestedIPAddress, [10, 0, 0, 10])] with
        SIAddr := some [0, 0, 0, 0], CIAddr := some [0, 0, 0, 0] } : Packet).GetOption
      OptionServerIdentifier = none ∧
    hasRequestedIP { examplePacket 0x55 [(OptionDHCPMessageType, [DHCPREQUEST]),
          (OptionRequestedIPAddress, [10, 0, 0, 10])] with
        SIAddr := some [0, 0, 0, 0], CIAddr := some [0, 0, 0, 0] } = true ∧
    exampleServer.determineClientState { examplePacket 0x55
          [(OptionDHCPMessageType, [DHCPREQUEST]), (OptionRequestedIPAddress, [10, 0, 0, 10])] with
        SIAddr := some [0, 0, 0, 0], CIAddr := some [0, 0, 0, 0] } = initReboot :=
  ⟨by decide, by decide, by decide⟩

/-- C4, amended: `hasRequestedIP` holds exactly when option 50 is present and
the value of option 54 is not the address `0.0.0.0` (in its 4-byte or its
16-byte form); an absent option 54 is not zero. So a packet with option 50 and
no option 54 has `hasRequestedIP`, and with a zero `CIAddr` it is classified
init-reboot when `emptyServer` holds and selecting when it does not. -/
theorem hasRequestedIP_iff (s : DHCPv4) (p : Packet) :
    (hasRequestedIP p = true ↔
      p.GetOption OptionRequestedIPAddress ≠ none ∧
      (p.GetOption OptionServerIdentifier).bytes ≠ [0, 0, 0, 0] ∧
      (p.GetOption OptionServerIdentifier).bytes ≠ v4InV6Prefix ++ [0, 0, 0, 0]) ∧
    (p.GetOption OptionRequestedIPAddress ≠ none →
      p.GetOption OptionServerIdentifier = none →
      hasRequestedIP p = true ∧
      (clientIPIsZero p = true →
        s.determineClientState p = if emptyServer p then initReboot else selecting)) := by
  have hiff : hasRequestedIP p = true ↔
      p.GetOption OptionRequestedIPAddress ≠ none ∧
      (p.GetOption OptionServerIdentifier).bytes ≠ [0, 0, 0, 0] ∧
      (p.GetOption OptionServerIdentifier).bytes ≠ v4InV6Prefix ++ [0, 0, 0, 0] := by
    unfold hasRequestedIP
    rw [Bool.and_eq_true, bne_iff_ne, Bool.not_eq_true', ← Bool.not_eq_true,
      IPv4zero_Equal_iff, not_or]
  refine ⟨hiff, ?_⟩
  intro h50 h54
  have hh : hasRequestedIP p = true := by
    rw [hiff, h54]
    exact ⟨h50, by decide, by decide⟩
  refine ⟨hh, ?_⟩
  intro hz
  unfold DHCPv4.determineClientState
  rw [hh, hz]
  cases emptyServer p <;> rfl

/-- The amended C4 at a REQUEST that carries only options 53 and 50 and names
a server in `SIAddr`: it is classified selecting. -/
theorem hasRequestedIP_iff_witness :
    hasRequestedIP { examplePacket 0x55 [(OptionDHCPMessageType, [DHCPREQUEST]),
          (OptionRequestedIPAddress, [10, 0, 0, 10])] with
        SIAddr := some [10, 0, 0, 1], CIAddr := some [0, 0, 0, 0] } = true ∧
    exampleServer.determineClientState { examplePacket 0x55
          [(OptionDHCPMessageType, [DHCPREQUEST]), (OptionRequestedIPAddress, [10, 0, 0, 10])] with
        SIAddr := some [10, 0, 0, 1], CIAddr := some [0, 0, 0, 0] } = selecting :=
  have h := (hasRequestedIP_iff exampleServer { examplePacket 0x55
          [(OptionDHCPMessageType, [DHCPREQUEST]), (OptionRequestedIPAddress, [10, 0, 0, 10])] with
        SIAddr := some [10, 0, 0, 1], CIAddr := some [0, 0, 0, 0] }).2 (by decide) (by decide)
  ⟨h.1, h.2 (by decide)⟩


/-! ## Maps -/

theorem GoMap.get_nil {β : Type} (k : Nat) : GoMap.get ([] : GoMap β) k = none := rfl

theorem GoMap.get_cons {β : Type} (e : Nat × β) (m : GoMap β) (k : Nat) :
    GoMap.get (e :: m) k = if e.1 = k then some e.2 else GoMap.get m k := by
  unfold GoMap.get
  by_cases h : e.1 = k <;> simp [List.find?, h]

theorem GoMap.get_eq_none_iff {β : Type} (m : GoMap β) (k : Nat) :
    GoMap.get m k = none ↔ ∀ e ∈ m, e.1 ≠ k := by
  induction m with
  | nil => simp [GoMap.get_nil]
  | cons e m ih =>
    rw [GoMap.get_cons]
    by_cases h : e.1 = k
    · simp [h]
    · simp [h, ih]

theorem GoMap.get_append_single {β : Type} (m : GoMap β) (k k' : Nat) (v : β) :
    GoMap.get (m ++ [(k, v)]) k'
      = if (GoMap.get m k').isSome then GoMap.get m k' else if k = k' then some v else none := by
  induction m with
  | nil => simp [GoMap.get_cons, GoMap.get_nil]
  | cons e m ih =>
    rw [List.cons_append, GoMap.get_cons, GoMap.get_cons, ih]
    by_cases h : e.1 = k' <;> simp [h]

theorem GoMap.get_map_replace {β : Type} (m : GoMap β) (k k' : Nat) (v : β) :
    GoMap.get (m.map (fun e => if e.1 = k then (k, v) else e)) k'
      = if k' = k then (if (GoMap.get m k).isSome then some v else none) else GoMap.get m k' := by
  induction m with
  | nil => simp [GoMap.get_nil]
  | cons e m ih =>
    rw [List.map_cons, GoMap.get_cons, GoMap.get_cons, ih]
    by_cases h : e.1 = k
    · by_cases h' : k' = k
      · subst h'; simp [h]
      · have : ¬ k = k' := fun x => h' x.symm
        simp [h, h', this, GoMap.get_cons]
    · by_cases h' : k' = k
      · subst h'; simp [h, GoMap.get_cons]
      · by_cases h'' : e.1 = k' <;> simp [h, h', h'', GoMap.get_cons]

theorem GoMap.get_set_self {β : Type} (m : GoMap β) (k : Nat) (v : β) :
    GoMap.get (GoMap.set m k v) k = some v := by
  unfold GoMap.set
  by_cases h : (GoMap.get m k).isSome
  · rw [if_pos h, GoMap.get_map_replace]; simp [h]
  · rw [if_neg h, GoMap.get_append_single]; simp [h]

theorem GoMap.get_set_of_ne {β : Type} (m : GoMap β) (k k' : Nat) (v : β) (hne : k' ≠ k) :
    GoMap.get (GoMap.set m k v) k' = GoMap.get m k' := by
  unfold GoMap.set
  by_cases h : (GoMap.get m k).isSome
  · rw [if_pos h, GoMap.get_map_replace]; simp [hne]
  · rw [if_neg h, GoMap.get_append_single]
    have : ¬ k = k' := fun x => hne x.symm
    cases hg : GoMap.get m k' <;> simp [this]

theorem GoMap.get_delete_self {β : Type} (m : GoMap β) (k : Nat) :
    GoMap.get (GoMap.delete m k) k = none := by
  rw [GoMap.get_eq_none_iff]
  intro e he
  unfold GoMap.delete at he
  simpa using (List.mem_filter.mp he).2

theorem GoMap.delete_cons {β : Type} (e : Nat × β) (m : GoMap β) (k : Nat) :
    GoMap.delete (e :: m) k = if e.1 = k then GoMap.delete m k else e :: GoMap.delete m k := by
  unfold GoMap.delete
  by_cases h : e.1 = k <;> simp [List.filter_cons, h]

theorem GoMap.get_delete_of_ne {β : Type} (m : GoMap β) (k k' : Nat) (hne : k' ≠ k) :
    GoMap.get (GoMap.delete m k) k' = GoMap.get m k' := by
  induction m with
  | nil => rfl
  | cons e m ih =>
    rw [GoMap.delete_cons]
    by_cases h : e.1 = k
    · have : ¬ e.1 = k' := fun x => hne (x.symm.trans h)
      rw [if_pos h, ih, GoMap.get_cons, if_neg this]
    · rw [if_neg h, GoMap.get_cons, GoMap.get_cons, ih]

/-! ## `buildResponseToBinding` -/

theorem Lock_ok (s : DHCPv4) (hmu : s.mu = false) : s.Lock = .ok { s with mu := true } := by
  unfold DHCPv4.Lock
  rw [hmu]
  rfl

theorem ToNak_messageType (p : Packet) (o : ReplyOptions) :
    (p.ToNak o).GetOption OptionDHCPMessageType = some [DHCPNAK] := by
  simp [Packet.ToNak, Packet.AddOption, Packet.GetOption, Packet.zero]

theorem ToAck_messageType (p : Packet) (ip : IP) (o : ReplyOptions) :
    (p.ToAck ip o).GetOption OptionDHCPMessageType = some [DHCPACK] := by
  simp [Packet.ToAck, Packet.addCommonOptions, Packet.AddOption, Packet.GetOption,
    Packet.reply, Packet.zero]

theorem ToOffer_messageType (p : Packet) (ip : IP) (o : ReplyOptions) :
    (p.ToOffer ip o).GetOption OptionDHCPMessageType = some [DHCPOFFER] := by
  simp [Packet.ToOffer, Packet.addCommonOptions, Packet.AddOption, Packet.GetOption,
    Packet.reply, Packet.zero]

theorem ToAck_YIAddr (p : Packet) (ip : IP) (o : ReplyOptions) : (p.ToAck ip o).YIAddr = ip := by
  simp [Packet.ToAck, Packet.addCommonOptions, Packet.AddOption, Packet.reply]

theorem ToOffer_YIAddr (p : Packet) (ip : IP) (o : ReplyOptions) :
    (p.ToOffer ip o).YIAddr = ip := by
  simp [Packet.ToOffer, Packet.addCommonOptions, Packet.AddOption, Packet.reply]

/-- C5: called at time `now` with the mutex free, for a packet whose hardware
address gives the key `key`, `buildResponseToBinding packet ip` returns a
response that is a NAK exactly when the binding table has no entry for `key`,
or the entry's address differs from `ip`, or its expiration is before `now`.
A NAK is `ToNak` and leaves the server as it was. Otherwise the response is
`ToAck` of the bound address, an ACK whose `YIAddr` is that address, and the
server changes only in that the binding of `key` has its expiration set to
`now + Lease`: every other binding, the pool and the allocated set are as
before. -/
theorem buildResponseToBinding_nak_iff (s : DHCPv4) (packet : Packet) (ip : IP) (now : Int)
    (key : Nat) (hmu : s.mu = false) (hkey : convertMACToUint64 packet.CHAddr = .ok key) :
    ∃ response s', s.buildResponseToBinding packet ip now = .ok (response, s') ∧
      (response.GetOption OptionDHCPMessageType = some [DHCPNAK] ↔
        (s.bindings.get key = none ∨
          ∃ b, s.bindings.get key = some b ∧ (b.IP.Equal ip = false ∨ b.Expiration < now))) ∧
      (response.GetOption OptionDHCPMessageType = some [DHCPNAK] →
        response = packet.ToNak s.createReplyOptions ∧ s' = s) ∧
      (response.GetOption OptionDHCPMessageType ≠ some [DHCPNAK] →
        ∃ b, s.bindings.get key = some b ∧
          response = packet.ToAck b.IP s.createReplyOptions ∧
          response.GetOption OptionDHCPMessageType = some [DHCPACK] ∧
          response.YIAddr = b.IP ∧
          s' = { s with bindings :=
            s.bindings.set key { b with Expiration := now + s.config.Lease } } ∧
          s'.bindings.get key = some { b with Expiration := now + s.config.Lease } ∧
          (∀ k, k ≠ key → s'.bindings.get k = s.bindings.get k) ∧
          s'.ipPool = s.ipPool ∧ s'.allocated = s.allocated ∧ s'.mu = s.mu) := by
  have hne : (some [DHCPACK] : Slice) ≠ some [DHCPNAK] := by decide
  have hunl : ({ s with mu := true } : DHCPv4).Unlock = s := by
    obtain ⟨mu, a, b, c, d, e, f⟩ := s
    simp at hmu
    subst hmu
    rfl
  unfold DHCPv4.buildResponseToBinding
  rw [Lock_ok s hmu, hkey]
  simp only [bind, Except.bind, pure, Except.pure]
  cases hg : s.bindings.get key with
  | none =>
    refine ⟨_, _, rfl, ?_, ?_, ?_⟩
    · simp [ToNak_messageType]
    · intro _; exact ⟨rfl, hunl⟩
    · intro h; exact absurd (ToNak_messageType _ _) h
  | some b =>
    simp only []
    by_cases heq : b.IP.Equal ip = true
    · by_cases hexp : b.Expiration < now
      · simp only [heq, Bool.not_true, hexp, if_true]
        refine ⟨_, _, rfl, ?_, ?_, ?_⟩
        · simp [ToNak_messageType, hexp]
        · intro _; exact ⟨rfl, hunl⟩
        · intro h; exact absurd (ToNak_messageType _ _) h
      · simp only [heq, Bool.not_true, hexp, if_false]
        refine ⟨_, _, rfl, ?_, ?_, ?_⟩
        · rw [ToAck_messageType]
          simp [hne, heq, hexp]
        · intro h; rw [ToAck_messageType] at h; exact absurd h hne
        · intro _
          refine ⟨b, rfl, rfl, ToAck_messageType _ _ _, ToAck_YIAddr _ _ _, ?_, ?_, ?_, rfl, rfl, ?_⟩
          · obtain ⟨mu, a, b', c, d, e, f⟩ := s
            simp at hmu
            subst hmu
            rfl
          · exact GoMap.get_set_self _ _ _
          · intro k hk; exact GoMap.get_set_of_ne _ _ _ _ hk
          · simp [DHCPv4.Unlock, hmu]
    · have heq' : b.IP.Equal ip = false := by simpa using heq
      simp only [heq', Bool.not_false, if_true]
      refine ⟨_, _, rfl, ?_, ?_, ?_⟩
      · simp [ToNak_messageType, heq']
      · intro _; exact ⟨rfl, hunl⟩
      · intro h; exact absurd (ToNak_messageType _ _) h


/-- The theorem for C5 at the example server with one binding: a request for the
bound address within the lease is answered. -/
theorem buildResponseToBinding_nak_iff_witness :
    exampleBoundServer.mu = false ∧
    convertMACToUint64 (examplePacket 0x55 []).CHAddr = .ok 73588229205 ∧
    ∃ response s', exampleBoundServer.buildResponseToBinding (examplePacket 0x55 [])
      (some [10, 0, 0, 10]) 200 = .ok (response, s') :=
  have ⟨response, s', h, _⟩ := buildResponseToBinding_nak_iff exampleBoundServer
    (examplePacket 0x55 []) (some [10, 0, 0, 10]) 200 73588229205 rfl rfl
  ⟨rfl, rfl, response, s', h⟩

/-! ## `createOffer` and `releaseIP` -/

theorem createOffer_cons (s : DHCPv4) (p : Packet) (now : Int) (a : Nat) (rest : List Nat)
    (key : Nat) (hmu : s.mu = false) (hav : s.ipPool.available = a :: rest)
    (hkey : convertMACToUint64 p.CHAddr = .ok key) :
    s.createOffer p now = .ok (some (p.ToOffer (uint32ToIP4 a) s.createReplyOptions),
      { s with
        ipPool := { s.ipPool with available := rest },
        bindings := s.bindings.set key
          { IP := uint32ToIP4 a, MAC := p.CHAddr, Expiration := now + s.config.Lease },
        allocated := s.allocated.set (convertIPToUint64 (uint32ToIP4 a)) true }) := by
  obtain ⟨mu, ⟨st, en, av⟩, b, al, c, cp, sp⟩ := s
  simp only at hmu hav
  subst hmu hav
  simp [DHCPv4.createOffer, DHCPv4.Lock, ipPool.allocate, bind, Except.bind, pure, Except.pure,
    uint32ToIP4_ne_none, hkey, DHCPv4.Unlock, DHCPv4.createReplyOptions]

theorem createOffer_nil (s : DHCPv4) (p : Packet) (now : Int) (hmu : s.mu = false)
    (hav : s.ipPool.available = []) : s.createOffer p now = .ok (none, s) := by
  obtain ⟨mu, ⟨st, en, av⟩, b, al, c, cp, sp⟩ := s
  simp only at hmu hav
  subst hmu hav
  simp [DHCPv4.createOffer, DHCPv4.Lock, ipPool.allocate, bind, Except.bind, pure, Except.pure,
    DHCPv4.Unlock]


theorem createOffers_range (reqs : List (Packet × Int)) : ∀ (s : DHCPv4) (a n : Nat),
    s.mu = false → s.ipPool.available = List.range' a n → a + n ≤ 2 ^ 32 → reqs.length ≤ n →
    (∀ r ∈ reqs, ∃ key, convertMACToUint64 r.1.CHAddr = .ok key) →
    (reqs.map (fun r => convertMACToUint64 r.1.CHAddr)).Nodup →
    ∃ offers s', s.createOffers reqs = .ok (offers, s') ∧
      s'.mu = false ∧ s'.config = s.config ∧
      s'.ipPool = { s.ipPool with
        available := List.range' (a + reqs.length) (n - reqs.length) } ∧
      offers.length = reqs.length ∧
      (∀ k r, reqs[k]? = some r →
        offers[k]? = some (some (r.1.ToOffer (uint32ToIP4 (a + k)) s.createReplyOptions)) ∧
        ∃ key, convertMACToUint64 r.1.CHAddr = .ok key ∧
          s'.bindings.get key
            = some ⟨uint32ToIP4 (a + k), r.1.CHAddr, r.2 + s.config.Lease⟩ ∧
          s'.allocated.get (a + k) = some true) ∧
      (∀ key, (∀ r ∈ reqs, convertMACToUint64 r.1.CHAddr ≠ .ok key) →
        s'.bindings.get key = s.bindings.get key) ∧
      (∀ m, (m < a ∨ a + reqs.length ≤ m) → s'.allocated.get m = s.allocated.get m) := by
  induction reqs with
  | nil =>
    intro s a n hmu hav _ _ _ _
    refine ⟨[], s, rfl, hmu, rfl, ?_, rfl, ?_, fun _ _ => rfl, fun _ _ => rfl⟩
    · obtain ⟨mu, ⟨st, en, av⟩, b, al, c, cp, sp⟩ := s
      simp only at hav
      simp [hav]
    · intro k r h; simp at h
  | cons r rest ih =>
    intro s a n hmu hav hmax hlen hmac hnd
    simp only [List.length_cons] at hlen
    obtain ⟨key, hkey⟩ := hmac r (List.mem_cons_self _ _)
    have hn : n = (n - 1) + 1 := by omega
    have hav' : s.ipPool.available = a :: List.range' (a + 1) (n - 1) := by
      rw [hav, hn, List.range'_succ]; simp
    have hstep := createOffer_cons s r.1 r.2 a _ key hmu hav' hkey
    rw [convertIPToUint64_uint32ToIP4 a (by omega)] at hstep
    simp only [List.map_cons, List.nodup_cons] at hnd
    obtain ⟨offers, s', hrun, hmu', hcfg, hpool, hol, hidx, hfb, hfa⟩ :=
      ih { s with
          ipPool := { s.ipPool with available := List.range' (a + 1) (n - 1) },
          bindings := s.bindings.set key
            { IP := uint32ToIP4 a, MAC := r.1.CHAddr, Expiration := r.2 + s.config.Lease },
          allocated := s.allocated.set a true }
        (a + 1) (n - 1) hmu rfl (by omega) (by omega)
        (fun x hx => hmac x (List.mem_cons_of_mem _ hx)) hnd.2
    refine ⟨some (r.1.ToOffer (uint32ToIP4 a) s.createReplyOptions) :: offers, s', ?_, hmu',
      hcfg, ?_, by simp [hol], ?_, ?_, ?_⟩
    · simp only [DHCPv4.createOffers, hstep, hrun]
    · rw [hpool]
      have e1 : a + 1 + rest.length = a + (rest.length + 1) := by omega
      have e2 : n - 1 - rest.length = n - (rest.length + 1) := by omega
      simp only [List.length_cons, e1, e2]
    · intro k x hx
      cases k with
      | zero =>
        simp only [List.getElem?_cons_zero, Option.some.injEq] at hx
        subst hx
        refine ⟨by simp, key, hkey, ?_, ?_⟩
        · rw [hfb key ?_]
          · exact GoMap.get_set_self _ _ _
          · intro y hy hyk
            apply hnd.1
            rw [hkey, ← hyk]
            exact List.mem_map_of_mem _ hy
        · rw [Nat.add_zero, hfa a (by omega)]
          exact GoMap.get_set_self _ _ _
      | succ k =>
        simp only [List.getElem?_cons_succ] at hx
        obtain ⟨h1, key', hk', h2, h3⟩ := hidx k x hx
        have e1 : a + 1 + k = a + (k + 1) := by omega
        rw [e1] at h1 h2 h3
        exact ⟨by simpa [DHCPv4.createReplyOptions] using h1, key', hk', h2, h3⟩
    · intro key' hall
      rw [hfb key' (fun y hy => hall y (List.mem_cons_of_mem _ hy))]
      have hne : key' ≠ key := by
        intro h
        apply hall r (List.mem_cons_self _ _)
        rw [hkey, h]
      exact GoMap.get_set_of_ne _ _ _ _ hne
    · intro m hm
      simp only [List.length_cons] at hm
      rw [hfa m (by omega)]
      exact GoMap.get_set_of_ne _ _ _ _ (by omega)


theorem bytes_of_value (a b c d : Byte) (n : Nat)
    (h : a.val <<< 24 ||| b.val <<< 16 ||| c.val <<< 8 ||| d.val = n) :
    a = byte (n >>> 24) ∧ b = byte (n >>> 16) ∧ c = byte (n >>> 8) ∧ d = byte n := by
  rw [shift_or_eq_add _ _ _ _ b.isLt c.isLt d.isLt] at h
  have ha := a.isLt
  have hb := b.isLt
  have hc := c.isLt
  have hd := d.isLt
  refine ⟨?_, ?_, ?_, ?_⟩ <;> apply Fin.ext <;>
    simp only [byte, Nat.shiftRight_eq_div_pow] <;> omega

theorem To4_cases (ip : IP) :
    ip.To4 = none ∨ ∃ a b c d, ip.To4 = some [a, b, c, d] ∧
      (ip = some [a, b, c, d] ∨ ip = some (v4InV6Prefix ++ [a, b, c, d])) := by
  unfold IP.To4
  by_cases h4 : ip.bytes.length = 4
  · rw [if_pos h4]
    right
    cases ip with
    | none => simp [Slice.bytes] at h4
    | some l =>
      simp only [Slice.bytes, Option.getD_some] at h4
      match l, h4 with
      | [a, b, c, d], _ => exact ⟨a, b, c, d, rfl, Or.inl rfl⟩
  · rw [if_neg h4]
    by_cases h16 : ip.bytes.length = 16 ∧ ip.bytes.take 12 = v4InV6Prefix
    · rw [if_pos h16]
      right
      cases ip with
      | none => simp [Slice.bytes] at h16
      | some l =>
        simp only [Slice.bytes, Option.getD_some] at h16 ⊢
        obtain ⟨hl, ht⟩ := h16
        have hd : (l.drop 12).length = 4 := by simp [hl]
        match hm : l.drop 12, hd with
        | [a, b, c, d], _ =>
          refine ⟨a, b, c, d, rfl, Or.inr ?_⟩
          rw [← ht, ← hm, List.take_append_drop]
    · rw [if_neg h16]
      exact Or.inl rfl

theorem convertIPToUint64_eq (ip : IP) (n : Nat) (h : ip4ToUint32 ip = .ok n) :
    convertIPToUint64 ip = n := by
  unfold ip4ToUint32 at h
  unfold convertIPToUint64
  split at h
  · rename_i a b c d t heq
    rw [heq]
    injection h
  · cases h

theorem ip4ToUint32_eq_ok (ip : IP) (n : Nat) (h : ip4ToUint32 ip = .ok n) :
    ip = some [byte (n >>> 24), byte (n >>> 16), byte (n >>> 8), byte n] ∨ ip = uint32ToIP4 n := by
  rcases To4_cases ip with h0 | ⟨a, b, c, d, h4, hip⟩
  · simp [ip4ToUint32, h0] at h
  · simp only [ip4ToUint32, h4] at h
    injection h with h
    obtain ⟨rfl, rfl, rfl, rfl⟩ := bytes_of_value a b c d n h
    rcases hip with hip | hip
    · exact Or.inl hip
    · exact Or.inr hip

theorem uint32ToIP4_Equal_iff (n : Nat) (hn : n < 2 ^ 32) (ip : IP) :
    (uint32ToIP4 n).Equal ip = true ↔ ip4ToUint32 ip = .ok n := by
  constructor
  · intro h
    have hb : (uint32ToIP4 n).bytes
        = v4InV6Prefix ++ [byte (n >>> 24), byte (n >>> 16), byte (n >>> 8), byte n] := rfl
    unfold IP.Equal at h
    rw [hb] at h
    by_cases h16 : ip.bytes.length = 16
    · have hl : (v4InV6Prefix ++ [byte (n >>> 24), byte (n >>> 16), byte (n >>> 8),
          byte n]).length = ip.bytes.length := by rw [h16]; rfl
      rw [if_pos hl] at h
      have hbytes := beq_iff_eq.mp h
      have hip : ip = uint32ToIP4 n := by
        cases ip with
        | none => simp [Slice.bytes] at h16
        | some l =>
          simp only [Slice.bytes, Option.getD_some] at hbytes
          rw [← hbytes]; rfl
      rw [hip]
      exact ip4ToUint32_uint32ToIP4 n hn
    · by_cases h4 : ip.bytes.length = 4
      · have hl : ¬ (v4InV6Prefix ++ [byte (n >>> 24), byte (n >>> 16), byte (n >>> 8),
            byte n]).length = ip.bytes.length := by rw [h4]; simp [v4InV6Prefix]
        have hl2 : ¬ ((v4InV6Prefix ++ [byte (n >>> 24), byte (n >>> 16), byte (n >>> 8),
            byte n]).length = 4 ∧ ip.bytes.length = 16) := fun x => h16 x.2
        have hl3 : (v4InV6Prefix ++ [byte (n >>> 24), byte (n >>> 16), byte (n >>> 8),
            byte n]).length = 16 ∧ ip.bytes.length = 4 := ⟨rfl, h4⟩
        rw [if_neg hl, if_neg hl2, if_pos hl3] at h
        simp only [Bool.and_eq_true, beq_iff_eq] at h
        have hbytes : ip.bytes = [byte (n >>> 24), byte (n >>> 16), byte (n >>> 8), byte n] := by
          rw [← h.2]; rfl
        have hip : ip = some [byte (n >>> 24), byte (n >>> 16), byte (n >>> 8), byte n] := by
          cases ip with
          | none => simp [Slice.bytes] at h4
          | some l =>
            simp only [Slice.bytes, Option.getD_some] at hbytes
            rw [hbytes]
        rw [hip]
        simp only [ip4ToUint32, IP.To4, Slice.bytes, Option.getD_some, List.length_cons,
          List.length_nil, if_true, bytes_value n hn]
      · have hl : ¬ (v4InV6Prefix ++ [byte (n >>> 24), byte (n >>> 16), byte (n >>> 8),
            byte n]).length = ip.bytes.length := fun x => h16 x.symm
        have hl2 : ¬ ((v4InV6Prefix ++ [byte (n >>> 24), byte (n >>> 16), byte (n >>> 8),
            byte n]).length = 4 ∧ ip.bytes.length = 16) := fun x => h16 x.2
        have hl3 : ¬ ((v4InV6Prefix ++ [byte (n >>> 24), byte (n >>> 16), byte (n >>> 8),
            byte n]).length = 16 ∧ ip.bytes.length = 4) := fun x => h4 x.2
        rw [if_neg hl, if_neg hl2, if_neg hl3] at h
        cases h
  · intro h
    rcases ip4ToUint32_eq_ok ip n h with hip | hip
    · rw [hip]
      simp [IP.Equal, uint32ToIP4, IPv4, Slice.bytes, v4InV6Prefix]
    · rw [hip]
      simp [IP.Equal]


theorem unbind_Unlock (s : DHCPv4) (ip : IP) : (s.unbind ip).Unlock = s.Unlock.unbind ip := by
  unfold DHCPv4.unbind DHCPv4.Unlock
  cases s.bindings.find? (fun e => e.2.IP.Equal ip) <;> rfl

theorem releaseIP_ok (s : DHCPv4) (ip : IP) (n : Nat) (hmu : s.mu = false)
    (hip : ip4ToUint32 ip = .ok n) :
    s.releaseIP ip = .ok (DHCPv4.unbind
      { s with
        allocated := if (s.allocated.get n).isSome then s.allocated.delete n else s.allocated,
        ipPool :=
          if (s.allocated.get n).isSome ∧ s.ipPool.start ≤ n ∧ n ≤ s.ipPool.end_ then
            { s.ipPool with available := s.ipPool.available ++ [n] }
          else s.ipPool } ip) := by
  obtain ⟨mu, pool, b, al, c, cp, sp⟩ := s
  simp only at hmu
  subst hmu
  simp only [DHCPv4.releaseIP, DHCPv4.Lock, bind, Except.bind, pure, Except.pure,
    convertIPToUint64_eq ip n hip, Bool.false_eq_true, if_false, ipPool.release, hip]
  by_cases hal : (GoMap.get al n).isSome = true
  · by_cases hr : pool.start ≤ n ∧ n ≤ pool.end_
    · have hr' : n ≥ pool.start ∧ n ≤ pool.end_ := hr
      simp only [hal, hr, hr', if_true, and_self, true_and, unbind_Unlock]
      rfl
    · have hr' : ¬ (n ≥ pool.start ∧ n ≤ pool.end_) := hr
      simp only [hal, hr, hr', if_true, if_false, and_false, true_and, unbind_Unlock]
      rfl
  · simp only [hal, if_false, false_and, unbind_Unlock]
    rfl


theorem unbind_fields (s : DHCPv4) (ip : IP) :
    (s.unbind ip).mu = s.mu ∧ (s.unbind ip).ipPool = s.ipPool ∧
      (s.unbind ip).allocated = s.allocated ∧ (s.unbind ip).config = s.config ∧
      (s.unbind ip).clientPort = s.clientPort ∧ (s.unbind ip).serverPort = s.serverPort := by
  unfold DHCPv4.unbind
  cases s.bindings.find? (fun e => e.2.IP.Equal ip) <;> exact ⟨rfl, rfl, rfl, rfl, rfl, rfl⟩

theorem MakeDHCPv4_ok (fuel : Nat) (c : Config) (s : DHCPv4) (h : MakeDHCPv4 fuel c = .ok s) :
    newIPPool fuel c.Start c.End = .ok s.ipPool ∧ s.mu = false ∧ s.bindings = [] ∧
      s.allocated = [] ∧ s.config = c ∧ s.clientPort = 68 ∧ s.serverPort = 67 := by
  unfold MakeDHCPv4 at h
  cases hp : newIPPool fuel c.Start c.End with
  | error f => rw [hp] at h; cases h
  | ok pool =>
    rw [hp] at h
    simp only [bind, Except.bind, pure, Except.pure] at h
    injection h with h
    subst h
    exact ⟨rfl, rfl, rfl, rfl, rfl, rfl, rfl⟩

/-- C6: on the server `s0` that `MakeDHCPv4` builds over `[start, end]`, let
`createOffer` run for a list of at most `N = end - start + 1` requests whose
hardware addresses give pairwise distinct keys. It returns for the `k`-th
request (counted from `0`) an OFFER whose `YIAddr` is `start + k`; afterwards
the key of that request is bound to `start + k` with expiration
`now + Lease` for the arrival time `now` of the request, and `start + k` is
marked allocated. After exactly `N` requests a further `createOffer` returns
no offer and leaves the server unchanged, and after `releaseIP x` of an
allocated address `x` the next `createOffer` offers `x`. -/
theorem createOffer_on_fresh_server (fuel : Nat) (c : Config) (s0 : DHCPv4)
    (reqs : List (Packet × Int)) (keys : List Nat)
    (hmk : MakeDHCPv4 fuel c = .ok s0)
    (hlen : reqs.length ≤ s0.ipPool.end_ - s0.ipPool.start + 1)
    (hkeys : reqs.map (fun r => convertMACToUint64 r.1.CHAddr) = keys.map Except.ok)
    (hnd : keys.Nodup) :
    ip4ToUint32 c.Start = .ok s0.ipPool.start ∧ ip4ToUint32 c.End = .ok s0.ipPool.end_ ∧
    ∃ offers s, s0.createOffers reqs = .ok (offers, s) ∧
      (∀ k r key, reqs[k]? = some r → keys[k]? = some key →
        ∃ offer, offers[k]? = some (some offer) ∧
          offer.GetOption OptionDHCPMessageType = some [DHCPOFFER] ∧
          offer.YIAddr = uint32ToIP4 (s0.ipPool.start + k) ∧
          s.bindings.get key
            = some ⟨uint32ToIP4 (s0.ipPool.start + k), r.1.CHAddr, r.2 + c.Lease⟩ ∧
          s.allocated.get (s0.ipPool.start + k) = some true) ∧
      (reqs.length = s0.ipPool.end_ - s0.ipPool.start + 1 →
        (∀ p now, s.createOffer p now = .ok (none, s)) ∧
        ∀ x n p now key, ip4ToUint32 x = .ok n → (s.allocated.get n).isSome = true →
          convertMACToUint64 p.CHAddr = .ok key →
          ∃ s' offer s'', s.releaseIP x = .ok s' ∧
            s'.createOffer p now = .ok (some offer, s'') ∧
            offer.YIAddr = uint32ToIP4 n ∧ offer.YIAddr.Equal x = true) := by
  obtain ⟨hpool, hmu0, hb0, ha0, hc0, _, _⟩ := MakeDHCPv4_ok fuel c s0 hmk
  obtain ⟨hst, hen, hle, hmax, hav⟩ := newIPPool_ok fuel c.Start c.End s0.ipPool hpool
  have hkey_at : ∀ (k : Nat) (r : Packet × Int) (key : Nat),
      reqs[k]? = some r → keys[k]? = some key →
      convertMACToUint64 r.1.CHAddr = .ok key := by
    intro k r key hr hk
    have h1 : (reqs.map (fun r => convertMACToUint64 r.1.CHAddr))[k]?
        = some (convertMACToUint64 r.1.CHAddr) := by
      rw [List.getElem?_map, hr]; rfl
    have h2 : (keys.map (Except.ok : Nat → Except Fault Nat))[k]? = some (.ok key) := by
      rw [List.getElem?_map, hk]; rfl
    rw [hkeys, h2] at h1
    injection h1 with h1
    exact h1.symm
  have hmac : ∀ r ∈ reqs, ∃ key, convertMACToUint64 r.1.CHAddr = .ok key := by
    intro r hr
    have hm : convertMACToUint64 r.1.CHAddr
        ∈ reqs.map (fun r => convertMACToUint64 r.1.CHAddr) := List.mem_map_of_mem _ hr
    rw [hkeys] at hm
    obtain ⟨key, _, hk⟩ := List.mem_map.mp hm
    exact ⟨key, hk.symm⟩
  have hnd' : (reqs.map (fun r => convertMACToUint64 r.1.CHAddr)).Nodup := by
    rw [hkeys]
    exact hnd.map (fun a b h => by injection h)
  obtain ⟨offers, s, hrun, hmu, hcfg, hp, _, hidx, _, hfa⟩ :=
    createOffers_range reqs s0 s0.ipPool.start (s0.ipPool.end_ + 1 - s0.ipPool.start)
      hmu0 hav (by omega) (by omega) hmac hnd'
  refine ⟨hst, hen, offers, s, hrun, ?_, ?_⟩
  · intro k r key hr hk
    obtain ⟨h1, key', hk', h2, h3⟩ := hidx k r hr
    have hkk : key' = key := by
      have := hkey_at k r key hr hk
      rw [hk'] at this
      injection this
    subst hkk
    rw [hc0] at h2
    exact ⟨_, h1, ToOffer_messageType _ _ _, ToOffer_YIAddr _ _ _, h2, h3⟩
  · intro hN
    have hempty : s.ipPool.available = [] := by
      rw [hp]
      have : s0.ipPool.end_ + 1 - s0.ipPool.start - reqs.length = 0 := by omega
      simp [this]
    refine ⟨fun p now => createOffer_nil s p now hmu hempty, ?_⟩
    intro x n p now key hx hal hk
    have hrange : s0.ipPool.start ≤ n ∧ n ≤ s0.ipPool.end_ := by
      by_contra hout
      have := hfa n (by omega)
      rw [this, ha0] at hal
      simp [GoMap.get_nil] at hal
    have hps : s.ipPool.start = s0.ipPool.start ∧ s.ipPool.end_ = s0.ipPool.end_ := by
      rw [hp]; exact ⟨rfl, rfl⟩
    have hrel := releaseIP_ok s x n hmu hx
    rw [if_pos ⟨hal, by omega, by omega⟩, hempty] at hrel
    obtain ⟨u1, u2, _, _⟩ := unbind_fields
      { s with
        allocated := if (s.allocated.get n).isSome then s.allocated.delete n else s.allocated,
        ipPool := { s.ipPool with available := [] ++ [n] } } x
    have hoff := createOffer_cons _ p now n [] key (u1.trans hmu) (by rw [u2]; rfl) hk
    refine ⟨_, _, _, hrel, hoff, ToOffer_YIAddr _ _ _, ?_⟩
    rw [ToOffer_YIAddr]
    exact (uint32ToIP4_Equal_iff n (ip4ToUint32_lt x n hx) x).mpr hx

/-- The pool `10.0.0.10 .. 10.0.0.12`: three requests from three hardware
addresses are offered `.10`, `.11`, `.12` in request order. -/
theorem createOffer_on_fresh_server_witness :
    MakeDHCPv4 4 exampleConfig = .ok exampleServer ∧
    exampleDiscovers.length ≤ exampleServer.ipPool.end_ - exampleServer.ipPool.start + 1 ∧
    exampleDiscovers.map (fun r => convertMACToUint64 r.1.CHAddr)
      = [73588229205, 73588229206, 73588229207].map Except.ok ∧
    [73588229205, 73588229206, 73588229207].Nodup ∧
    ∃ offers s, exampleServer.createOffers exampleDiscovers = .ok (offers, s) ∧
      offers.map (fun o => o.map (fun q => q.YIAddr))
        = [some (IPv4 10 0 0 10), some (IPv4 10 0 0 11), some (IPv4 10 0 0 12)] :=
  have h := createOffer_on_fresh_server 4 exampleConfig exampleServer exampleDiscovers
    [73588229205, 73588229206, 73588229207] rfl (by decide) rfl (by decide)
  ⟨rfl, by decide, rfl, by decide,
    match h.2.2 with
    | ⟨offers, s, hrun, _⟩ => ⟨offers, s, hrun, by
        have hc : exampleServer.createOffers exampleDiscovers = .ok
            ((exampleServer.createOffers exampleDiscovers).toOption.getD ([], exampleServer)) := by
          rfl
        rw [hc] at hrun
        injection hrun with hrun
        have e : _ = offers := congrArg Prod.fst hrun
        rw [← e]
        rfl⟩⟩


/-! ## The invariant of the reachable states -/

theorem GoMap.isSome_get_iff {β : Type} (m : GoMap β) (k : Nat) :
    (GoMap.get m k).isSome = true ↔ ∃ e ∈ m, e.1 = k := by
  rw [← not_iff_not, Bool.not_eq_true, Option.not_isSome, Option.isNone_iff_eq_none,
    GoMap.get_eq_none_iff]
  constructor
  · rintro h ⟨e, he, hk⟩
    exact h e he hk
  · intro h e he hk
    exact h ⟨e, he, hk⟩

theorem GoMap.mem_set {β : Type} (m : GoMap β) (k : Nat) (v : β) (e : Nat × β)
    (h : e ∈ GoMap.set m k v) : e ∈ m ∨ e = (k, v) := by
  unfold GoMap.set at h
  split at h
  · obtain ⟨x, hx, rfl⟩ := List.mem_map.mp h
    by_cases hk : x.1 = k
    · rw [if_pos hk]; exact Or.inr rfl
    · rw [if_neg hk]; exact Or.inl hx
  · rcases List.mem_append.mp h with h | h
    · exact Or.inl h
    · exact Or.inr (by simpa using h)

theorem GoMap.mem_delete {β : Type} (m : GoMap β) (k : Nat) (e : Nat × β) :
    e ∈ GoMap.delete m k ↔ e ∈ m ∧ e.1 ≠ k := by
  unfold GoMap.delete
  simp [List.mem_filter]

theorem GoMap.delete_sublist {β : Type} (m : GoMap β) (k : Nat) :
    List.Sublist (GoMap.delete m k) m := List.filter_sublist m

theorem GoMap.get_of_mem {β : Type} (m : GoMap β) (e : Nat × β)
    (hnd : (m.map Prod.fst).Nodup) (he : e ∈ m) : GoMap.get m e.1 = some e.2 := by
  induction m with
  | nil => cases he
  | cons x m ih =>
    rw [GoMap.get_cons]
    simp only [List.map_cons, List.nodup_cons] at hnd
    rcases List.mem_cons.mp he with rfl | hm
    · simp
    · have hne : ¬ x.1 = e.1 := by
        intro h
        exact hnd.1 (h ▸ List.mem_map_of_mem Prod.fst hm)
      rw [if_neg hne]
      exact ih hnd.2 hm

theorem GoMap.mem_of_get {β : Type} (m : GoMap β) (k : Nat) (v : β)
    (h : GoMap.get m k = some v) : (k, v) ∈ m := by
  induction m with
  | nil => cases h
  | cons x m ih =>
    rw [GoMap.get_cons] at h
    by_cases hk : x.1 = k
    · rw [if_pos hk] at h
      injection h with h
      subst hk h
      exact List.mem_cons_self _ _
    · rw [if_neg hk] at h
      exact List.mem_cons_of_mem _ (ih h)

theorem createOffer_ok_cases (s : DHCPv4) (p : Packet) (now : Int) (o : Option Packet)
    (s' : DHCPv4) (hmu : s.mu = false) (h : s.createOffer p now = .ok (o, s')) :
    (s.ipPool.available = [] ∧ o = none ∧ s' = s) ∨
    ∃ a rest key, s.ipPool.available = a :: rest ∧ convertMACToUint64 p.CHAddr = .ok key ∧
      o = some (p.ToOffer (uint32ToIP4 a) s.createReplyOptions) ∧
      s' = { s with
        ipPool := { s.ipPool with available := rest },
        bindings := s.bindings.set key
          { IP := uint32ToIP4 a, MAC := p.CHAddr, Expiration := now + s.config.Lease },
        allocated := s.allocated.set (convertIPToUint64 (uint32ToIP4 a)) true } := by
  cases hav : s.ipPool.available with
  | nil =>
    rw [createOffer_nil s p now hmu hav] at h
    injection h with h
    injection h with h1 h2
    exact Or.inl ⟨rfl, h1.symm, h2.symm⟩
  | cons a rest =>
    right
    cases hk : convertMACToUint64 p.CHAddr with
    | error f =>
      exfalso
      obtain ⟨mu, ⟨st, en, av⟩, b, al, c, cp, sp⟩ := s
      simp only at hmu hav
      subst hmu hav
      simp [DHCPv4.createOffer, DHCPv4.Lock, ipPool.allocate, bind, Except.bind, pure,
        Except.pure, uint32ToIP4_ne_none, hk] at h
    | ok key =>
      rw [createOffer_cons s p now a rest key hmu hav hk] at h
      injection h with h
      injection h with h1 h2
      exact ⟨a, rest, key, rfl, rfl, h1.symm, h2.symm⟩

theorem releaseIP_not_ip4 (s : DHCPv4) (ip : IP) (f : Fault) (s' : DHCPv4) (hmu : s.mu = false)
    (hip : ip4ToUint32 ip = .error f) (h : s.releaseIP ip = .ok s') : s' = s.unbind ip := by
  obtain ⟨mu, pool, b, al, c, cp, sp⟩ := s
  simp only at hmu
  subst hmu
  simp only [DHCPv4.releaseIP, DHCPv4.Lock, bind, Except.bind, pure, Except.pure,
    Bool.false_eq_true, if_false, ipPool.release, hip] at h
  split at h
  · cases h
  · injection h with h
    rw [← h, unbind_Unlock]
    rfl

theorem sweepLoop_locked (now : Int) (todo : List (Nat × binding)) : ∀ (s s' : DHCPv4),
    s.mu = true → DHCPv4.sweepLoop todo s now = .ok s' → s' = s := by
  induction todo with
  | nil =>
    intro s s' _ h
    simp only [DHCPv4.sweepLoop] at h
    injection h with h
    exact h.symm
  | cons e todo ih =>
    intro s s' hmu h
    obtain ⟨mac, b0⟩ := e
    simp only [DHCPv4.sweepLoop] at h
    cases hg : s.bindings.get mac with
    | none => rw [hg] at h; exact ih s s' hmu h
    | some b =>
      rw [hg] at h
      simp only at h
      by_cases hexp : b.Expiration < now
      · rw [if_pos hexp] at h
        have hd : s.releaseIP b.IP = .error .deadlock := by
          simp [DHCPv4.releaseIP, DHCPv4.Lock, hmu, bind, Except.bind]
        rw [hd] at h
        cases h
      · rw [if_neg hexp] at h
        exact ih s s' hmu h

theorem cleanupExpiredLeases_ok (s s' : DHCPv4) (now : Int) (hmu : s.mu = false)
    (h : s.cleanupExpiredLeases now = .ok s') : s' = s := by
  unfold DHCPv4.cleanupExpiredLeases at h
  rw [Lock_ok s hmu] at h
  simp only [bind, Except.bind, pure, Except.pure] at h
  split at h
  · cases h
  · rename_i v hv
    have := sweepLoop_locked now _ _ v rfl hv
    subst this
    injection h with h
    rw [← h]
    obtain ⟨mu, pool, b, al, c, cp, sp⟩ := s
    simp only at hmu
    subst hmu
    rfl

theorem buildResponseToBinding_state (s : DHCPv4) (packet : Packet) (ip : IP) (now : Int)
    (response : Packet) (s' : DHCPv4) (hmu : s.mu = false)
    (h : s.buildResponseToBinding packet ip now = .ok (response, s')) :
    s' = s ∨ ∃ key b, s.bindings.get key = some b ∧
      s' = { s with bindings :=
        s.bindings.set key { b with Expiration := now + s.config.Lease } } := by
  have hunl : ({ s with mu := true } : DHCPv4).Unlock = s := by
    obtain ⟨mu, a, b, c, d, e, f⟩ := s
    simp only at hmu
    subst hmu
    rfl
  unfold DHCPv4.buildResponseToBinding at h
  rw [Lock_ok s hmu] at h
  simp only [bind, Except.bind, pure, Except.pure] at h
  cases hk : convertMACToUint64 packet.CHAddr with
  | error f => rw [hk] at h; cases h
  | ok key =>
    rw [hk] at h
    simp only at h
    cases hg : s.bindings.get key with
    | none =>
      rw [hg] at h
      simp only at h
      injection h with h
      injection h with _ h2
      left
      rw [← h2, hunl]
    | some b =>
      rw [hg] at h
      simp only at h
      split at h
      · injection h with h
        injection h with _ h2
        left
        rw [← h2, hunl]
      · split at h
        · injection h with h
          injection h with _ h2
          left
          rw [← h2, hunl]
        · injection h with h
          injection h with _ h2
          right
          refine ⟨key, b, hg, ?_⟩
          rw [← h2]
          obtain ⟨mu, a, b', c, d, e, f⟩ := s
          simp only at hmu
          subst hmu
          rfl


theorem Inv.end_lt {c : Config} {s : DHCPv4} (h : Inv c s) : s.ipPool.end_ < 2 ^ 32 :=
  ip4ToUint32_lt _ _ h.endEq

theorem Inv.allocated_le {c : Config} {s : DHCPv4} (h : Inv c s) (n : Nat)
    (hn : (s.allocated.get n).isSome = true) :
    s.ipPool.start ≤ n ∧ n ≤ s.ipPool.end_ := by
  obtain ⟨e, he, rfl⟩ := (GoMap.isSome_get_iff _ _).mp hn
  exact h.allocRange e he

theorem Inv.addr_lt {c : Config} {s : DHCPv4} (h : Inv c s) (e : Nat × binding)
    (he : e ∈ s.bindings) : e.2.addr < 2 ^ 32 := by
  have h1 := (h.allocated_le _ (h.bound e he).2).2
  have h2 := h.end_lt
  omega

theorem Inv.equal_iff {c : Config} {s : DHCPv4} (h : Inv c s) (e : Nat × binding)
    (he : e ∈ s.bindings) (ip : IP) :
    e.2.IP.Equal ip = true ↔ ip4ToUint32 ip = .ok e.2.addr := by
  have h1 := (h.bound e he).1
  rw [← uint32ToIP4_Equal_iff _ (h.addr_lt e he) ip, ← h1]

theorem Inv.init (fuel : Nat) (c : Config) (s : DHCPv4) (h : MakeDHCPv4 fuel c = .ok s) :
    Inv c s := by
  obtain ⟨hpool, hmu, hb, ha, _, _, _⟩ := MakeDHCPv4_ok fuel c s h
  obtain ⟨hst, hen, _, _, hav⟩ := newIPPool_ok fuel c.Start c.End s.ipPool hpool
  refine ⟨hmu, hst, hen, ?_, ?_, ?_, ?_, ?_, ?_, ?_⟩
  · intro a ha'
    rw [hav] at ha'
    have := List.mem_range'_1.mp ha'
    omega
  · rw [hav]; exact List.nodup_range' _ _
  · intro a _; rw [ha]; rfl
  · intro e he; rw [ha] at he; cases he
  · rw [hb]; exact List.nodup_nil
  · rw [hb]; exact List.nodup_nil
  · intro e he; rw [hb] at he; cases he

theorem Inv.deleteBinding {c : Config} {s : DHCPv4} (h : Inv c s) (k : Nat) :
    Inv c { s with bindings := s.bindings.delete k } := by
  refine ⟨h.mu, h.startEq, h.endEq, h.inRange, h.nodup, h.free, h.allocRange, ?_, ?_, ?_⟩
  · exact h.keys.sublist ((GoMap.delete_sublist _ _).map _)
  · exact h.addrs.sublist ((GoMap.delete_sublist _ _).map _)
  · intro e he
    exact h.bound e ((GoMap.mem_delete _ _ _).mp he).1

theorem unbind_cases (s : DHCPv4) (ip : IP) :
    (s.unbind ip = s ∧ ∀ e ∈ s.bindings, e.2.IP.Equal ip = false) ∨
    ∃ e ∈ s.bindings, e.2.IP.Equal ip = true ∧
      s.unbind ip = { s with bindings := s.bindings.delete e.1 } := by
  unfold DHCPv4.unbind
  cases hf : s.bindings.find? (fun e => e.2.IP.Equal ip) with
  | none =>
    left
    refine ⟨rfl, ?_⟩
    intro e he
    have := List.find?_eq_none.mp hf e he
    simpa using this
  | some e =>
    right
    exact ⟨e, List.mem_of_find?_eq_some hf, by simpa using List.find?_some hf, rfl⟩

theorem Inv.unbind {c : Config} {s : DHCPv4} (h : Inv c s) (ip : IP) : Inv c (s.unbind ip) := by
  rcases unbind_cases s ip with ⟨h1, _⟩ | ⟨e, _, _, h1⟩
  · rw [h1]; exact h
  · rw [h1]; exact h.deleteBinding _

theorem Inv.unbind_none {c : Config} {s : DHCPv4} (h : Inv c s) (ip : IP) :
    ∀ e ∈ (s.unbind ip).bindings, e.2.IP.Equal ip = false := by
  rcases unbind_cases s ip with ⟨h1, h2⟩ | ⟨e, he, heq, h1⟩
  · rw [h1]; exact h2
  · rw [h1]
    intro e' he'
    obtain ⟨hm, hne⟩ := (GoMap.mem_delete _ _ _).mp he'
    by_contra hc
    have hc' : e'.2.IP.Equal ip = true := by simpa using hc
    have a1 := (h.equal_iff e he ip).mp heq
    have a2 := (h.equal_iff e' hm ip).mp hc'
    rw [a1] at a2
    injection a2 with a2
    have := List.inj_on_of_nodup_map h.addrs he hm a2
    exact hne (by rw [this])

theorem Inv.createOffer {c : Config} {s : DHCPv4} (h : Inv c s) (p : Packet) (now : Int)
    (o : Option Packet) (s' : DHCPv4) (hs : s.createOffer p now = .ok (o, s')) : Inv c s' := by
  rcases createOffer_ok_cases s p now o s' h.mu hs with ⟨_, _, rfl⟩ |
    ⟨a, rest, key, hav, _, _, rfl⟩
  · exact h
  · have ha : a ∈ s.ipPool.available := by rw [hav]; exact List.mem_cons_self _ _
    have har := h.inRange a ha
    have hlt := h.end_lt
    have hconv : convertIPToUint64 (uint32ToIP4 a) = a :=
      convertIPToUint64_uint32ToIP4 a (by omega)
    have hnd := h.nodup
    rw [hav, List.nodup_cons] at hnd
    have hfree : s.allocated.get a = none := h.free a ha
    have hnot : ∀ e ∈ s.bindings, e.2.addr ≠ a := by
      intro e he hea
      have := (h.bound e he).2
      rw [hea, hfree] at this
      cases this
    rw [hconv]
    refine ⟨h.mu, h.startEq, h.endEq, ?_, hnd.2, ?_, ?_, ?_, ?_, ?_⟩
    · intro b hb
      exact h.inRange b (by rw [hav]; exact List.mem_cons_of_mem _ hb)
    · intro b hb
      have hne : b ≠ a := fun x => hnd.1 (x ▸ hb)
      show GoMap.get (GoMap.set s.allocated a true) b = none
      rw [GoMap.get_set_of_ne _ _ _ _ hne]
      exact h.free b (by rw [hav]; exact List.mem_cons_of_mem _ hb)
    · intro e he
      rcases GoMap.mem_set _ _ _ _ he with he | rfl
      · exact h.allocRange e he
      · exact har
    · show (List.map Prod.fst (GoMap.set s.bindings key _)).Nodup
      unfold GoMap.set
      split
      · rw [List.map_map]
        have : (Prod.fst ∘ fun e : Nat × binding =>
            if e.1 = key then (key, (⟨uint32ToIP4 a, p.CHAddr, now + s.config.Lease⟩ : binding))
            else e) = Prod.fst := by
          funext e
          by_cases hk : e.1 = key <;> simp [hk]
        rw [this]
        exact h.keys
      · rename_i hk
        rw [List.map_append, List.map_cons, List.map_nil]
        refine List.Nodup.append h.keys (List.nodup_singleton _) ?_
        intro x hx hx'
        have hx' : x = key := by simpa using hx'
        subst hx'
        obtain ⟨e, he, rfl⟩ := List.mem_map.mp hx
        exact hk ((GoMap.isSome_get_iff _ _).mpr ⟨e, he, rfl⟩)
    · show (List.map (fun e => e.2.addr) (GoMap.set s.bindings key _)).Nodup
      unfold GoMap.set
      split
      · rw [List.map_map]
        have hm : (s.bindings : List (Nat × binding)).Nodup := List.Nodup.of_map _ h.keys
        refine List.Nodup.map_on ?_ hm
        intro e1 h1 e2 h2 heq
        simp only [Function.comp] at heq
        by_cases k1 : e1.1 = key
        · by_cases k2 : e2.1 = key
          · exact List.inj_on_of_nodup_map h.keys h1 h2 (k1.trans k2.symm)
          · rw [if_pos k1, if_neg k2] at heq
            exact absurd heq.symm (fun x => hnot e2 h2 (by
              rw [x]; exact hconv))
        · by_cases k2 : e2.1 = key
          · rw [if_neg k1, if_pos k2] at heq
            exact absurd heq (fun x => hnot e1 h1 (by
              rw [x]; exact hconv))
          · rw [if_neg k1, if_neg k2] at heq
            exact List.inj_on_of_nodup_map h.addrs h1 h2 heq
      · rw [List.map_append, List.map_cons, List.map_nil]
        refine List.Nodup.append h.addrs (List.nodup_singleton _) ?_
        intro x hx hx'
        have hx' : x = a := by
          have : x = binding.addr ⟨uint32ToIP4 a, p.CHAddr, now + s.config.Lease⟩ := by
            simpa using hx'
          rw [this]; exact hconv
        subst hx'
        obtain ⟨e, he, hea⟩ := List.mem_map.mp hx
        exact hnot e he hea
    · intro e he
      have hsome : ∀ k, (s.allocated.get k).isSome = true →
          (GoMap.get (GoMap.set s.allocated a true) k).isSome = true := by
        intro k hk
        by_cases hka : k = a
        · rw [hka, GoMap.get_set_self]; rfl
        · rw [GoMap.get_set_of_ne _ _ _ _ hka]; exact hk
      rcases GoMap.mem_set _ _ _ _ he with he | rfl
      · exact ⟨(h.bound e he).1, hsome _ (h.bound e he).2⟩
      · have hadd : binding.addr ⟨uint32ToIP4 a, p.CHAddr, now + s.config.Lease⟩ = a := hconv
        refine ⟨?_, ?_⟩
        · show uint32ToIP4 a = uint32ToIP4 (binding.addr _)
          rw [hadd]
        · show (GoMap.get (GoMap.set s.allocated a true) (binding.addr _)).isSome = true
          rw [hadd, GoMap.get_set_self]; rfl


theorem Inv.releaseIP {c : Config} {s : DHCPv4} (h : Inv c s) (ip : IP) (s' : DHCPv4)
    (hs : s.releaseIP ip = .ok s') : Inv c s' := by
  cases hip : ip4ToUint32 ip with
  | error f =>
    rw [releaseIP_not_ip4 s ip f s' h.mu hip hs]
    exact h.unbind ip
  | ok n =>
    rw [releaseIP_ok s ip n h.mu hip] at hs
    injection hs with hs
    by_cases hal : (s.allocated.get n).isSome = true
    · have hr := h.allocated_le n hal
      rw [if_pos hal, if_pos ⟨hal, hr⟩] at hs
      have hn : n ∉ s.ipPool.available := by
        intro hmem
        have := h.free n hmem
        rw [this] at hal
        cases hal
      have hnoneq := h.unbind_none ip
      have hbind : s'.bindings = (s.unbind ip).bindings := by
        rw [← hs]
        unfold DHCPv4.unbind
        cases s.bindings.find? (fun e => e.2.IP.Equal ip) <;> rfl
      have hinv := h.unbind ip
      have hsubl : ∀ e ∈ (s.unbind ip).bindings, e ∈ s.bindings := by
        intro e he
        rcases unbind_cases s ip with ⟨h1, _⟩ | ⟨e1, _, _, h1⟩
        · rw [h1] at he; exact he
        · rw [h1] at he; exact ((GoMap.mem_delete _ _ _).mp he).1
      obtain ⟨u1, u2, u3, _⟩ := unbind_fields
        { s with
          allocated := s.allocated.delete n,
          ipPool := { s.ipPool with available := s.ipPool.available ++ [n] } } ip
      rw [hs] at u1 u2 u3
      refine ⟨u1.trans h.mu, by rw [u2]; exact h.startEq, by rw [u2]; exact h.endEq,
        ?_, ?_, ?_, ?_, by rw [hbind]; exact hinv.keys, by rw [hbind]; exact hinv.addrs, ?_⟩
      · intro a ha
        rw [u2] at ha ⊢
        rcases List.mem_append.mp ha with ha | ha
        · exact h.inRange a ha
        · have : a = n := by simpa using ha
          rw [this]; exact hr
      · rw [u2]
        refine List.Nodup.append h.nodup (List.nodup_singleton _) ?_
        intro x hx hx'
        have : x = n := by simpa using hx'
        exact hn (this ▸ hx)
      · intro a ha
        rw [u2] at ha
        rw [u3]
        by_cases han : a = n
        · rw [han]; exact GoMap.get_delete_self _ _
        · rw [GoMap.get_delete_of_ne _ _ _ han]
          rcases List.mem_append.mp ha with ha | ha
          · exact h.free a ha
          · exact absurd (by simpa using ha) han
      · intro e he
        rw [u3] at he
        rw [u2]
        exact h.allocRange e ((GoMap.mem_delete _ _ _).mp he).1
      · intro e he
        rw [hbind] at he
        have hm := hsubl e he
        have hne : e.2.addr ≠ n := by
          intro hea
          have := (h.equal_iff e hm ip).mpr (by rw [hip, hea])
          rw [hnoneq e he] at this
          cases this
        refine ⟨(h.bound e hm).1, ?_⟩
        rw [u3, GoMap.get_delete_of_ne _ _ _ hne]
        exact (h.bound e hm).2
    · have hal' : ¬ ((s.allocated.get n).isSome = true ∧ s.ipPool.start ≤ n ∧
          n ≤ s.ipPool.end_) := fun x => hal x.1
      rw [if_neg hal, if_neg hal'] at hs
      rw [← hs]
      exact h.unbind ip

theorem Inv.buildResponseToBinding {c : Config} {s : DHCPv4} (h : Inv c s) (packet : Packet)
    (ip : IP) (now : Int) (response : Packet) (s' : DHCPv4)
    (hs : s.buildResponseToBinding packet ip now = .ok (response, s')) : Inv c s' := by
  rcases buildResponseToBinding_state s packet ip now response s' h.mu hs with rfl |
    ⟨key, b, hg, rfl⟩
  · exact h
  · have hmem := GoMap.mem_of_get _ _ _ hg
    have hset : GoMap.set s.bindings key { b with Expiration := now + s.config.Lease }
        = s.bindings.map (fun e =>
            if e.1 = key then (key, { b with Expiration := now + s.config.Lease }) else e) := by
      unfold GoMap.set
      rw [if_pos (by rw [hg]; rfl)]
    have hval : ∀ e ∈ s.bindings, e.1 = key → e.2 = b := by
      intro e he hk
      have := GoMap.get_of_mem _ e h.keys he
      rw [hk, hg] at this
      injection this with this
      exact this.symm
    refine ⟨h.mu, h.startEq, h.endEq, h.inRange, h.nodup, h.free, h.allocRange, ?_, ?_, ?_⟩
    · show (List.map Prod.fst (GoMap.set s.bindings key _)).Nodup
      rw [hset, List.map_map]
      have : (Prod.fst ∘ fun e : Nat × binding =>
          if e.1 = key then (key, ({ b with Expiration := now + s.config.Lease } : binding))
          else e) = Prod.fst := by
        funext e
        by_cases hk : e.1 = key <;> simp [hk]
      rw [this]
      exact h.keys
    · show (List.map (fun e => e.2.addr) (GoMap.set s.bindings key _)).Nodup
      rw [hset, List.map_map]
      have : List.map ((fun e : Nat × binding => e.2.addr) ∘ fun e : Nat × binding =>
          if e.1 = key then (key, ({ b with Expiration := now + s.config.Lease } : binding))
          else e) s.bindings = List.map (fun e => e.2.addr) s.bindings := by
        apply List.map_congr_left
        intro e he
        by_cases hk : e.1 = key
        · simp only [Function.comp, if_pos hk]
          rw [hval e he hk]
          rfl
        · simp only [Function.comp, if_neg hk]
      rw [this]
      exact h.addrs
    · intro e he
      rcases GoMap.mem_set _ _ _ _ he with he | rfl
      · exact h.bound e he
      · exact h.bound (key, b) hmem

theorem Inv.reorder {c : Config} {s : DHCPv4} (h : Inv c s) (bindings : GoMap binding)
    (hp : s.bindings.Perm bindings) : Inv c { s with bindings := bindings } := by
  refine ⟨h.mu, h.startEq, h.endEq, h.inRange, h.nodup, h.free, h.allocRange, ?_, ?_, ?_⟩
  · exact (hp.map _).nodup_iff.mp h.keys
  · exact (hp.map _).nodup_iff.mp h.addrs
  · intro e he
    exact h.bound e (hp.mem_iff.mpr he)

theorem Reachable.inv {c : Config} {s : DHCPv4} (h : Reachable c s) : Inv c s := by
  induction h with
  | init fuel s hs => exact Inv.init fuel c s hs
  | createOffer s packet now offer s' _ hs ih => exact ih.createOffer packet now offer s' hs
  | releaseIP s ip s' _ hs ih => exact ih.releaseIP ip s' hs
  | buildResponseToBinding s packet ip now response s' _ hs ih =>
    exact ih.buildResponseToBinding packet ip now response s' hs
  | cleanupExpiredLeases s now s' _ hs ih =>
    rw [cleanupExpiredLeases_ok s s' now ih.mu hs]
    exact ih
  | expire s mac b now s' _ _ _ hs ih => exact (ih.releaseIP b.IP s' hs).deleteBinding mac
  | reorder s bindings _ hp ih => exact ih.reorder bindings hp


theorem exampleBoundServer_reachable : Reachable exampleConfig exampleBoundServer :=
  Reachable.createOffer exampleServer (examplePacket 0x55 []) 100
    (some ((examplePacket 0x55 []).ToOffer (IPv4 10 0 0 10) exampleServer.createReplyOptions))
    exampleBoundServer (Reachable.init 4 exampleServer rfl) rfl

/-- C7: in every server state reachable from `MakeDHCPv4 c` by `createOffer`,
`releaseIP`, `buildResponseToBinding` and expiry-sweep steps (in any order, with
any arguments, under any iteration order of the bindings map), the pool bounds
are the configured `start` and `end`, every address of the free list lies in
`[start, end]`, the free list holds no address twice, and no address of the
free list is marked in the allocated set. -/
theorem reachable_free_list_invariant (c : Config) (s : DHCPv4) (h : Reachable c s) :
    ip4ToUint32 c.Start = .ok s.ipPool.start ∧ ip4ToUint32 c.End = .ok s.ipPool.end_ ∧
    (∀ a ∈ s.ipPool.available, s.ipPool.start ≤ a ∧ a ≤ s.ipPool.end_) ∧
    s.ipPool.available.Nodup ∧
    (∀ a ∈ s.ipPool.available, s.allocated.get a = none) :=
  ⟨h.inv.startEq, h.inv.endEq, h.inv.inRange, h.inv.nodup, h.inv.free⟩

/-- The invariant of C7 on the example server after one offer. -/
theorem reachable_free_list_invariant_witness :
    Reachable exampleConfig exampleBoundServer ∧
    (∀ a ∈ exampleBoundServer.ipPool.available,
      exampleBoundServer.ipPool.start ≤ a ∧ a ≤ exampleBoundServer.ipPool.end_) ∧
    exampleBoundServer.ipPool.available.Nodup ∧
    (∀ a ∈ exampleBoundServer.ipPool.available, exampleBoundServer.allocated.get a = none) :=
  ⟨exampleBoundServer_reachable,
    (reachable_free_list_invariant exampleConfig exampleBoundServer
      exampleBoundServer_reachable).2.2⟩

/-- C8: in every reachable server state `s` and for every IPv4 address `ip`
(with number `n`), `releaseIP ip` returns a state in which `ip` is not marked
allocated and no binding has an address equal to `ip`; if `ip` was marked
allocated the free list is the old one with `n` appended, where it then occurs
exactly once, and otherwise the pool is unchanged; every binding whose address
differs from `ip` is still there, unchanged, and no binding is added. -/
theorem releaseIP_on_reachable (c : Config) (s : DHCPv4) (ip : IP) (n : Nat)
    (h : Reachable c s) (hip : ip4ToUint32 ip = .ok n) :
    convertIPToUint64 ip = n ∧
    ∃ s', s.releaseIP ip = .ok s' ∧
      s'.allocated.get n = none ∧
      (∀ e ∈ s'.bindings, e.2.IP.Equal ip = false) ∧
      ((s.allocated.get n).isSome = true →
        s'.ipPool = { s.ipPool with available := s.ipPool.available ++ [n] } ∧
        s'.ipPool.available.count n = 1) ∧
      (s.allocated.get n = none → s'.ipPool = s.ipPool) ∧
      (∀ e ∈ s.bindings, e.2.IP.Equal ip = false → e ∈ s'.bindings) ∧
      (∀ e ∈ s'.bindings, e ∈ s.bindings) ∧
      (∀ k b, s.bindings.get k = some b → b.IP.Equal ip = false →
        s'.bindings.get k = some b) := by
  have hi := h.inv
  refine ⟨convertIPToUint64_eq ip n hip, _, releaseIP_ok s ip n hi.mu hip, ?_⟩
  obtain ⟨_, u2, u3, _⟩ := unbind_fields
    { s with
      allocated := if (s.allocated.get n).isSome then s.allocated.delete n else s.allocated,
      ipPool :=
        if (s.allocated.get n).isSome ∧ s.ipPool.start ≤ n ∧ n ≤ s.ipPool.end_ then
          { s.ipPool with available := s.ipPool.available ++ [n] }
        else s.ipPool } ip
  have hbind : (DHCPv4.unbind
      { s with
        allocated := if (s.allocated.get n).isSome then s.allocated.delete n else s.allocated,
        ipPool :=
          if (s.allocated.get n).isSome ∧ s.ipPool.start ≤ n ∧ n ≤ s.ipPool.end_ then
            { s.ipPool with available := s.ipPool.available ++ [n] }
          else s.ipPool } ip).bindings = (s.unbind ip).bindings := by
    unfold DHCPv4.unbind
    cases s.bindings.find? (fun e => e.2.IP.Equal ip) <;> rfl
  rw [hbind, u2, u3]
  refine ⟨?_, hi.unbind_none ip, ?_, ?_, ?_, ?_, ?_⟩
  · by_cases hal : (s.allocated.get n).isSome = true
    · rw [if_pos hal]; exact GoMap.get_delete_self _ _
    · rw [if_neg hal]
      simpa using hal
  · intro hal
    have hr := hi.allocated_le n hal
    have hn : n ∉ s.ipPool.available := by
      intro hmem
      have := hi.free n hmem
      rw [this] at hal
      cases hal
    rw [if_pos ⟨hal, hr⟩]
    refine ⟨rfl, ?_⟩
    show (s.ipPool.available ++ [n]).count n = 1
    rw [List.count_append, List.count_eq_zero_of_not_mem hn]
    simp
  · intro hal
    have : ¬ ((s.allocated.get n).isSome = true ∧ s.ipPool.start ≤ n ∧ n ≤ s.ipPool.end_) := by
      intro x
      rw [hal] at x
      cases x.1
    rw [if_neg this]
  · intro e he hne
    rcases unbind_cases s ip with ⟨h1, _⟩ | ⟨e0, he0, heq0, h1⟩
    · rw [h1]; exact he
    · rw [h1]
      refine (GoMap.mem_delete _ _ _).mpr ⟨he, ?_⟩
      intro hk
      have := List.inj_on_of_nodup_map hi.keys he he0 hk
      rw [this, heq0] at hne
      cases hne
  · intro e he
    rcases unbind_cases s ip with ⟨h1, _⟩ | ⟨e0, _, _, h1⟩
    · rw [h1] at he; exact he
    · rw [h1] at he; exact ((GoMap.mem_delete _ _ _).mp he).1
  · intro k b hg hne
    rcases unbind_cases s ip with ⟨h1, _⟩ | ⟨e0, he0, heq0, h1⟩
    · rw [h1]; exact hg
    · rw [h1]
      have hk : k ≠ e0.1 := by
        intro hk
        have := GoMap.get_of_mem _ e0 hi.keys he0
        rw [← hk, hg] at this
        injection this with this
        rw [this, heq0] at hne
        cases hne
      show GoMap.get (GoMap.delete s.bindings e0.1) k = some b
      rw [GoMap.get_delete_of_ne _ _ _ hk]
      exact hg

/-- The release of `10.0.0.10` on the example server after one offer. -/
theorem releaseIP_on_reachable_witness :
    Reachable exampleConfig exampleBoundServer ∧
    ip4ToUint32 (some [10, 0, 0, 10]) = .ok 167772170 ∧
    ∃ s', exampleBoundServer.releaseIP (some [10, 0, 0, 10]) = .ok s' ∧
      s'.allocated.get 167772170 = none ∧
      (∀ e ∈ s'.bindings, e.2.IP.Equal (some [10, 0, 0, 10]) = false) :=
  have ⟨s', h1, h2, h3, _⟩ := (releaseIP_on_reachable exampleConfig exampleBoundServer
    (some [10, 0, 0, 10]) 167772170 exampleBoundServer_reachable rfl).2
  ⟨exampleBoundServer_reachable, rfl, s', h1, h2, h3⟩


/-! ## The frame encoder -/

theorem udp_Encode_eq (u : udp) :
    u.Encode = [byte (u.Source >>> 8), byte u.Source, byte (u.Destination >>> 8),
      byte u.Destination, byte (u.Length >>> 8), byte u.Length, 0, 0] ++ u.Payload := by
  have h : List.replicate (8 + u.Payload.length) (0 : Byte)
      = [0, 0, 0, 0, 0, 0, 0, 0] ++ List.replicate u.Payload.length 0 := by
    rw [List.replicate_add]; rfl
  simp only [udp.Encode, putUint16, copySlice, h]
  simp
  omega

theorem ipHeader_Encode_eq (i : ipHeader) :
    i.Encode = [i.Version, 0, byte (i.Length >>> 8), byte i.Length, 0, 0, 0, 0, 0xFF,
      i.Protocol, 0, 0] ++ addr4 i.Source ++ addr4 i.Destination := by
  have hcases : ∀ ip : IP, ip.To4.bytes = [] ∨ ∃ a b c d, ip.To4.bytes = [a, b, c, d] := by
    intro ip
    rcases To4_cases ip with h | ⟨a, b, c, d, h, _⟩
    · left; rw [h]; rfl
    · right; exact ⟨a, b, c, d, by rw [h]; rfl⟩
  rcases hcases i.Source with hs | ⟨a, b, c, d, hs⟩ <;>
    rcases hcases i.Destination with hd | ⟨a', b', c', d', hd⟩ <;>
    simp [ipHeader.Encode, putUint16, copySlice, addr4, hs, hd, List.replicate]

theorem mac6_length (mac : HardwareAddr) : (mac6 mac).length = 6 := by
  simp only [mac6, List.length_append, List.length_take, List.length_replicate]
  omega

theorem ethernet_Encode_eq (e : ethernet) :
    e.Encode = mac6 e.Destination ++ mac6 e.Source ++
      [byte (e.Type_ >>> 8), byte e.Type_] ++ e.Payload := by
  have h1 : copySlice (List.replicate (14 + e.Payload.length) (0 : Byte)) 0 6 e.Destination.bytes
      = mac6 e.Destination ++ List.replicate (8 + e.Payload.length) 0 := by
    simp only [copySlice, mac6, List.take_zero, List.nil_append, Nat.sub_zero, Nat.zero_add,
      List.drop_replicate, List.append_assoc, ← List.replicate_add]
    congr 2
    omega
  have h2 : copySlice (mac6 e.Destination ++ List.replicate (8 + e.Payload.length) (0 : Byte))
      6 12 e.Source.bytes
      = mac6 e.Destination ++ (mac6 e.Source ++ List.replicate (2 + e.Payload.length) 0) := by
    have hl := mac6_length e.Destination
    simp only [copySlice]
    rw [List.take_left' hl, List.drop_append_eq_append_drop, hl]
    have hz : 6 + min (12 - 6) e.Source.bytes.length - 6 = min 6 e.Source.bytes.length := by
      omega
    have hd : List.drop (6 + min (12 - 6) e.Source.bytes.length) (mac6 e.Destination) = [] :=
      List.drop_of_length_le (by omega)
    rw [hz, hd]
    simp only [mac6, List.nil_append, List.drop_replicate, List.append_assoc,
      ← List.replicate_add]
    have hn : 8 + e.Payload.length - min 6 e.Source.bytes.length
        = 6 - e.Source.bytes.length + (2 + e.Payload.length) := by omega
    rw [hn]
  have h3 : ∀ (A B : List Byte) (x y : Byte) (n : Nat), A.length = 6 → B.length = 6 →
      ((A ++ (B ++ List.replicate (2 + n) (0 : Byte))).set 12 x).set 13 y
        = A ++ (B ++ (x :: y :: List.replicate n 0)) := by
    intro A B x y n hA hB
    have hr : List.replicate (2 + n) (0 : Byte) = 0 :: 0 :: List.replicate n 0 := by
      rw [Nat.add_comm]; rfl
    rw [hr, List.set_append, if_neg (by omega), List.set_append, if_neg (by omega),
      List.set_append, if_neg (by omega), List.set_append, if_neg (by omega), hA, hB]
    rfl
  simp only [ethernet.Encode]
  rw [h1, h2, h3 _ _ _ _ _ (mac6_length _) (mac6_length _)]
  simp only [copySlice]
  have hlen : (mac6 e.Destination ++ (mac6 e.Source ++
      (byte (e.Type_ >>> 8) :: byte e.Type_ :: List.replicate e.Payload.length 0))).length
      = 14 + e.Payload.length := by
    simp only [List.length_append, List.length_cons, List.length_replicate, mac6_length]
    omega
  have hpre : (mac6 e.Destination ++ (mac6 e.Source ++
      (byte (e.Type_ >>> 8) :: byte e.Type_ :: List.replicate e.Payload.length 0)))
      = (mac6 e.Destination ++ mac6 e.Source ++ [byte (e.Type_ >>> 8), byte e.Type_])
        ++ List.replicate e.Payload.length 0 := by
    simp
  have hl14 : (mac6 e.Destination ++ mac6 e.Source ++
      [byte (e.Type_ >>> 8), byte e.Type_]).length = 14 := by
    simp [mac6_length]
  rw [hlen, hpre, List.take_left' hl14]
  have ht : List.take (14 + e.Payload.length - 14) e.Payload = e.Payload :=
    List.take_of_length_le (by omega)
  have hd : List.drop (14 + min (14 + e.Payload.length - 14) e.Payload.length)
      ((mac6 e.Destination ++ mac6 e.Source ++ [byte (e.Type_ >>> 8), byte e.Type_])
        ++ List.replicate e.Payload.length 0) = [] :=
    List.drop_of_length_le (by
      simp only [List.length_append, List.length_replicate, hl14]
      omega)
  rw [ht, hd, List.append_nil]

theorem Ethernet_Encode_eq (p : Ethernet) :
    p.Encode = mac6 p.DestinationMAC ++ mac6 p.SourceMAC ++ ([0x08, 0x00] : List Byte) ++
      ([0x45, 0, byte (((20 + (8 + p.Payload.length)) % 2 ^ 16) >>> 8),
        byte ((20 + (8 + p.Payload.length)) % 2 ^ 16), 0, 0, 0, 0, 0xFF, 17, 0, 0] ++
        addr4 p.SourceIP ++ addr4 p.DestinationIP) ++
      ([byte (p.SourcePort >>> 8), byte p.SourcePort, byte (p.DestinationPort >>> 8),
        byte p.DestinationPort, byte (((8 + p.Payload.length) % 2 ^ 16) >>> 8),
        byte ((8 + p.Payload.length) % 2 ^ 16), 0, 0] ++ p.Payload) := by
  simp only [Ethernet.Encode, ethernet_Encode_eq, ipHeader_Encode_eq, udp_Encode_eq,
    List.length_append, List.length_cons, List.length_nil]
  have h1 : byte (0x0800 >>> 8) = (0x08 : Byte) := by decide
  have h2 : byte 0x0800 = (0x00 : Byte) := by decide
  rw [h1, h2]
  simp only [List.append_assoc, Nat.zero_add]


/-! ## The delivery router -/

theorem releaseIP_ports (s : DHCPv4) (ip : IP) (s' : DHCPv4) (hmu : s.mu = false)
    (hs : s.releaseIP ip = .ok s') :
    s'.clientPort = s.clientPort ∧ s'.serverPort = s.serverPort := by
  cases hip : ip4ToUint32 ip with
  | error f =>
    rw [releaseIP_not_ip4 s ip f s' hmu hip hs]
    obtain ⟨_, _, _, _, h1, h2⟩ := unbind_fields s ip
    exact ⟨h1, h2⟩
  | ok n =>
    rw [releaseIP_ok s ip n hmu hip] at hs
    injection hs with hs
    rw [← hs]
    obtain ⟨_, _, _, _, h1, h2⟩ := unbind_fields
      { s with
        allocated := if (s.allocated.get n).isSome then s.allocated.delete n else s.allocated,
        ipPool :=
          if (s.allocated.get n).isSome ∧ s.ipPool.start ≤ n ∧ n ≤ s.ipPool.end_ then
            { s.ipPool with available := s.ipPool.available ++ [n] }
          else s.ipPool } ip
    exact ⟨h1, h2⟩

theorem Reachable.ports {c : Config} {s : DHCPv4} (h : Reachable c s) :
    s.clientPort = 68 ∧ s.serverPort = 67 := by
  induction h with
  | init fuel s hs =>
    obtain ⟨_, _, _, _, _, h1, h2⟩ := MakeDHCPv4_ok fuel c s hs
    exact ⟨h1, h2⟩
  | createOffer s packet now offer s' hr hs ih =>
    rcases createOffer_ok_cases s packet now offer s' hr.inv.mu hs with ⟨_, _, rfl⟩ |
      ⟨a, rest, key, _, _, _, rfl⟩
    · exact ih
    · exact ih
  | releaseIP s ip s' hr hs ih =>
    obtain ⟨h1, h2⟩ := releaseIP_ports s ip s' hr.inv.mu hs
    rw [h1, h2]; exact ih
  | buildResponseToBinding s packet ip now response s' hr hs ih =>
    rcases buildResponseToBinding_state s packet ip now response s' hr.inv.mu hs with rfl |
      ⟨key, b, _, rfl⟩
    · exact ih
    · exact ih
  | cleanupExpiredLeases s now s' hr hs ih =>
    rw [cleanupExpiredLeases_ok s s' now hr.inv.mu hs]
    exact ih
  | expire s mac b now s' hr _ _ hs ih =>
    obtain ⟨h1, h2⟩ := releaseIP_ports s b.IP s' hr.inv.mu hs
    exact ⟨h1.trans ih.1, h2.trans ih.2⟩
  | reorder s bindings _ _ ih => exact ih

theorem SetBroadcast_IsBroadcast (p : Packet) : p.SetBroadcast.IsBroadcast = true := by
  have h15 : ((p.Flags ||| 0x8000) &&& 0x8000).testBit 15 = true := by
    rw [Nat.testBit_and, Nat.testBit_or]
    have : Nat.testBit 0x8000 15 = true := by decide
    simp [this]
  have hne : (p.Flags ||| 0x8000) &&& 0x8000 ≠ 0 := by
    intro h0
    rw [h0] at h15
    simp at h15
  simpa [Packet.IsBroadcast, Packet.SetBroadcast] using hne

/-- C9: for a server reachable from `MakeDHCPv4`, every reply `p` whose
message-type option has first byte `t`, and every request source address `a`,
`sendPacket` writes to the ordinary UDP socket, never the raw transport, in
this order of precedence. (1) `GIAddr` not empty and `t` is NAK: the broadcast
flag of `p` is set and the encoded packet goes to `a` unchanged; `GIAddr` not
empty and `t` is not NAK: `Encode p` goes to `GIAddr` on port 67. (2) Else,
`t` is NAK: `Encode p` goes to `255.255.255.255` on port 68. (3) Else, `CIAddr`
not empty: `Encode p` goes to `CIAddr` on port 68. -/
theorem sendPacket_precedence (c : Config) (s : DHCPv4) (Encode : Packet → List Byte)
    (p : Packet) (a : UDPAddr) (t : Byte) (rest : List Byte)
    (hs : Reachable c s) (ht : p.GetOption OptionDHCPMessageType = some (t :: rest)) :
    (notEmpty p.GIAddr = true → t = DHCPNAK →
      p.SetBroadcast.IsBroadcast = true ∧
      s.sendPacket Encode p a
        = .ok (.udpConn (Encode p.SetBroadcast) a, p.SetBroadcast)) ∧
    (notEmpty p.GIAddr = true → t ≠ DHCPNAK →
      s.sendPacket Encode p a = .ok (.udpConn (Encode p) ⟨p.GIAddr, 67⟩, p)) ∧
    (notEmpty p.GIAddr = false → t = DHCPNAK →
      s.sendPacket Encode p a = .ok (.udpConn (Encode p) ⟨IPv4bcast, 68⟩, p)) ∧
    (notEmpty p.GIAddr = false → t ≠ DHCPNAK → notEmpty p.CIAddr = true →
      s.sendPacket Encode p a = .ok (.udpConn (Encode p) ⟨p.CIAddr, 68⟩, p)) := by
  obtain ⟨hc, hsp⟩ := hs.ports
  have hb : (p.GetOption OptionDHCPMessageType).bytes = t :: rest := by rw [ht]; rfl
  refine ⟨?_, ?_, ?_, ?_⟩
  · intro hg hn
    refine ⟨SetBroadcast_IsBroadcast p, ?_⟩
    simp [DHCPv4.sendPacket, hb, hg, hn]
  · intro hg hn
    simp [DHCPv4.sendPacket, hb, hg, hn, hsp]
  · intro hg hn
    simp [DHCPv4.sendPacket, hb, hg, hn, hc]
  · intro hg hn hci
    simp [DHCPv4.sendPacket, hb, hg, hn, hci, hc]

/-- The routing of C9 for a NAK that came through the relay `10.0.1.1`. -/
theorem sendPacket_precedence_witness :
    Reachable exampleConfig exampleBoundServer ∧
    ({ (examplePacket 0x55 []).ToNak exampleServer.createReplyOptions with
        GIAddr := IPv4 10 0 1 1 } : Packet).GetOption OptionDHCPMessageType
      = some [DHCPNAK] ∧
    exampleBoundServer.sendPacket (fun _ => [])
        { (examplePacket 0x55 []).ToNak exampleServer.createReplyOptions with
          GIAddr := IPv4 10 0 1 1 } ⟨IPv4 10 0 1 1, 67⟩
      = .ok (.udpConn [] ⟨IPv4 10 0 1 1, 67⟩,
          Packet.SetBroadcast { (examplePacket 0x55 []).ToNak exampleServer.createReplyOptions
            with GIAddr := IPv4 10 0 1 1 }) :=
  ⟨exampleBoundServer_reachable, rfl,
    ((sendPacket_precedence exampleConfig exampleBoundServer (fun _ => [])
      { (examplePacket 0x55 []).ToNak exampleServer.createReplyOptions with
        GIAddr := IPv4 10 0 1 1 } ⟨IPv4 10 0 1 1, 67⟩ DHCPNAK [] exampleBoundServer_reachable
      rfl).1 (by decide) rfl).2⟩


theorem sendPacket_raw (s : DHCPv4) (Encode : Packet → List Byte) (p : Packet) (a : UDPAddr)
    (t : Byte) (rest : List Byte)
    (ht : (p.GetOption OptionDHCPMessageType).bytes = t :: rest)
    (hg : notEmpty p.GIAddr = false) (hn : t ≠ DHCPNAK) (hc : notEmpty p.CIAddr = false)
    (hb : p.IsBroadcast = false) (hm : p.CHAddr ≠ none) :
    s.sendPacket Encode p a = .ok (.rawConn (Ethernet.Encode
      { SourcePort := s.serverPort % 2 ^ 16, DestinationPort := s.clientPort % 2 ^ 16,
        SourceIP := s.config.ServerIP, DestinationIP := none,
        SourceMAC := none, DestinationMAC := p.CHAddr, Payload := Encode p }), p) := by
  simp [DHCPv4.sendPacket, ht, hg, hn, hc, hb, hm]

/-- C10: on the raw-frame path the frame is addressed to the client's hardware
address, but the destination field of its IPv4 header is `0.0.0.0`, not the
offered address. For the OFFER of `10.0.0.10` to `00:11:22:33:44:55` (no relay,
no client address, broadcast flag clear), whatever the packet encoder and the
request source address: `sendPacket` hands a frame to the raw transport whose
first six bytes are the hardware address, whose bytes 30..33 are `0, 0, 0, 0`
while `YIAddr` is `10.0.0.10`, and whose bytes from 42 on are the encoded
packet. -/
theorem sendPacket_raw_frame_destination_zero :
    ∀ (Encode : Packet → List Byte) (a : UDPAddr),
      ∃ frame, exampleBoundServer.sendPacket Encode exampleOffer a
          = .ok (.rawConn frame, exampleOffer) ∧
        frame.take 6 = [0x00, 0x11, 0x22, 0x33, 0x44, 0x55] ∧
        (frame.drop 30).take 4 = [0, 0, 0, 0] ∧
        exampleOffer.YIAddr = IPv4 10 0 0 10 ∧
        (exampleOffer.YIAddr.To4 = some [10, 0, 0, 10]) ∧
        frame.drop 42 = Encode exampleOffer := by
  intro Encode a
  have hraw := sendPacket_raw exampleBoundServer Encode exampleOffer a DHCPOFFER []
    (by decide) (by decide) (by decide) (by decide) (by decide) (by decide)
  refine ⟨_, hraw, ?_, ?_, rfl, by decide, ?_⟩
  · rw [Ethernet_Encode_eq]
    have : mac6 exampleOffer.CHAddr = [0x00, 0x11, 0x22, 0x33, 0x44, 0x55] := by decide
    simp [this]
  · rw [Ethernet_Encode_eq]
    have h1 : mac6 exampleOffer.CHAddr = [0x00, 0x11, 0x22, 0x33, 0x44, 0x55] := by decide
    have h2 : mac6 none = [0, 0, 0, 0, 0, 0] := by decide
    have h3 : addr4 exampleBoundServer.config.ServerIP = [10, 0, 0, 1] := by decide
    have h4 : addr4 none = [0, 0, 0, 0] := by decide
    simp [h1, h2, h3, h4]
  · rw [Ethernet_Encode_eq]
    have h1 : mac6 exampleOffer.CHAddr = [0x00, 0x11, 0x22, 0x33, 0x44, 0x55] := by decide
    have h2 : mac6 none = [0, 0, 0, 0, 0, 0] := by decide
    have h3 : addr4 exampleBoundServer.config.ServerIP = [10, 0, 0, 1] := by decide
    have h4 : addr4 none = [0, 0, 0, 0] := by decide
    simp [h1, h2, h3, h4]

theorem sendPacket_fallback (s : DHCPv4) (Encode : Packet → List Byte) (p : Packet)
    (a : UDPAddr) (t : Byte) (rest : List Byte)
    (ht : (p.GetOption OptionDHCPMessageType).bytes = t :: rest)
    (hg : notEmpty p.GIAddr = false) (hn : t ≠ DHCPNAK) (hc : notEmpty p.CIAddr = false)
    (hb : p.IsBroadcast = true ∨ p.CHAddr = none) :
    s.sendPacket Encode p a = .ok (.udpConn (Encode p) ⟨IPv4bcast, a.Port⟩, p) := by
  rcases hb with hb | hb <;> simp [DHCPv4.sendPacket, ht, hg, hn, hc, hb]

/-- C11: in the fallback case `sendPacket` replaces only the address of the
request source `a` and keeps its port. For the OFFER of `10.0.0.10` with the
broadcast flag set (no relay, not a NAK, no client address) and a request that
came from `10.0.0.99` port `1068`, whatever the packet encoder, the encoded
packet goes to `255.255.255.255` on port `1068`, not on the client port `68`. -/
theorem sendPacket_fallback_keeps_source_port :
    ∀ (Encode : Packet → List Byte),
      exampleBoundServer.clientPort = 68 ∧
      exampleBoundServer.sendPacket Encode { exampleOffer with Flags := 0x8000 }
          ⟨some [10, 0, 0, 99], 1068⟩
        = .ok (.udpConn (Encode { exampleOffer with Flags := 0x8000 }) ⟨IPv4bcast, 1068⟩,
            { exampleOffer with Flags := 0x8000 }) := by
  intro Encode
  exact ⟨rfl, sendPacket_fallback exampleBoundServer Encode { exampleOffer with Flags := 0x8000 }
    ⟨some [10, 0, 0, 99], 1068⟩ DHCPOFFER [] (by decide) (by decide) (by decide) (by decide)
    (Or.inl (by decide))⟩

theorem mac6_of_length (mac : HardwareAddr) (h : mac.bytes.length = 6) :
    mac6 mac = mac.bytes := by
  simp [mac6, h, List.take_of_length_le]

theorem addr4_of_To4 (ip : IP) (a b c d : Byte) (h : ip.To4 = some [a, b, c, d]) :
    addr4 ip = [a, b, c, d] := by
  simp [addr4, h, Slice.bytes]

theorem byte_bigEndian (v : Nat) (h : v < 2 ^ 16) :
    (byte (v >>> 8)).val * 256 + (byte v).val = v := by
  simp only [byte, Nat.shiftRight_eq_div_pow]
  omega

/-- C12: for an `Ethernet` value with 6-byte hardware addresses, IPv4 source
and destination addresses, 16-bit ports and a payload of at most 65507 bytes,
`Encode` returns exactly: destination MAC, source MAC, `0x08 0x00`, the 20-byte
IPv4 header (`0x45`, `0`, the total length `28 + len(payload)` big-endian, four
zero bytes, TTL `0xFF`, protocol `17`, checksum `0 0`, source address,
destination address), the 8-byte UDP header (source port, destination port and
the length `8 + len(payload)`, each big-endian, checksum `0 0`), and the
payload. `hi` and `lo` are the two bytes of a 16-bit number, high byte first. -/
theorem Ethernet_Encode_layout (p : Ethernet) (s0 s1 s2 s3 d0 d1 d2 d3 : Byte)
    (hdm : p.DestinationMAC.bytes.length = 6) (hsm : p.SourceMAC.bytes.length = 6)
    (hs : p.SourceIP.To4 = some [s0, s1, s2, s3])
    (hd : p.DestinationIP.To4 = some [d0, d1, d2, d3])
    (hsp : p.SourcePort < 2 ^ 16) (hdp : p.DestinationPort < 2 ^ 16)
    (hlen : p.Payload.length ≤ 65507) :
    p.Encode = p.DestinationMAC.bytes ++ p.SourceMAC.bytes ++ ([0x08, 0x00] : List Byte) ++
      [0x45, 0, byte ((28 + p.Payload.length) >>> 8), byte (28 + p.Payload.length),
        0, 0, 0, 0, 0xFF, 17, 0, 0, s0, s1, s2, s3, d0, d1, d2, d3] ++
      [byte (p.SourcePort >>> 8), byte p.SourcePort,
        byte (p.DestinationPort >>> 8), byte p.DestinationPort,
        byte ((8 + p.Payload.length) >>> 8), byte (8 + p.Payload.length), 0, 0] ++
      p.Payload ∧
    (byte ((28 + p.Payload.length) >>> 8)).val * 256 + (byte (28 + p.Payload.length)).val
      = 28 + p.Payload.length ∧
    (byte (p.SourcePort >>> 8)).val * 256 + (byte p.SourcePort).val = p.SourcePort ∧
    (byte (p.DestinationPort >>> 8)).val * 256 + (byte p.DestinationPort).val
      = p.DestinationPort ∧
    (byte ((8 + p.Payload.length) >>> 8)).val * 256 + (byte (8 + p.Payload.length)).val
      = 8 + p.Payload.length := by
  refine ⟨?_, byte_bigEndian _ (by omega), byte_bigEndian _ hsp, byte_bigEndian _ hdp,
    byte_bigEndian _ (by omega)⟩
  have e1 : (20 + (8 + p.Payload.length)) % 2 ^ 16 = 28 + p.Payload.length := by omega
  have e2 : (8 + p.Payload.length) % 2 ^ 16 = 8 + p.Payload.length := by omega
  rw [Ethernet_Encode_eq, mac6_of_length _ hdm, mac6_of_length _ hsm,
    addr4_of_To4 _ _ _ _ _ hs, addr4_of_To4 _ _ _ _ _ hd, e1, e2]
  simp

/-- The frame of C12 for a three-byte payload from `10.0.0.1` port 67 to
`10.0.0.10` port 68. -/
theorem Ethernet_Encode_layout_witness :
    Ethernet.Encode ⟨67, 68, IPv4 10 0 0 1, IPv4 10 0 0 10,
        some [0xaa, 0xbb, 0xcc, 0xdd, 0xee, 0xff], some [0x00, 0x11, 0x22, 0x33, 0x44, 0x55],
        [1, 2, 3]⟩
      = [0x00, 0x11, 0x22, 0x33, 0x44, 0x55, 0xaa, 0xbb, 0xcc, 0xdd, 0xee, 0xff, 0x08, 0x00,
         0x45, 0, 0, 31, 0, 0, 0, 0, 0xFF, 17, 0, 0, 10, 0, 0, 1, 10, 0, 0, 10,
         0, 67, 0, 68, 0, 11, 0, 0, 1, 2, 3] :=
  (Ethernet_Encode_layout ⟨67, 68, IPv4 10 0 0 1, IPv4 10 0 0 10,
      some [0xaa, 0xbb, 0xcc, 0xdd, 0xee, 0xff], some [0x00, 0x11, 0x22, 0x33, 0x44, 0x55],
      [1, 2, 3]⟩ 10 0 0 1 10 0 0 10 rfl rfl rfl rfl (by decide) (by decide) (by decide)).1

/-! ## `release` and `allocate` on the pool -/

theorem release_ok (p : ipPool) (ip : IP) (n : Nat) (hip : ip4ToUint32 ip = .ok n) :
    p.release ip = .ok (if p.start ≤ n ∧ n ≤ p.end_ then
      { p with available := p.available ++ [n] } else p) := by
  unfold ipPool.release
  rw [hip]
  simp only [bind, Except.bind, pure, Except.pure, ge_iff_le]
  split <;> rfl

/-- C13: for every pool and every IPv4 address `ip` with number `n`,
`release ip` leaves the pool unchanged when `n` is outside `[start, end]`, and
otherwise appends `n` at the tail of the free list and changes nothing else;
so when the free list was empty, the next `allocate` returns that address. -/
theorem release_appends_in_range (p : ipPool) (ip : IP) (n : Nat)
    (hip : ip4ToUint32 ip = .ok n) :
    ((n < p.start ∨ p.end_ < n) → p.release ip = .ok p) ∧
    (p.start ≤ n ∧ n ≤ p.end_ →
      p.release ip = .ok { p with available := p.available ++ [n] } ∧
      (p.available = [] →
        (ipPool.allocate { p with available := p.available ++ [n] }).1 = uint32ToIP4 n ∧
        (uint32ToIP4 n).Equal ip = true)) := by
  refine ⟨?_, ?_⟩
  · intro hout
    rw [release_ok p ip n hip, if_neg (by omega)]
  · intro hin
    refine ⟨by rw [release_ok p ip n hip, if_pos hin], ?_⟩
    intro hempty
    refine ⟨?_, (uint32ToIP4_Equal_iff n (ip4ToUint32_lt ip n hip) ip).mpr hip⟩
    simp [ipPool.allocate, hempty]

/-- The release of `10.0.0.11` into the emptied example pool, then `allocate`. -/
theorem release_appends_in_range_witness :
    ip4ToUint32 (some [10, 0, 0, 11]) = .ok 167772171 ∧
    ipPool.release ⟨167772170, 167772172, []⟩ (some [10, 0, 0, 11])
      = .ok ⟨167772170, 167772172, [167772171]⟩ ∧
    (ipPool.allocate ⟨167772170, 167772172, [167772171]⟩).1 = IPv4 10 0 0 11 :=
  have h := (release_appends_in_range ⟨167772170, 167772172, []⟩ (some [10, 0, 0, 11])
    167772171 rfl).2 ⟨by decide, by decide⟩
  ⟨rfl, h.1, (h.2 rfl).1⟩

/-- C14 as stated fails: on the pool over `10.0.0.10 .. 10.0.0.12`, after two
`allocate` calls and the release of `10.0.0.10` the free list is `.12, .10`, and
`allocate` returns `10.0.0.12` although the lower `10.0.0.10` is free. -/
theorem allocate_after_release_not_lowest :
    newIPPool 4 (IPv4 10 0 0 10) (IPv4 10 0 0 12)
      = .ok ⟨167772170, 167772172, [167772170, 167772171, 167772172]⟩ ∧
    ipPool.release
        (allocateMany 2 ⟨167772170, 167772172, [167772170, 167772171, 167772172]⟩).2
        (IPv4 10 0 0 10)
      = .ok ⟨167772170, 167772172, [167772172, 167772170]⟩ ∧
    (ipPool.allocate ⟨167772170, 167772172, [167772172, 167772170]⟩).1 = IPv4 10 0 0 12 ∧
    ip4ToUint32 (IPv4 10 0 0 12) = .ok 167772172 ∧
    167772170 ∈ [167772172, 167772170] ∧ 167772170 < 167772172 :=
  ⟨rfl, rfl, rfl, rfl, by decide, by decide⟩

/-- C14, amended: `allocate` on a non-empty free list removes and returns the
first entry of the free list. While the free list is in ascending order this is
the lowest-numbered free address, and `allocate` leaves the list ascending;
`newIPPool` builds an ascending free list. (A release appends at the tail and
need not keep the order.) -/
theorem allocate_returns_head (p : ipPool) (a : Nat) (rest : List Nat)
    (h : p.available = a :: rest) :
    p.allocate = (uint32ToIP4 a, { p with available := rest }) ∧
    (p.available.Pairwise (fun x y => x < y) →
      (∀ b ∈ p.available, a ≤ b) ∧ p.allocate.2.available.Pairwise (fun x y => x < y)) ∧
    (∀ (fuel : Nat) (start end_ : IP) (q : ipPool), newIPPool fuel start end_ = .ok q →
      q.available.Pairwise (fun x y => x < y)) := by
  have hall : p.allocate = (uint32ToIP4 a, { p with available := rest }) := by
    simp [ipPool.allocate, h]
  refine ⟨hall, ?_, ?_⟩
  · intro hs
    rw [h, List.pairwise_cons] at hs
    rw [hall, h]
    refine ⟨?_, hs.2⟩
    intro b hb
    rcases List.mem_cons.mp hb with rfl | hb
    · exact Nat.le_refl _
    · exact Nat.le_of_lt (hs.1 b hb)
  · intro fuel start end_ q hq
    obtain ⟨_, _, _, _, hav⟩ := newIPPool_ok fuel start end_ q hq
    rw [hav]
    exact List.pairwise_lt_range' _ _

/-- The amended C14 on the pool over `10.0.0.10 .. 10.0.0.12`. -/
theorem allocate_returns_head_witness :
    ipPool.allocate ⟨167772170, 167772172, [167772170, 167772171, 167772172]⟩
      = (uint32ToIP4 167772170, ⟨167772170, 167772172, [167772171, 167772172]⟩) :=
  (allocate_returns_head ⟨167772170, 167772172, [167772170, 167772171, 167772172]⟩
    167772170 [167772171, 167772172] rfl).1

/-- C15: `release` checks no duplicates. For every pool and every IPv4 address
`x` (number `n`) inside `[start, end]` that is already in the free list,
`release x` makes `n` occur once more in the free list, and in the run of
`allocate` calls that empties the pool two different calls return `x`. -/
theorem release_duplicates_free_address (p : ipPool) (x : IP) (n : Nat)
    (hx : ip4ToUint32 x = .ok n) (hr : p.start ≤ n ∧ n ≤ p.end_) (hmem : n ∈ p.available) :
    ∃ p', p.release x = .ok p' ∧
      p'.available.count n = p.available.count n + 1 ∧
      ∃ i j : Nat, i < j ∧
        (allocateMany p'.available.length p').1[i]? = some (uint32ToIP4 n) ∧
        (allocateMany p'.available.length p').1[j]? = some (uint32ToIP4 n) ∧
        (uint32ToIP4 n).Equal x = true := by
  refine ⟨_, by rw [release_ok p x n hx, if_pos hr], ?_, ?_⟩
  · simp [List.count_append]
  · obtain ⟨i, hi, hget⟩ := List.mem_iff_getElem.mp hmem
    refine ⟨i, p.available.length, hi, ?_, ?_,
      (uint32ToIP4_Equal_iff n (ip4ToUint32_lt x n hx) x).mpr hx⟩
    · rw [allocateMany_eq _ _ (Nat.le_refl _)]
      simp only [List.take_length, List.getElem?_map]
      rw [List.getElem?_append_left hi, List.getElem?_eq_getElem hi, hget]
      rfl
    · rw [allocateMany_eq _ _ (Nat.le_refl _)]
      simp only [List.take_length, List.getElem?_map]
      rw [List.getElem?_append_right (Nat.le_refl _)]
      simp

/-- The release of the free address `10.0.0.11` into the example pool. -/
theorem release_duplicates_free_address_witness :
    ip4ToUint32 (IPv4 10 0 0 11) = .ok 167772171 ∧
    ∃ p', ipPool.release ⟨167772170, 167772172, [167772171, 167772172]⟩ (IPv4 10 0 0 11)
        = .ok p' ∧
      p'.available.count 167772171 = 2 :=
  have ⟨p', h1, h2, _⟩ := release_duplicates_free_address
    ⟨167772170, 167772172, [167772171, 167772172]⟩ (IPv4 10 0 0 11) 167772171 rfl
    ⟨by decide, by decide⟩ (by decide)
  ⟨rfl, p', h1, h2⟩

/-! ## `handleRequest` and the mutex -/

theorem buildResponseToBinding_locked (s : DHCPv4) (packet : Packet) (ip : IP) (now : Int)
    (hmu : s.mu = true) : s.buildResponseToBinding packet ip now = .error .deadlock := by
  simp [DHCPv4.buildResponseToBinding, DHCPv4.Lock, hmu, bind, Except.bind]

theorem resolve_locked (s : DHCPv4) (Encode : Packet → List Byte) (packet : Packet) (ip : IP)
    (addr : UDPAddr) (now : Int) (hmu : s.mu = true) :
    s.resolve Encode packet ip addr now = .error .deadlock := by
  simp [DHCPv4.resolve, buildResponseToBinding_locked s packet ip now hmu, bind, Except.bind]

theorem Lock_cases (s : DHCPv4) :
    s.Lock = .error .deadlock ∨ ∃ s', s.Lock = .ok s' ∧ s'.mu = true := by
  unfold DHCPv4.Lock
  cases s.mu
  · right; exact ⟨_, rfl, rfl⟩
  · left; rfl

theorem locked_resolve_blocks (s : DHCPv4) (Encode : Packet → List Byte) (packet : Packet)
    (ip : IP) (addr : UDPAddr) (now : Int) :
    (s.Lock >>= fun s' => s'.resolve Encode packet ip addr now) = .error .deadlock := by
  rcases Lock_cases s with h | ⟨s', h, hmu⟩
  · rw [h]; rfl
  · rw [h]
    exact resolve_locked s' Encode packet ip addr now hmu

theorem handleRequest_blocks (s : DHCPv4) (Encode : Packet → List Byte) (packet : Packet)
    (addr : UDPAddr) (now : Int)
    (h : s.determineClientState packet = initReboot ∨
      s.determineClientState packet = renewing ∨ s.determineClientState packet = rebinding) :
    s.handleRequest Encode packet addr now = .error .deadlock := by
  unfold DHCPv4.handleRequest
  rcases h with h | h | h
  · have h1 : ¬ s.determineClientState packet = selecting := by rw [h]; decide
    simp only [h1, if_false, h, if_true]
    exact locked_resolve_blocks s Encode packet _ addr now
  · have h1 : ¬ s.determineClientState packet = selecting := by rw [h]; decide
    have h2 : ¬ s.determineClientState packet = initReboot := by rw [h]; decide
    simp only [h1, h2, if_false, h, true_or, if_true]
    exact locked_resolve_blocks s Encode packet _ addr now
  · have h1 : ¬ s.determineClientState packet = selecting := by rw [h]; decide
    have h2 : ¬ s.determineClientState packet = initReboot := by rw [h]; decide
    simp only [h1, h2, if_false, h, or_true, if_true]
    exact locked_resolve_blocks s Encode packet _ addr now

theorem handleRequest_selecting (s : DHCPv4) (Encode : Packet → List Byte) (packet : Packet)
    (addr : UDPAddr) (now : Int) (hmu : s.mu = false)
    (h : s.determineClientState packet = selecting) :
    (IP.Equal (packet.GetOption OptionServerIdentifier) s.config.ServerIP = false →
      s.handleRequest Encode packet addr now = .ok (none, s)) ∧
    (IP.Equal (packet.GetOption OptionServerIdentifier) s.config.ServerIP = true →
      s.handleRequest Encode packet addr now = .error .deadlock) := by
  have hunl : ({ s with mu := true } : DHCPv4).Unlock = s := by
    obtain ⟨mu, a, b, c, d, e, f⟩ := s
    simp only at hmu
    subst hmu
    rfl
  unfold DHCPv4.handleRequest
  simp only [h, if_true, Lock_ok s hmu, bind, Except.bind]
  refine ⟨?_, ?_⟩
  · intro hne
    simp only [hne, Bool.not_false, if_true, DHCPv4.UnlockHeld, pure, Except.pure, hunl]
  · intro heq
    simp only [heq, Bool.not_true, Bool.false_eq_true, if_false]
    exact resolve_locked _ Encode packet _ addr now rfl

theorem handleRequest_invalid (s : DHCPv4) (Encode : Packet → List Byte) (packet : Packet)
    (addr : UDPAddr) (now : Int) (h : s.determineClientState packet = invalidState) :
    s.handleRequest Encode packet addr now = .ok (none, s) := by
  unfold DHCPv4.handleRequest
  have h1 : ¬ s.determineClientState packet = selecting := by rw [h]; decide
  have h2 : ¬ s.determineClientState packet = initReboot := by rw [h]; decide
  have h3 : ¬ (s.determineClientState packet = renewing ∨
      s.determineClientState packet = rebinding) := by rw [h]; decide
  simp only [h1, h2, h3, if_false]

theorem sweepLoop_blocks (now : Int) (todo : List (Nat × binding)) : ∀ (s : DHCPv4),
    s.mu = true →
    (∃ e ∈ todo, ∃ b, s.bindings.get e.1 = some b ∧ b.Expiration < now) →
    DHCPv4.sweepLoop todo s now = .error .deadlock := by
  induction todo with
  | nil => intro s _ h; obtain ⟨e, he, _⟩ := h; cases he
  | cons x todo ih =>
    intro s hmu h
    obtain ⟨mac, b0⟩ := x
    have hd : ∀ ip, s.releaseIP ip = .error .deadlock := by
      intro ip
      simp [DHCPv4.releaseIP, DHCPv4.Lock, hmu, bind, Except.bind]
    have hrest : (∃ e ∈ todo, ∃ b, s.bindings.get e.1 = some b ∧ b.Expiration < now) ∨
        ∃ b, s.bindings.get mac = some b ∧ b.Expiration < now := by
      obtain ⟨e, he, b, hb⟩ := h
      rcases List.mem_cons.mp he with rfl | he
      · exact Or.inr ⟨b, hb⟩
      · exact Or.inl ⟨e, he, b, hb⟩
    simp only [DHCPv4.sweepLoop]
    cases hg : s.bindings.get mac with
    | none =>
      simp only
      rcases hrest with hr | ⟨b, hb, _⟩
      · exact ih s hmu hr
      · rw [hg] at hb; cases hb
    | some b =>
      simp only
      by_cases hexp : b.Expiration < now
      · rw [if_pos hexp, hd]
      · rw [if_neg hexp]
        rcases hrest with hr | ⟨b', hb', hlt⟩
        · exact ih s hmu hr
        · rw [hg] at hb'
          injection hb' with hb'
          rw [hb'] at hexp
          exact absurd hlt hexp

theorem cleanupExpiredLeases_blocks (s : DHCPv4) (now : Int) (mac : Nat) (b : binding)
    (hmu : s.mu = false) (hb : s.bindings.get mac = some b) (hexp : b.Expiration < now) :
    s.cleanupExpiredLeases now = .error .deadlock := by
  unfold DHCPv4.cleanupExpiredLeases
  rw [Lock_ok s hmu]
  simp only [bind, Except.bind]
  rw [sweepLoop_blocks now s.bindings { s with mu := true } rfl
    ⟨(mac, b), GoMap.mem_of_get _ _ _ hb, b, hb, hexp⟩]

theorem cleanupExpiredLeases_none_expired (s : DHCPv4) (now : Int) (hmu : s.mu = false)
    (h : ∀ e ∈ s.bindings, ¬ e.2.Expiration < now) : s.cleanupExpiredLeases now = .ok s := by
  have hloop : ∀ (todo : List (Nat × binding)) (s' : DHCPv4),
      (∀ e ∈ s'.bindings, ¬ e.2.Expiration < now) → DHCPv4.sweepLoop todo s' now = .ok s' := by
    intro todo
    induction todo with
    | nil => intro s' _; rfl
    | cons x todo ih =>
      intro s' hs'
      obtain ⟨mac, b0⟩ := x
      simp only [DHCPv4.sweepLoop]
      cases hg : s'.bindings.get mac with
      | none => exact ih s' hs'
      | some b =>
        simp only
        rw [if_neg (hs' (mac, b) (GoMap.mem_of_get _ _ _ hg))]
        exact ih s' hs'
  unfold DHCPv4.cleanupExpiredLeases
  rw [Lock_ok s hmu]
  simp only [bind, Except.bind, pure, Except.pure]
  rw [hloop s.bindings { s with mu := true } h]
  obtain ⟨mu, a, b, c, d, e, f⟩ := s
  simp only at hmu
  subst hmu
  rfl

/-- C16: every packet with `emptyServer` (zero `SIAddr`), no Requested IP
Address option and a zero `CIAddr` is classified invalid by
`determineClientState`; and for every packet classified invalid,
`handleRequest` sends nothing on either transport and returns the server
exactly as it was (pool, bindings, allocated set and mutex). -/
theorem handleRequest_invalid_dropped (s : DHCPv4) (Encode : Packet → List Byte)
    (packet : Packet) (addr : UDPAddr) (now : Int) :
    (emptyServer packet = true → packet.GetOption OptionRequestedIPAddress = none →
      clientIPIsZero packet = true → s.determineClientState packet = invalidState) ∧
    (s.determineClientState packet = invalidState →
      s.handleRequest Encode packet addr now = .ok (none, s)) := by
  refine ⟨?_, handleRequest_invalid s Encode packet addr now⟩
  intro he h50 hz
  have hh : hasRequestedIP packet = false := by
    simp [hasRequestedIP, h50]
  simp [DHCPv4.determineClientState, he, hh, hz, invalidState]

/-- The drop of C16 at the example REQUEST without addresses and options. -/
theorem handleRequest_invalid_dropped_witness :
    exampleBoundServer.determineClientState exampleInvalid = invalidState ∧
    exampleBoundServer.handleRequest (fun _ => []) exampleInvalid ⟨IPv4zero, 68⟩ 200
      = .ok (none, exampleBoundServer) :=
  have h := handleRequest_invalid_dropped exampleBoundServer (fun _ => []) exampleInvalid
    ⟨IPv4zero, 68⟩ 200
  ⟨h.1 (by decide) (by decide) (by decide), h.2 (h.1 (by decide) (by decide) (by decide))⟩

/-- C17: a selecting REQUEST that names another server is dropped and the
server is unchanged, but one that names this server gets no reply either:
`handleRequest` holds the mutex when it calls `buildResponseToBinding`, which
acquires the same mutex and blocks. Whatever the packet encoder, the source
address and the time, the example REQUEST for `10.0.0.10` that names the
server `10.0.0.1` makes `handleRequest` block, while the same call of
`buildResponseToBinding` with the mutex free returns the ACK. -/
theorem handleRequest_selecting_never_replies :
    ∀ (Encode : Packet → List Byte) (addr : UDPAddr) (now : Int),
      exampleBoundServer.determineClientState exampleSelectingOther = selecting ∧
      exampleBoundServer.handleRequest Encode exampleSelectingOther addr now
        = .ok (none, exampleBoundServer) ∧
      exampleBoundServer.determineClientState exampleSelecting = selecting ∧
      IP.Equal (exampleSelecting.GetOption OptionServerIdentifier)
        exampleBoundServer.config.ServerIP = true ∧
      exampleBoundServer.handleRequest Encode exampleSelecting addr now = .error .deadlock ∧
      (exampleBoundServer.buildResponseToBinding exampleSelecting
        (exampleSelecting.GetOption OptionRequestedIPAddress) 200).toOption.map
          (fun r => r.1.GetOption OptionDHCPMessageType) = some (some [DHCPACK]) := by
  intro Encode addr now
  have h1 := handleRequest_selecting exampleBoundServer Encode exampleSelectingOther addr now
    rfl (by decide)
  have h2 := handleRequest_selecting exampleBoundServer Encode exampleSelecting addr now
    rfl (by decide)
  exact ⟨by decide, h1.1 (by decide), by decide, by decide, h2.2 (by decide), by rfl⟩

/-- C18: `createOffer` at time `100` with a lease of one hour creates a binding
with expiration `100 + 1 h`, and a sweep at `100 + 30 min` returns the server
unchanged; but the sweep at `100 + 61 min` does not reclaim the address: it
holds the mutex when it calls `releaseIP` for the expired binding, which
acquires the same mutex and blocks, so the binding, the allocated mark and the
free list stay as they were. -/
theorem cleanupExpiredLeases_expired_blocks :
    exampleConfig.Lease = hour ∧
    exampleServer.createOffer (examplePacket 0x55 []) 100
      = .ok (some ((examplePacket 0x55 []).ToOffer (IPv4 10 0 0 10)
          exampleServer.createReplyOptions), exampleBoundServer) ∧
    exampleBoundServer.bindings.get 73588229205
      = some ⟨IPv4 10 0 0 10, some [0x00, 0x11, 0x22, 0x33, 0x44, 0x55], 100 + hour⟩ ∧
    exampleBoundServer.cleanupExpiredLeases (100 + 30 * minute) = .ok exampleBoundServer ∧
    exampleBoundServer.cleanupExpiredLeases (100 + 61 * minute) = .error .deadlock :=
  ⟨rfl, rfl, rfl,
    cleanupExpiredLeases_none_expired exampleBoundServer _ rfl (by decide),
    cleanupExpiredLeases_blocks exampleBoundServer _ 73588229205 _ rfl rfl (by decide)⟩

/-- C19: `cleanupExpiredLeases` runs the sweep on the first tick only. With a
binding that expires at `100 + 1 h` and ticks at `100 + 30 min` and then, for
any later ticks whatever, the goroutine sweeps once at `100 + 30 min`, when
nothing is expired, and returns: the binding that expires afterwards is still
bound and its address still allocated. -/
theorem cleanupExpiredLeases_single_sweep :
    ∀ later : List Int,
      exampleBoundServer.cleanupExpiredLeasesTicks ((100 + 30 * minute) :: later)
        = .ok exampleBoundServer ∧
      exampleBoundServer.cleanupExpiredLeasesTicks
          ((100 + 30 * minute) :: (100 + 61 * minute) :: later)
        = .ok exampleBoundServer ∧
      exampleBoundServer.bindings.get 73588229205
        = some ⟨IPv4 10 0 0 10, some [0x00, 0x11, 0x22, 0x33, 0x44, 0x55], 100 + hour⟩ ∧
      exampleBoundServer.allocated.get 167772170 = some true := by
  intro later
  have h := cleanupExpiredLeases_none_expired exampleBoundServer (100 + 30 * minute) rfl
    (by decide)
  exact ⟨h, h, rfl, rfl⟩

/-- C20: operations do acquire the mutex while they hold it. Whatever the
packet encoder, the source address and the time, `handleRequest` blocks on the
example REQUESTs in the selecting, init-reboot, renewing and rebinding states
(each branch locks and then calls `buildResponseToBinding`, which locks
again), and the expiry sweep blocks as soon as a binding is expired (it locks
and then calls `releaseIP`, which locks again); none of them produces a result
or releases the mutex. -/
theorem nested_lock_blocks :
    ∀ (Encode : Packet → List Byte) (addr : UDPAddr) (now : Int),
      exampleBoundServer.mu = false ∧
      exampleBoundServer.handleRequest Encode exampleSelecting addr now = .error .deadlock ∧
      exampleBoundServer.handleRequest Encode exampleInitReboot addr now = .error .deadlock ∧
      exampleBoundServer.handleRequest Encode exampleRenewing addr now = .error .deadlock ∧
      exampleBoundServer.handleRequest Encode exampleRebinding addr now = .error .deadlock ∧
      exampleBoundServer.cleanupExpiredLeases (100 + 61 * minute) = .error .deadlock := by
  intro Encode addr now
  exact ⟨rfl,
    (handleRequest_selecting exampleBoundServer Encode exampleSelecting addr now rfl
      (by decide)).2 (by decide),
    handleRequest_blocks exampleBoundServer Encode exampleInitReboot addr now
      (Or.inl (by decide)),
    handleRequest_blocks exampleBoundServer Encode exampleRenewing addr now
      (Or.inr (Or.inl (by decide))),
    handleRequest_blocks exampleBoundServer Encode exampleRebinding addr now
      (Or.inr (Or.inr (by decide))),
    cleanupExpiredLeases_blocks exampleBoundServer _ 73588229205 _ rfl rfl (by decide)⟩

/-! ## Hardware addresses as map keys -/

theorem shift_or_eq_add6 (a b c d e f : Nat) (hb : b < 256) (hc : c < 256) (hd : d < 256)
    (he : e < 256) (hf : f < 256) :
    a <<< 40 ||| b <<< 32 ||| c <<< 24 ||| d <<< 16 ||| e <<< 8 ||| f
      = a * 2 ^ 40 + b * 2 ^ 32 + c * 2 ^ 24 + d * 2 ^ 16 + e * 2 ^ 8 + f := by
  have e1 : e <<< 8 ||| f = 2 ^ 8 * e + f := by
    rw [Nat.shiftLeft_eq, Nat.mul_comm, ← Nat.mul_add_lt_is_or (by omega)]
  have e2 : d <<< 16 ||| (2 ^ 8 * e + f) = 2 ^ 16 * d + (2 ^ 8 * e + f) := by
    rw [Nat.shiftLeft_eq, Nat.mul_comm, ← Nat.mul_add_lt_is_or (by omega)]
  have e3 : c <<< 24 ||| (2 ^ 16 * d + (2 ^ 8 * e + f))
      = 2 ^ 24 * c + (2 ^ 16 * d + (2 ^ 8 * e + f)) := by
    rw [Nat.shiftLeft_eq, Nat.mul_comm, ← Nat.mul_add_lt_is_or (by omega)]
  have e4 : b <<< 32 ||| (2 ^ 24 * c + (2 ^ 16 * d + (2 ^ 8 * e + f)))
      = 2 ^ 32 * b + (2 ^ 24 * c + (2 ^ 16 * d + (2 ^ 8 * e + f))) := by
    rw [Nat.shiftLeft_eq, Nat.mul_comm, ← Nat.mul_add_lt_is_or (by omega)]
  have e5 : a <<< 40 ||| (2 ^ 32 * b + (2 ^ 24 * c + (2 ^ 16 * d + (2 ^ 8 * e + f))))
      = 2 ^ 40 * a + (2 ^ 32 * b + (2 ^ 24 * c + (2 ^ 16 * d + (2 ^ 8 * e + f)))) := by
    rw [Nat.shiftLeft_eq, Nat.mul_comm, ← Nat.mul_add_lt_is_or (by omega)]
  rw [Nat.or_assoc, Nat.or_assoc, Nat.or_assoc, Nat.or_assoc, e1, e2, e3, e4, e5]
  omega

theorem convertMACToUint64_cons (a b c d e f : Byte) (rest : List Byte) :
    convertMACToUint64 (some (a :: b :: c :: d :: e :: f :: rest))
      = .ok (a.val * 2 ^ 40 + b.val * 2 ^ 32 + c.val * 2 ^ 24 + d.val * 2 ^ 16
          + e.val * 2 ^ 8 + f.val) := by
  simp only [convertMACToUint64, Slice.bytes, Option.getD_some]
  rw [shift_or_eq_add6 _ _ _ _ _ _ b.isLt c.isLt d.isLt e.isLt f.isLt]

theorem bytes_of_length_six (mac : HardwareAddr) (h : mac.bytes.length = 6) :
    ∃ a b c d e f : Byte, mac = some [a, b, c, d, e, f] := by
  cases mac with
  | none => simp [Slice.bytes] at h
  | some l =>
    simp only [Slice.bytes, Option.getD_some] at h
    match l, h with
    | [a, b, c, d, e, f], _ => exact ⟨a, b, c, d, e, f, rfl⟩

/-- C21: for every hardware address of at least six bytes `convertMACToUint64`
returns the 48-bit big-endian integer of the first six bytes, `a·2^40 + b·2^32 +
c·2^24 + d·2^16 + e·2^8 + f`, which is below `2^48`; and on addresses of exactly
six bytes the function is injective: two of them with the same key are equal. -/
theorem convertMACToUint64_bigEndian (mac : HardwareAddr) (h : 6 ≤ mac.bytes.length) :
    (∃ (a b c d e f : Byte) (rest : List Byte),
      mac.bytes = a :: b :: c :: d :: e :: f :: rest ∧
      convertMACToUint64 mac = .ok (a.val * 2 ^ 40 + b.val * 2 ^ 32 + c.val * 2 ^ 24
        + d.val * 2 ^ 16 + e.val * 2 ^ 8 + f.val)) ∧
    convertMACToUint64 mac = .ok (bigEndian (mac.bytes.take 6)) ∧
    bigEndian (mac.bytes.take 6) < 2 ^ 48 ∧
    (∀ mac2 : HardwareAddr, mac.bytes.length = 6 → mac2.bytes.length = 6 →
      convertMACToUint64 mac2 = convertMACToUint64 mac → mac2 = mac) := by
  cases mac with
  | none => simp [Slice.bytes] at h
  | some l =>
    match l, h with
    | a :: b :: c :: d :: e :: f :: rest, _ =>
      have hv : bigEndian ((a :: b :: c :: d :: e :: f :: rest).take 6)
          = a.val * 2 ^ 40 + b.val * 2 ^ 32 + c.val * 2 ^ 24 + d.val * 2 ^ 16
            + e.val * 2 ^ 8 + f.val := by
        simp only [bigEndian, List.take_succ_cons, List.take_zero, List.foldl_cons,
          List.foldl_nil]
        omega
      refine ⟨⟨a, b, c, d, e, f, rest, rfl, convertMACToUint64_cons _ _ _ _ _ _ _⟩, ?_, ?_, ?_⟩
      · simp only [Slice.bytes, Option.getD_some]
        rw [hv]
        exact convertMACToUint64_cons _ _ _ _ _ _ _
      · simp only [Slice.bytes, Option.getD_some]
        rw [hv]
        have := a.isLt; have := b.isLt; have := c.isLt; have := d.isLt
        have := e.isLt; have := f.isLt
        omega
      · intro mac2 h1 h2 heq
        obtain ⟨a2, b2, c2, d2, e2, f2, rfl⟩ := bytes_of_length_six mac2 h2
        have hrest : rest = [] := by
          simp only [Slice.bytes, Option.getD_some, List.length_cons] at h1
          exact List.eq_nil_of_length_eq_zero (by omega)
        subst hrest
        rw [convertMACToUint64_cons, convertMACToUint64_cons] at heq
        have hn := Except.ok.inj heq
        have := a.isLt; have := b.isLt; have := c.isLt; have := d.isLt
        have := e.isLt; have := f.isLt
        have := a2.isLt; have := b2.isLt; have := c2.isLt; have := d2.isLt
        have := e2.isLt; have := f2.isLt
        have ha : a2 = a := Fin.ext (by omega)
        have hb : b2 = b := Fin.ext (by omega)
        have hc : c2 = c := Fin.ext (by omega)
        have hd : d2 = d := Fin.ext (by omega)
        have he : e2 = e := Fin.ext (by omega)
        have hf : f2 = f := Fin.ext (by omega)
        rw [ha, hb, hc, hd, he, hf]

/-- The key of C21 for the address `00:11:22:33:44:55`. -/
theorem convertMACToUint64_bigEndian_witness :
    convertMACToUint64 (some [0x00, 0x11, 0x22, 0x33, 0x44, 0x55]) = .ok 73588229205 ∧
    (73588229205 : Nat) < 2 ^ 48 :=
  have h := convertMACToUint64_bigEndian (some [0x00, 0x11, 0x22, 0x33, 0x44, 0x55])
    (by decide)
  ⟨h.2.1, h.2.2.1⟩

/-! ## The raw frame on Windows -/

theorem addr4_length (ip : IP) : (addr4 ip).length = 4 := by
  simp only [addr4, List.length_append, List.length_take, List.length_replicate]
  omega

theorem Ethernet_Encode_split (e : Ethernet) :
    ∃ header : List Byte, header.length = 42 ∧ e.Encode = header ++ e.Payload := by
  refine ⟨mac6 e.DestinationMAC ++ mac6 e.SourceMAC ++ ([0x08, 0x00] : List Byte) ++
      ([0x45, 0, byte (((20 + (8 + e.Payload.length)) % 2 ^ 16) >>> 8),
        byte ((20 + (8 + e.Payload.length)) % 2 ^ 16), 0, 0, 0, 0, 0xFF, 17, 0, 0] ++
        addr4 e.SourceIP ++ addr4 e.DestinationIP) ++
      [byte (e.SourcePort >>> 8), byte e.SourcePort, byte (e.DestinationPort >>> 8),
        byte e.DestinationPort, byte (((8 + e.Payload.length) % 2 ^ 16) >>> 8),
        byte ((8 + e.Payload.length) % 2 ^ 16), 0, 0], ?_, ?_⟩
  · simp only [List.length_append, mac6_length, addr4_length, List.length_cons,
      List.length_nil]
  · rw [Ethernet_Encode_eq]
    simp only [List.append_assoc, List.cons_append, List.nil_append]

/-- C28: for every frame `e`, `e.Encode` is 42 bytes longer than `e.Payload`
and its bytes from offset 42 on are `e.Payload`; so `winConn.WriteTo`, called
with the frame and no UDP address, forwards exactly the payload to
`255.255.255.255` port 68, and for the raw frame that `sendPacket` builds the
forwarded bytes are the encoded DHCP packet. -/
theorem Ethernet_Encode_payload_at_42 :
    (∀ e : Ethernet, e.Encode.length = 42 + e.Payload.length ∧
      e.Encode.drop 42 = e.Payload ∧
      winConn.WriteTo e.Encode none = .ok (.udpConn e.Payload ⟨IPv4bcast, 68⟩)) ∧
    (∀ (s : DHCPv4) (Encode : Packet → List Byte) (p q : Packet) (a : UDPAddr)
      (frame : List Byte), s.sendPacket Encode p a = .ok (.rawConn frame, q) →
      winConn.WriteTo frame none = .ok (.udpConn (Encode q) ⟨IPv4bcast, 68⟩)) := by
  have key : ∀ e : Ethernet, e.Encode.length = 42 + e.Payload.length ∧
      e.Encode.drop 42 = e.Payload ∧
      winConn.WriteTo e.Encode none = .ok (.udpConn e.Payload ⟨IPv4bcast, 68⟩) := by
    intro e
    obtain ⟨header, hlen, heq⟩ := Ethernet_Encode_split e
    have hl : e.Encode.length = 42 + e.Payload.length := by
      rw [heq, List.length_append, hlen]
    have hd : e.Encode.drop 42 = e.Payload := by
      rw [heq, ← hlen, List.drop_left]
    refine ⟨hl, hd, ?_⟩
    simp only [winConn.WriteTo]
    rw [if_neg (by omega), hd]
  refine ⟨key, ?_⟩
  intro s Encode p q a frame h
  unfold DHCPv4.sendPacket at h
  cases hb : (p.GetOption OptionDHCPMessageType).bytes with
  | nil => rw [hb] at h; cases h
  | cons t rest =>
    rw [hb] at h
    simp only at h
    split_ifs at h <;> injection h with h <;> injection h with hf hq <;> cases hf
    subst hq
    exact (key _).2.2

/-- The cut of C28 on the raw frame of the example offer with a three-byte payload. -/
theorem Ethernet_Encode_payload_at_42_witness :
    ∃ frame, exampleBoundServer.sendPacket (fun _ => [1, 2, 3]) exampleOffer ⟨IPv4bcast, 68⟩
        = .ok (.rawConn frame, exampleOffer) ∧
      frame.length = 45 ∧
      winConn.WriteTo frame none = .ok (.udpConn [1, 2, 3] ⟨IPv4bcast, 68⟩) :=
  ⟨_, rfl, rfl, Ethernet_Encode_payload_at_42.2 exampleBoundServer (fun _ => [1, 2, 3])
    exampleOffer exampleOffer ⟨IPv4bcast, 68⟩ _ rfl⟩

/-! ## The fill loop at the top of the address space -/

theorem ip4ToUint32_IPv4 (a b c d : Byte) :
    ip4ToUint32 (IPv4 a b c d)
      = .ok (a.val <<< 24 ||| b.val <<< 16 ||| c.val <<< 8 ||| d.val) := by
  have h : (IPv4 a b c d).To4 = some [a, b, c, d] := by
    simp [IP.To4, IPv4, Slice.bytes, v4InV6Prefix]
  simp only [ip4ToUint32, h]

/-- C29: the fill loop of `newIPPool` does not terminate when the range ends at
`255.255.255.255`: whatever IPv4 start address is given, and however many
iterations are allowed, no pool is returned, because the 32-bit counter wraps
to `0` after the last address and the loop condition `ip <= end` stays true. -/
theorem newIPPool_fill_wraps_at_broadcast_end (fuel : Nat) (a b c d : Byte) :
    newIPPool fuel (IPv4 a b c d) IPv4bcast = .error .outOfFuel := by
  have h : ip4ToUint32 IPv4bcast = .ok (2 ^ 32 - 1) := rfl
  have hlt : a.val <<< 24 ||| b.val <<< 16 ||| c.val <<< 8 ||| d.val < 2 ^ 32 := by
    rw [shift_or_eq_add _ _ _ _ b.isLt c.isLt d.isLt]
    have := a.isLt; have := b.isLt; have := c.isLt; have := d.isLt
    omega
  have hf := fill_diverges fuel _ [] hlt
  unfold newIPPool
  rw [h, ip4ToUint32_IPv4]
  simp only [bind, Except.bind, pure, Except.pure, hf]
  rw [if_neg (by omega)]

/-! ## The options table -/

theorem find_none_of_forall_ne (opts : List (Byte × List Byte)) (c : Byte)
    (h : ∀ o ∈ opts, o.1 ≠ c) : opts.find? (fun o => o.1 = c) = none := by
  rw [List.find?_eq_none]
  intro o ho
  simpa using h o ho

theorem GetOption_eq_none_iff (p : Packet) (c : Byte) :
    p.GetOption c = none ↔ ∀ o ∈ p.Options, o.1 ≠ c := by
  simp [Packet.GetOption, List.find?_eq_none]

theorem GetOption_AddOption_of_some (p : Packet) (c c2 : Byte) (d d0 : List Byte)
    (h : p.GetOption c2 = some d0) : (p.AddOption c d).GetOption c2 = some d0 := by
  unfold Packet.GetOption at h ⊢
  unfold Packet.AddOption
  simp only [List.find?_append]
  cases hf : p.Options.find? (fun o => o.1 = c2) with
  | none => rw [hf] at h; cases h
  | some o => rw [hf] at h; exact h

theorem GetOption_AddOption_of_none (p : Packet) (c c2 : Byte) (d : List Byte)
    (h : p.GetOption c2 = none) :
    (p.AddOption c d).GetOption c2 = if c = c2 then some d else none := by
  unfold Packet.GetOption at h ⊢
  unfold Packet.AddOption
  simp only [List.find?_append]
  cases hf : p.Options.find? (fun o => o.1 = c2) with
  | some o => rw [hf] at h; cases h
  | none => by_cases hc : c = c2 <;> simp [hc]

theorem GetOption_first (p : Packet) (c : Byte) (pre post : List (Byte × List Byte))
    (d0 : List Byte) (h : p.Options = pre ++ (c, d0) :: post) (hpre : ∀ o ∈ pre, o.1 ≠ c) :
    p.GetOption c = some d0 := by
  unfold Packet.GetOption
  rw [h, List.find?_append, find_none_of_forall_ne pre c hpre]
  simp

/-- C24, amended: for every packet `P` that holds no option with code `c`, and
every data `d`, `GetOption(AddOption(P, c, d), c)` returns `d` exactly, an empty
`d` giving a present-but-empty result and not not-found; when `P` already holds
an option with code `c`, `GetOption(AddOption(P, c, d), c)` returns the data of
the first such option of `P`, whatever `d` is. `GetOption` returns not-found
exactly for a code that no option of the packet has, and `AddOption` of a code
does not change the lookup of any other code. -/
theorem GetOption_AddOption (p : Packet) (c : Byte) (d : List Byte) :
    ((∀ o ∈ p.Options, o.1 ≠ c) →
      (p.AddOption c d).GetOption c = some d ∧ (p.AddOption c d).GetOption c ≠ none) ∧
    (∀ (pre post : List (Byte × List Byte)) (d0 : List Byte),
      p.Options = pre ++ (c, d0) :: post → (∀ o ∈ pre, o.1 ≠ c) →
      p.GetOption c = some d0 ∧ (p.AddOption c d).GetOption c = some d0) ∧
    (∀ d0 : List Byte, p.GetOption c = some d0 → (p.AddOption c d).GetOption c = some d0) ∧
    (p.GetOption c = none ↔ ∀ o ∈ p.Options, o.1 ≠ c) ∧
    (∀ c2 : Byte, c2 ≠ c → (p.AddOption c d).GetOption c2 = p.GetOption c2) := by
  refine ⟨fun hnew => ?_, fun pre post d0 h hpre => ?_, fun d0 h => ?_,
    GetOption_eq_none_iff p c, fun c2 hc => ?_⟩
  · have hn : p.GetOption c = none := (GetOption_eq_none_iff p c).2 hnew
    have h1 : (p.AddOption c d).GetOption c = some d := by
      rw [GetOption_AddOption_of_none p c c d hn, if_pos rfl]
    exact ⟨h1, by rw [h1]; exact Option.some_ne_none _⟩
  · have h0 := GetOption_first p c pre post d0 h hpre
    exact ⟨h0, GetOption_AddOption_of_some p c c d d0 h0⟩
  · exact GetOption_AddOption_of_some p c c d d0 h
  · cases h : p.GetOption c2 with
    | none => rw [GetOption_AddOption_of_none p c c2 d h, if_neg (fun e => hc e.symm)]
    | some d0 => exact GetOption_AddOption_of_some p c c2 d d0 h

/-- The lookups of C24 on the test packet: an empty server identifier that is
added is found, present but empty; a second parameter list that is added is not
found, the first one is; a code without an option is not found. -/
theorem GetOption_AddOption_witness :
    (testPacket.AddOption OptionServerIdentifier []).GetOption OptionServerIdentifier
      = some [] ∧
    (testPacket.AddOption 55 [1, 3]).GetOption 55 = some [1, 3, 6, 15] ∧
    (testPacket.AddOption OptionServerIdentifier []).GetOption OptionRequestedIPAddress
      = none :=
  ⟨((GetOption_AddOption testPacket OptionServerIdentifier []).1 (by decide)).1,
   ((GetOption_AddOption testPacket 55 [1, 3]).2.1 [(OptionDHCPMessageType, [DHCPDISCOVER])] []
      [1, 3, 6, 15] rfl (by decide)).2,
   ((GetOption_AddOption testPacket OptionServerIdentifier []).2.2.2.2
      OptionRequestedIPAddress (by decide)).trans
    ((GetOption_AddOption testPacket OptionRequestedIPAddress []).2.2.2.1.2 (by decide))⟩

/-- C24 as stated fails: the packet of the round-trip test already holds the
message-type option with data `[DISCOVER]`; after `AddOption` of the same code
with data `[REQUEST]`, `GetOption` still returns `[DISCOVER]`, not the data that
was added. -/
theorem GetOption_AddOption_existing_code :
    (testPacket.AddOption OptionDHCPMessageType [DHCPREQUEST]).GetOption OptionDHCPMessageType
      = some [DHCPDISCOVER] ∧
    (testPacket.AddOption OptionDHCPMessageType [DHCPREQUEST]).GetOption OptionDHCPMessageType
      ≠ some [DHCPREQUEST] := by
  decide

/-- C25: `DHCPMessageType` returns `0` when the packet has no message-type
option (code 53), when the first such option has empty data, and when it has
more than one byte; when it has exactly one byte, that byte is returned. -/
theorem DHCPMessageType_cases (p : Packet) :
    ((∀ o ∈ p.Options, o.1 ≠ OptionDHCPMessageType) → p.DHCPMessageType = 0) ∧
    (p.GetOption OptionDHCPMessageType = none → p.DHCPMessageType = 0) ∧
    (p.GetOption OptionDHCPMessageType = some [] → p.DHCPMessageType = 0) ∧
    (∀ (a b : Byte) (rest : List Byte),
      p.GetOption OptionDHCPMessageType = some (a :: b :: rest) → p.DHCPMessageType = 0) ∧
    (∀ t : Byte, p.GetOption OptionDHCPMessageType = some [t] → p.DHCPMessageType = t) := by
  refine ⟨fun h => ?_, fun h => ?_, fun h => ?_, fun a b rest h => ?_, fun t h => ?_⟩
  · simp only [Packet.DHCPMessageType, (GetOption_eq_none_iff p _).2 h]
  all_goals simp only [Packet.DHCPMessageType, h]

/-- The cases of C25 on the packets of `TestPacketDHCPMessageType`. -/
theorem DHCPMessageType_cases_witness :
    (Packet.zero.AddOption OptionDHCPMessageType [DHCPREQUEST]).DHCPMessageType = DHCPREQUEST ∧
    (Packet.zero.AddOption OptionDHCPMessageType [DHCPDISCOVER, DHCPOFFER]).DHCPMessageType = 0 ∧
    (Packet.zero.AddOption OptionDHCPMessageType []).DHCPMessageType = 0 ∧
    Packet.zero.DHCPMessageType = 0 :=
  ⟨(DHCPMessageType_cases _).2.2.2.2 DHCPREQUEST rfl,
   (DHCPMessageType_cases _).2.2.2.1 DHCPDISCOVER DHCPOFFER [] rfl,
   (DHCPMessageType_cases _).2.2.1 rfl,
   (DHCPMessageType_cases _).1 (by decide)⟩

/-- C26: for every request and reply options, `ToNak` yields `Op` = reply,
`YIAddr` = `0.0.0.0`, `SIAddr` = the server IP, and `CHAddr`, `XId` and `GIAddr`
of the request; its options are exactly two, the message type with data `[NAK]`
and the server identifier with the IPv4 form of the server IP, which is the four
bytes of that address whenever the server IP is an IPv4 address. -/
theorem ToNak_fields (p : Packet) (o : ReplyOptions) :
    (p.ToNak o).Op = BOOTREPLY ∧ (p.ToNak o).YIAddr = IPv4zero ∧
    (p.ToNak o).YIAddr.Equal (IPv4 0 0 0 0) = true ∧
    (p.ToNak o).SIAddr = o.ServerIP ∧ (p.ToNak o).CHAddr = p.CHAddr ∧
    (p.ToNak o).XId = p.XId ∧ (p.ToNak o).GIAddr = p.GIAddr ∧
    (p.ToNak o).Options
      = [(OptionDHCPMessageType, [DHCPNAK]), (OptionServerIdentifier, o.ServerIP.To4.bytes)] ∧
    (p.ToNak o).DHCPMessageType = DHCPNAK ∧
    (∀ a b c d : Byte, o.ServerIP.To4 = some [a, b, c, d] →
      (p.ToNak o).Options
        = [(OptionDHCPMessageType, [DHCPNAK]), (OptionServerIdentifier, [a, b, c, d])] ∧
      (p.ToNak o).GetOption OptionServerIdentifier = some [a, b, c, d]) := by
  refine ⟨rfl, rfl, rfl, rfl, rfl, rfl, rfl, rfl, ?_, ?_⟩
  · simp only [Packet.DHCPMessageType, ToNak_messageType]
  · intro a b c d h
    simp [Packet.ToNak, Packet.AddOption, Packet.GetOption, Packet.zero, h, Slice.bytes,
      OptionDHCPMessageType, OptionServerIdentifier]

/-- The options of C26 for the request and server of `TestPacketToNak`. -/
theorem ToNak_fields_witness :
    (testPacket.ToNak ⟨0, 0, 0, none, none, [], IPv4 192 168 1 1, []⟩).Options
      = [(53, [6]), (54, [192, 168, 1, 1])] :=
  ((ToNak_fields testPacket ⟨0, 0, 0, none, none, [], IPv4 192 168 1 1, []⟩).2.2.2.2.2.2.2.2.2
    192 168 1 1 rfl).1

/-! ## `Decode` on short and long inputs -/

theorem Decode_of_length (data : List Byte) (h : 240 ≤ data.length) :
    ∃ p, Decode data = .ok p ∧ p.Options = scanOptions data.length (List.drop 240 data) := by
  simp only [Decode, if_neg (Nat.not_lt.2 h)]
  exact ⟨_, rfl, rfl⟩

/-- C23: `Decode` fails, with the error `packet too short`, exactly when the
input has fewer than 240 bytes, and returns a packet exactly when it has at
least 240; in particular 240 zero bytes decode, to a packet without options,
and 240 zero bytes followed by the bytes 1, 1, 1 decode, to a packet with the
one option of code 1 and data `[1]`. -/
theorem Decode_tooShort_iff :
    (∀ data : List Byte, Decode data = .error .tooShort ↔ data.length < 240) ∧
    (∀ data : List Byte, (∃ p, Decode data = .ok p) ↔ 240 ≤ data.length) ∧
    (∃ p, Decode (List.replicate 240 0) = .ok p ∧ p.Options = []) ∧
    (∃ p, Decode (List.replicate 240 0 ++ [1, 1, 1]) = .ok p ∧ p.Options = [(1, [1])]) ∧
    Decode [] = .error .tooShort ∧ Decode (List.replicate 239 0) = .error .tooShort := by
  refine ⟨fun data => ?_, fun data => ?_, ?_, ?_, rfl, ?_⟩
  rotate_left 2
  · have h240 : (List.replicate 240 (0 : Byte)).length = 240 := List.length_replicate _ _
    obtain ⟨p, hp, ho⟩ := Decode_of_length (List.replicate 240 0) (Nat.le_of_eq h240.symm)
    refine ⟨p, hp, ?_⟩
    rw [ho, List.drop_eq_nil_of_le (Nat.le_of_eq h240), h240]
    rfl
  · have h240 : (List.replicate 240 (0 : Byte)).length = 240 := List.length_replicate _ _
    have h243 : (List.replicate 240 (0 : Byte) ++ [1, 1, 1]).length = 243 := by
      rw [List.length_append, h240]
      rfl
    obtain ⟨p, hp, ho⟩ := Decode_of_length (List.replicate 240 0 ++ [1, 1, 1])
      (by rw [h243]; decide)
    refine ⟨p, hp, ?_⟩
    rw [ho, List.drop_left' h240, h243]
    rfl
  · unfold Decode
    rw [if_pos (by rw [List.length_replicate]; decide)]
  · by_cases h : data.length < 240
    · simp [Decode, h]
    · simp [Decode, h]
  · by_cases h : data.length < 240
    · simp only [Decode, if_pos h]
      constructor
      · rintro ⟨p, hp⟩
        cases hp
      · intro h2
        omega
    · simp only [Decode, if_neg h]
      exact ⟨fun _ => by omega, fun _ => ⟨_, rfl⟩⟩

/-! ## A second DISCOVER of a bound client -/

theorem GoMap.mem_set_cases {β : Type} (m : GoMap β) (k : Nat) (v : β) (e : Nat × β)
    (h : e ∈ GoMap.set m k v) : (e ∈ m ∧ e.1 ≠ k) ∨ e = (k, v) := by
  unfold GoMap.set at h
  split at h
  · rw [List.mem_map] at h
    obtain ⟨e0, he0, rfl⟩ := h
    by_cases hk : e0.1 = k
    · right; rw [if_pos hk]
    · left; rw [if_neg hk]; exact ⟨he0, hk⟩
  · rename_i hnone
    rw [List.mem_append, List.mem_singleton] at h
    rcases h with h | h
    · left
      refine ⟨h, fun hk => hnone ?_⟩
      exact (GoMap.isSome_get_iff m k).2 ⟨e, h, hk⟩
    · right; exact h

/-- C27: `createOffer` allocates a new address on a DISCOVER of a client that
already holds a binding: in every reachable state in which the key of the
packet's MAC is bound (binding `b`, address `b.addr`) and the free list is not
empty (head `a2`), `createOffer` returns an offer of `a2` and binds the MAC to
`a2`, which differs from the old address; afterwards both addresses are marked
allocated, neither is in the free list, and no binding has the old address as
its IP. -/
theorem createOffer_rebinds_bound_client (c : Config) (s : DHCPv4) (p : Packet) (now : Int)
    (key : Nat) (b : binding) (a2 : Nat) (rest : List Nat)
    (h : Reachable c s) (hkey : convertMACToUint64 p.CHAddr = .ok key)
    (hb : s.bindings.get key = some b) (hav : s.ipPool.available = a2 :: rest) :
    ∃ offer s2, s.createOffer p now = .ok (some offer, s2) ∧
      offer.YIAddr = uint32ToIP4 a2 ∧
      (∃ b2, s2.bindings.get key = some b2 ∧ b2.IP = uint32ToIP4 a2 ∧ b2.addr = a2 ∧
        b2.IP.Equal b.IP = false) ∧
      a2 ≠ b.addr ∧
      (s2.allocated.get b.addr).isSome = true ∧ s2.allocated.get a2 = some true ∧
      b.addr ∉ s2.ipPool.available ∧ a2 ∉ s2.ipPool.available ∧
      s2.ipPool.available = rest ∧
      (∀ e ∈ s2.bindings, e.2.IP.Equal b.IP = false) := by
  have inv := h.inv
  have hmem : (key, b) ∈ s.bindings := GoMap.mem_of_get _ _ _ hb
  obtain ⟨hbIP, hballoc⟩ := inv.bound _ hmem
  simp only at hbIP hballoc
  have hbl : b.addr < 2 ^ 32 := inv.addr_lt _ hmem
  have ha2mem : a2 ∈ s.ipPool.available := by rw [hav]; exact List.mem_cons_self _ _
  have ha2l : a2 < 2 ^ 32 := by
    have := (inv.inRange a2 ha2mem).2
    have := inv.end_lt
    omega
  have hne : a2 ≠ b.addr := by
    intro e
    have := inv.free a2 ha2mem
    rw [e] at this
    rw [this] at hballoc
    cases hballoc
  have hbip : ip4ToUint32 b.IP = .ok b.addr := by
    rw [hbIP]
    exact ip4ToUint32_uint32ToIP4 _ hbl
  have hnew : (uint32ToIP4 a2).Equal b.IP = false := by
    cases hE : (uint32ToIP4 a2).Equal b.IP with
    | false => rfl
    | true =>
      rw [uint32ToIP4_Equal_iff a2 ha2l, hbip] at hE
      exact absurd (Except.ok.inj hE).symm hne
  have hconv : convertIPToUint64 (uint32ToIP4 a2) = a2 := convertIPToUint64_uint32ToIP4 _ ha2l
  refine ⟨_, _, createOffer_cons s p now a2 rest key inv.mu hav hkey, ToOffer_YIAddr _ _ _,
    ⟨_, GoMap.get_set_self _ _ _, rfl, hconv, hnew⟩, hne, ?_, ?_, ?_, ?_, rfl, ?_⟩
  · simp only [hconv]
    rw [GoMap.get_set_of_ne _ _ _ _ (fun e => hne e.symm)]
    exact hballoc
  · simp only [hconv]
    exact GoMap.get_set_self _ _ _
  · intro hin
    have hin2 : b.addr ∈ s.ipPool.available := by rw [hav]; exact List.mem_cons_of_mem _ hin
    have := inv.free _ hin2
    rw [this] at hballoc
    cases hballoc
  · have hnd := inv.nodup
    rw [hav] at hnd
    exact (List.nodup_cons.1 hnd).1
  · intro e he
    rcases GoMap.mem_set_cases _ _ _ _ he with ⟨hold, hk⟩ | rfl
    · cases hE : e.2.IP.Equal b.IP with
      | false => rfl
      | true =>
        rw [inv.equal_iff e hold, hbip] at hE
        have haddr : b.addr = e.2.addr := Except.ok.inj hE
        have heq : e = (key, b) :=
          List.inj_on_of_nodup_map inv.addrs hold hmem haddr.symm
        rw [heq] at hk
        exact absurd rfl hk
    · exact hnew

/-- The second offer of C27 on the example server, whose client already holds `10.0.0.10`. -/
theorem createOffer_rebinds_bound_client_witness :
    ∃ offer s2, exampleBoundServer.createOffer (examplePacket 0x55 []) 200 = .ok (some offer, s2) ∧
      offer.YIAddr = IPv4 10 0 0 11 ∧
      (s2.allocated.get 167772170).isSome = true ∧ s2.allocated.get 167772171 = some true ∧
      s2.ipPool.available = [167772172] ∧
      (∀ e ∈ s2.bindings, e.2.IP.Equal (IPv4 10 0 0 10) = false) := by
  obtain ⟨offer, s2, h1, h2, _, _, h5, h6, _, _, h9, h10⟩ :=
    createOffer_rebinds_bound_client exampleConfig exampleBoundServer (examplePacket 0x55 []) 200
      73588229205 ⟨IPv4 10 0 0 10, some [0x00, 0x11, 0x22, 0x33, 0x44, 0x55], 3600000000100⟩
      167772171 [167772172] exampleBoundServer_reachable rfl rfl rfl
  exact ⟨offer, s2, h1, h2, h5, h6, h9, h10⟩

/-! ## The round trip of the packet codec -/

theorem padTo_length (n : Nat) (l : List Byte) : (padTo n l).length = n := by
  simp only [padTo, List.length_append, List.length_take, List.length_replicate]
  omega

theorem byte_val_of_le (n : Nat) (h : n ≤ 255) : (byte n).val = n := by
  simp only [byte]
  omega

theorem scanOptions_optionBytes (opts : List (Byte × List Byte))
    (h : ∀ o ∈ opts, o.1 ≠ OptionEnd ∧ o.2.length ≤ 255) :
    ∀ fuel : Nat,
      ((opts.map (fun o => o.1 :: byte o.2.length :: o.2)).flatten ++ [OptionEnd]).length
        ≤ fuel →
      scanOptions fuel
        ((opts.map (fun o => o.1 :: byte o.2.length :: o.2)).flatten ++ [OptionEnd]) = opts := by
  induction opts with
  | nil =>
    intro fuel hf
    cases fuel with
    | zero => simp at hf
    | succ k => rfl
  | cons o opts ih =>
    intro fuel hf
    obtain ⟨hcode, hlen⟩ := h o (List.mem_cons_self _ _)
    have ih2 := ih (fun x hx => h x (List.mem_cons_of_mem _ hx))
    cases fuel with
    | zero => simp at hf
    | succ k =>
      simp only [List.map_cons, List.flatten_cons, List.cons_append, List.append_assoc]
      rw [scanOptions, if_neg hcode, byte_val_of_le _ hlen, List.take_left, List.drop_left]
      rw [ih2 k]
      simp only [List.map_cons, List.flatten_cons, List.cons_append, List.append_assoc,
        List.length_cons, List.length_append] at hf
      simp only [List.length_append, List.length_cons, List.length_nil] at hf ⊢
      omega

theorem bigEndian_intToBytes (n : Nat) (h : n < 2 ^ 32) : bigEndian (intToBytes n) = n := by
  have hv := bytes_value n h
  rw [shift_or_eq_add _ _ _ _ (byte _).isLt (byte _).isLt (byte _).isLt] at hv
  simp only [bigEndian, intToBytes, List.foldl_cons, List.foldl_nil]
  omega

theorem bigEndian_uint16 (v : Nat) (h : v < 2 ^ 16) :
    bigEndian [byte (v >>> 8), byte v] = v := by
  have hv := byte_bigEndian v h
  simp only [bigEndian, List.foldl_cons, List.foldl_nil]
  omega

theorem Encode_eq (p : Packet) (c0 c1 c2 c3 y0 y1 y2 y3 s0 s1 s2 s3 g0 g1 g2 g3 : Byte)
    (m0 m1 m2 m3 m4 m5 : Byte)
    (hc : p.CIAddr.To4 = some [c0, c1, c2, c3]) (hy : p.YIAddr.To4 = some [y0, y1, y2, y3])
    (hs : p.SIAddr.To4 = some [s0, s1, s2, s3]) (hg : p.GIAddr.To4 = some [g0, g1, g2, g3])
    (hm : p.CHAddr = some [m0, m1, m2, m3, m4, m5]) :
    p.Encode = [p.Op, p.HType, p.HLen, p.Hops,
        byte (p.XId >>> 24), byte (p.XId >>> 16), byte (p.XId >>> 8), byte p.XId,
        byte (p.Secs >>> 8), byte p.Secs, byte (p.Flags >>> 8), byte p.Flags,
        c0, c1, c2, c3, y0, y1, y2, y3, s0, s1, s2, s3, g0, g1, g2, g3,
        m0, m1, m2, m3, m4, m5, 0, 0, 0, 0, 0, 0, 0, 0, 0, 0] ++
      ((padTo 64 p.SName ++ (padTo 128 p.File ++ magicCookie)) ++
        (p.optionBytes ++ [OptionEnd])) := by
  have hpad : padTo 16 [m0, m1, m2, m3, m4, m5]
      = [m0, m1, m2, m3, m4, m5, 0, 0, 0, 0, 0, 0, 0, 0, 0, 0] := rfl
  simp only [Packet.Encode, Packet.fixedBytes, addr4_of_To4 _ _ _ _ _ hc,
    addr4_of_To4 _ _ _ _ _ hy, addr4_of_To4 _ _ _ _ _ hs, addr4_of_To4 _ _ _ _ _ hg, hm,
    Slice.bytes, Option.getD_some, hpad, intToBytes, List.cons_append, List.nil_append,
    List.append_assoc]

theorem prefix_length (p : Packet) :
    (padTo 64 p.SName ++ (padTo 128 p.File ++ magicCookie)).length = 196 := by
  simp only [List.length_append, padTo_length, magicCookie, List.length_cons, List.length_nil]

theorem Decode_Encode_eq (p : Packet) (c0 c1 c2 c3 y0 y1 y2 y3 s0 s1 s2 s3 g0 g1 g2 g3 : Byte)
    (m0 m1 m2 m3 m4 m5 : Byte)
    (hc : p.CIAddr.To4 = some [c0, c1, c2, c3]) (hy : p.YIAddr.To4 = some [y0, y1, y2, y3])
    (hs : p.SIAddr.To4 = some [s0, s1, s2, s3]) (hg : p.GIAddr.To4 = some [g0, g1, g2, g3])
    (hm : p.CHAddr = some [m0, m1, m2, m3, m4, m5]) :
    ∃ q, Decode p.Encode = .ok q ∧ q.Op = p.Op ∧ q.HType = p.HType ∧ q.HLen = p.HLen ∧
      q.Hops = p.Hops ∧ q.XId = bigEndian (intToBytes p.XId) ∧
      q.Secs = bigEndian [byte (p.Secs >>> 8), byte p.Secs] ∧
      q.Flags = bigEndian [byte (p.Flags >>> 8), byte p.Flags] ∧
      q.CIAddr = some [c0, c1, c2, c3] ∧ q.YIAddr = some [y0, y1, y2, y3] ∧
      q.SIAddr = some [s0, s1, s2, s3] ∧ q.GIAddr = some [g0, g1, g2, g3] ∧
      q.CHAddr = some [m0, m1, m2, m3, m4, m5, 0, 0, 0, 0, 0, 0, 0, 0, 0, 0] ∧
      q.SName = padTo 64 p.SName ∧ q.File = padTo 128 p.File ∧
      q.Options = scanOptions (240 + (p.optionBytes ++ [OptionEnd]).length)
        (p.optionBytes ++ [OptionEnd]) := by
  have henc := Encode_eq p c0 c1 c2 c3 y0 y1 y2 y3 s0 s1 s2 s3 g0 g1 g2 g3 m0 m1 m2 m3 m4 m5
    hc hy hs hg hm
  have hpre := prefix_length p
  have hlen : p.Encode.length = 240 + (p.optionBytes ++ [OptionEnd]).length := by
    rw [henc]
    simp only [List.length_append, List.length_cons, List.length_nil, hpre] at hpre ⊢
    omega
  have hdrop : p.Encode.drop 240 = p.optionBytes ++ [OptionEnd] := by
    rw [henc]
    simp only [List.cons_append, List.nil_append, List.drop_succ_cons]
    exact List.drop_left' hpre
  have hscan : scanOptions p.Encode.length (p.Encode.drop 240)
      = scanOptions (240 + (p.optionBytes ++ [OptionEnd]).length)
          (p.optionBytes ++ [OptionEnd]) := by
    rw [hdrop, hlen]
  have hsn : slice p.Encode 44 108 = padTo 64 p.SName := by
    rw [henc]
    simp only [slice, List.cons_append, List.nil_append, List.drop_succ_cons, List.drop_zero,
      List.append_assoc]
    exact List.take_left' (padTo_length _ _)
  have hfi : slice p.Encode 108 236 = padTo 128 p.File := by
    rw [henc]
    simp only [slice, List.cons_append, List.nil_append, List.drop_succ_cons,
      List.append_assoc]
    rw [List.drop_left' (padTo_length _ _)]
    exact List.take_left' (padTo_length _ _)
  refine ⟨_, by simp only [Decode]; rw [if_neg (by rw [hlen]; omega)], ?_⟩
  simp only [hscan, hsn, hfi]
  rw [henc]
  simp [slice, intToBytes]

theorem To4_Equal (ip : IP) (a b c d : Byte) (h : ip.To4 = some [a, b, c, d]) :
    IP.Equal (some [a, b, c, d]) ip = true := by
  rcases To4_cases ip with hn | ⟨a2, b2, c2, d2, h2, hip⟩
  · rw [hn] at h; cases h
  · rw [h2] at h
    cases h
    rcases hip with rfl | rfl
    · simp [IP.Equal, Slice.bytes]
    · simp [IP.Equal, Slice.bytes, v4InV6Prefix]

theorem To4_some (ip : IP) (h : ip.To4 ≠ none) : ∃ a b c d, ip.To4 = some [a, b, c, d] := by
  rcases To4_cases ip with hn | ⟨a, b, c, d, h2, _⟩
  · exact absurd hn h
  · exact ⟨a, b, c, d, h2⟩

theorem padTo_of_le (n : Nat) (l : List Byte) (h : l.length ≤ n) :
    padTo n l = l ++ List.replicate (n - l.length) 0 := by
  rw [padTo, List.take_of_length_le h]

/-- C22, amended: for every packet `P` whose `XId` fits 32 bits and whose `Secs`
and `Flags` fit 16 bits, with a 6-byte `CHAddr`, IPv4 addresses, `SName` of at
most 64 and `File` of at most 128 bytes, and whose options all have a code
other than END (255) and data of at most 255 bytes, `Decode(Encode(P))`
succeeds and reproduces `Op`, `HType`, `HLen`, `Hops`, `XId`, `Secs`, `Flags`,
the four addresses in their 4-byte form (equal to the originals in the sense of
`IP.Equal`), the first 6 bytes of `CHAddr`, `SName` and `File` up to their zero
padding, and the full option sequence of `P` in the same order, repeated codes
included. -/
theorem Decode_Encode_roundTrip (p : Packet)
    (hx : p.XId < 2 ^ 32) (hse : p.Secs < 2 ^ 16) (hfl : p.Flags < 2 ^ 16)
    (hc : p.CIAddr.To4 ≠ none) (hy : p.YIAddr.To4 ≠ none) (hs : p.SIAddr.To4 ≠ none)
    (hg : p.GIAddr.To4 ≠ none) (hm : p.CHAddr.bytes.length = 6)
    (hsn : p.SName.length ≤ 64) (hfi : p.File.length ≤ 128)
    (hopt : ∀ o ∈ p.Options, o.1 ≠ OptionEnd ∧ o.2.length ≤ 255) :
    ∃ q, Decode p.Encode = .ok q ∧ q.Op = p.Op ∧ q.HType = p.HType ∧ q.HLen = p.HLen ∧
      q.Hops = p.Hops ∧ q.XId = p.XId ∧ q.Secs = p.Secs ∧ q.Flags = p.Flags ∧
      (q.CIAddr = p.CIAddr.To4 ∧ q.CIAddr.Equal p.CIAddr = true) ∧
      (q.YIAddr = p.YIAddr.To4 ∧ q.YIAddr.Equal p.YIAddr = true) ∧
      (q.SIAddr = p.SIAddr.To4 ∧ q.SIAddr.Equal p.SIAddr = true) ∧
      (q.GIAddr = p.GIAddr.To4 ∧ q.GIAddr.Equal p.GIAddr = true) ∧
      q.CHAddr.bytes.take 6 = p.CHAddr.bytes ∧
      q.SName = p.SName ++ List.replicate (64 - p.SName.length) 0 ∧
      q.File = p.File ++ List.replicate (128 - p.File.length) 0 ∧
      q.Options = p.Options := by
  obtain ⟨c0, c1, c2, c3, hc4⟩ := To4_some _ hc
  obtain ⟨y0, y1, y2, y3, hy4⟩ := To4_some _ hy
  obtain ⟨s0, s1, s2, s3, hs4⟩ := To4_some _ hs
  obtain ⟨g0, g1, g2, g3, hg4⟩ := To4_some _ hg
  obtain ⟨m0, m1, m2, m3, m4, m5, hm6⟩ := bytes_of_length_six _ hm
  obtain ⟨q, hq, h1, h2, h3, h4, h5, h6, h7, h8, h9, h10, h11, h12, h13, h14, h15⟩ :=
    Decode_Encode_eq p c0 c1 c2 c3 y0 y1 y2 y3 s0 s1 s2 s3 g0 g1 g2 g3 m0 m1 m2 m3 m4 m5
      hc4 hy4 hs4 hg4 hm6
  refine ⟨q, hq, h1, h2, h3, h4, ?_, ?_, ?_, ⟨?_, ?_⟩, ⟨?_, ?_⟩, ⟨?_, ?_⟩, ⟨?_, ?_⟩, ?_, ?_, ?_,
    ?_⟩
  rotate_right
  · rw [h15]
    exact scanOptions_optionBytes p.Options hopt _ (by unfold Packet.optionBytes; omega)
  · rw [h5, bigEndian_intToBytes _ hx]
  · rw [h6, bigEndian_uint16 _ hse]
  · rw [h7, bigEndian_uint16 _ hfl]
  · rw [h8, hc4]
  · rw [h8]; exact To4_Equal _ _ _ _ _ hc4
  · rw [h9, hy4]
  · rw [h9]; exact To4_Equal _ _ _ _ _ hy4
  · rw [h10, hs4]
  · rw [h10]; exact To4_Equal _ _ _ _ _ hs4
  · rw [h11, hg4]
  · rw [h11]; exact To4_Equal _ _ _ _ _ hg4
  · rw [h12, hm6]; rfl
  · rw [h13, padTo_of_le _ _ hsn]
  · rw [h14, padTo_of_le _ _ hfi]

/-- The round trip of C22 on the packet of `TestPacketEncodeDecode`. -/
theorem Decode_Encode_roundTrip_witness :
    ∃ q, Decode testPacket.Encode = .ok q ∧ q.XId = 12345 ∧ q.Flags = 0x8000 ∧
      q.CIAddr.Equal (IPv4 192 168 1 100) = true ∧
      q.CHAddr.bytes.take 6 = [0x00, 0x11, 0x22, 0x33, 0x44, 0x55] ∧
      q.Options = [(53, [1]), (55, [1, 3, 6, 15])] := by
  obtain ⟨q, hq, _, _, _, _, h5, _, h7, h8, _, _, _, h12, _, _, h15⟩ :=
    Decode_Encode_roundTrip testPacket (by decide) (by decide) (by decide) (by decide)
      (by decide) (by decide) (by decide) (by decide) (by decide) (by decide) (by decide)
  exact ⟨q, hq, h5, h7, h8.2, h12, h15⟩

/-- C22 as stated fails: the packet of the round-trip test with one more
option added through `AddOption`, of code 255 and empty data, is encoded and
decoded without error, but the decoded packet has only the two options that
precede the added one: the scan of the options stops at the code 255. -/
theorem Decode_Encode_drops_option_255 :
    ∃ q, Decode (testPacket.AddOption 255 []).Encode = .ok q ∧
      q.Options = [(53, [1]), (55, [1, 3, 6, 15])] ∧
      q.Options ≠ (testPacket.AddOption 255 []).Options := by
  obtain ⟨q, hq, _, _, _, _, _, _, _, _, _, _, _, _, _, _, h15⟩ :=
    Decode_Encode_eq (testPacket.AddOption 255 []) 192 168 1 100 0 0 0 0 192 168 1 1
      192 168 1 1 0x00 0x11 0x22 0x33 0x44 0x55 rfl rfl rfl rfl rfl
  have ho : q.Options = [(53, [1]), (55, [1, 3, 6, 15])] := by
    rw [h15]
    rfl
  refine ⟨q, hq, ho, ?_⟩
  rw [ho]
  decide
end DHCP
